import Mathlib

/-!
# Settlement core of the maintenance data-access layer

A shallow embedding of the settlement logic of `src/js/firebase-database-cdn.js`
(class `FirebaseDatabase`): `computeDerived`, `addMaintenanceJob`,
`updateMaintenanceJob`, `getMaintenanceJobs`, `getRepSettlements`,
`getTechSettlements`, the settlement lifecycle and `getNextPhoneNumber`.

Modelling conventions.

* JavaScript numbers are exact rationals together with `NaN` (`Option ℚ`, where
  `none` is `NaN`).  The infinities and the sign of zero are not represented; the
  rounding of IEEE doubles is represented where the code counts with integers
  (the identifier allocator), not in the money arithmetic.
* A JavaScript object is an association list from property names to values in
  which the first binding of a name is the one that is read.  An object spread
  `{...a, ...b}` is then `b ++ a`, and an absent property reads as `undefined`.
* The elements of a `parts` array are objects with the four properties the code
  reads (`partName`, `partCost`, `repId`, `repName`), each a primitive.
* The dictionaries `repTotals` and `techTotals` are lists of records in insertion
  order.  A bucket is found by the property name of the id, as on a plain
  JavaScript object, and a name inherited from `Object.prototype` finds the
  inherited value.  Every call starts on the `Object.prototype` of the language:
  the properties that an update of an inherited value leaves behind are not
  followed.  Insertion order is the order of `Object.values` for names that are
  not integers.
-/

namespace Ostora

/-! ## Values -/

/-- Primitive values a stored field can hold.  A `date` is a raw `Date` (epoch
milliseconds) and a `timestamp` is the structured timestamp object of the store
(its `seconds` property). -/
inductive Prim where
  | undefined
  | null
  | bool (b : Bool)
  | num (q : ℚ)
  | nan
  | str (s : String)
  | date (ms : Int)
  | timestamp (seconds : Int)
  deriving DecidableEq

/-- One element of a job's `parts` array. -/
structure Part where
  partName : Prim := Prim.undefined
  partCost : Prim := Prim.undefined
  repId : Prim := Prim.undefined
  repName : Prim := Prim.undefined
  deriving DecidableEq

/-- A value of a job property: a primitive or an array of parts. -/
inductive Val where
  | prim (p : Prim)
  | arr (ps : List Part)
  deriving DecidableEq

/-- A JavaScript object: the first binding of a property name is the one read. -/
abbrev Obj := List (String × Val)

/-- The value `undefined`. -/
def vUndef : Val := Val.prim Prim.undefined

/-- A number literal. -/
def vNum (q : ℚ) : Val := Val.prim (Prim.num q)

/-- A string literal. -/
def vStr (s : String) : Val := Val.prim (Prim.str s)

/-- Property read `o.k`: `undefined` when the property is absent. -/
def field (o : Obj) (k : String) : Val :=
  match o.lookup k with
  | some v => v
  | none => vUndef

/-- Property write `o.k = v`. -/
def setField (o : Obj) (k : String) (v : Val) : Obj := (k, v) :: o

/-! ## Coercions of JavaScript -/

/-- Truthiness of a primitive (`ToBoolean`). -/
def Prim.truthy : Prim → Bool
  | Prim.undefined => false
  | Prim.null => false
  | Prim.bool b => b
  | Prim.num q => decide (q ≠ 0)
  | Prim.nan => false
  | Prim.str s => decide (s ≠ "")
  | Prim.date _ => true
  | Prim.timestamp _ => true

/-- Truthiness of a value: every array is truthy. -/
def Val.truthy : Val → Bool
  | Val.prim p => p.truthy
  | Val.arr _ => true

/-- White space that `Number` trims from both ends of a string. -/
def isStrWhiteSpace (c : Char) : Bool :=
  let n := c.toNat
  n = 9 || n = 10 || n = 11 || n = 12 || n = 13 || n = 32 || n = 160 || n = 5760 ||
  (8192 ≤ n && n ≤ 8202) || n = 8232 || n = 8233 || n = 8239 || n = 8287 ||
  n = 12288 || n = 65279

/-- Value of a character as a digit in the given radix. -/
def digitValue (radix : Nat) (c : Char) : Option Nat :=
  let n := c.toNat
  let d : Option Nat :=
    if 48 ≤ n ∧ n ≤ 57 then some (n - 48)
    else if 97 ≤ n ∧ n ≤ 102 then some (n - 87)
    else if 65 ≤ n ∧ n ≤ 70 then some (n - 55)
    else none
  match d with
  | some v => if v < radix then some v else none
  | none => none

/-- Whether a character is a digit of the radix. -/
def isDigitOf (radix : Nat) (c : Char) : Bool := (digitValue radix c).isSome

/-- The number written by a sequence of digits. -/
def digitsValue (radix : Nat) (ds : List Char) : Nat :=
  ds.foldl (fun n c => radix * n + (digitValue radix c).getD 0) 0

/-- The exponent part of a decimal literal (`e`, an optional sign, digits); an
empty remainder is exponent zero. -/
def parseExponent (cs : List Char) : Option Int :=
  match cs with
  | [] => some 0
  | c :: rest =>
    if c.toNat = 101 ∨ c.toNat = 69 then
      let signed : Bool × List Char :=
        match rest with
        | [] => (false, [])
        | s :: r =>
          if s.toNat = 43 then (false, r)
          else if s.toNat = 45 then (true, r)
          else (false, s :: r)
      if signed.2 ≠ [] ∧ signed.2.all (isDigitOf 10) = true then
        some (if signed.1 then -((digitsValue 10 signed.2 : Nat) : Int)
              else ((digitsValue 10 signed.2 : Nat) : Int))
      else none
    else none

/-- Scale a rational by a power of ten. -/
def scale10 (m : ℚ) (e : Int) : ℚ :=
  if 0 ≤ e then m * (10 : ℚ) ^ e.toNat else m / (10 : ℚ) ^ (-e).toNat

/-- An unsigned decimal literal: digits, an optional fraction, an optional
exponent; at least one digit before the exponent. -/
def parseUnsignedDecimal (cs : List Char) : Option ℚ :=
  let ip := cs.takeWhile (isDigitOf 10)
  let r1 := cs.dropWhile (isDigitOf 10)
  let frac : List Char × List Char :=
    match r1 with
    | [] => ([], [])
    | c :: r =>
      if c.toNat = 46 then (r.takeWhile (isDigitOf 10), r.dropWhile (isDigitOf 10))
      else ([], c :: r)
  if ip = [] ∧ frac.1 = [] then none
  else
    match parseExponent frac.2 with
    | none => none
    | some e =>
      some (scale10 ((digitsValue 10 ip : ℚ)
        + (digitsValue 10 frac.1 : ℚ) / (10 : ℚ) ^ frac.1.length) e)

/-- A non-decimal integer literal body (after `0x`, `0o` or `0b`). -/
def parseRadix (radix : Nat) (ds : List Char) : Option ℚ :=
  if ds ≠ [] ∧ ds.all (isDigitOf radix) = true then some (digitsValue radix ds : ℚ)
  else none

/-- The trimmed string as a number: `Number(s)` for a string `s`.  The literal
`Infinity` has no value in this model and reads as `NaN`. -/
def parseNumeric (cs : List Char) : Option ℚ :=
  match cs with
  | [] => some 0
  | c :: rest =>
    if c.toNat = 43 then parseUnsignedDecimal rest
    else if c.toNat = 45 then (parseUnsignedDecimal rest).map (fun q => -q)
    else
      match rest with
      | [] => parseUnsignedDecimal (c :: rest)
      | x :: ds =>
        if c.toNat = 48 ∧ (x.toNat = 120 ∨ x.toNat = 88) then parseRadix 16 ds
        else if c.toNat = 48 ∧ (x.toNat = 111 ∨ x.toNat = 79) then parseRadix 8 ds
        else if c.toNat = 48 ∧ (x.toNat = 98 ∨ x.toNat = 66) then parseRadix 2 ds
        else parseUnsignedDecimal (c :: rest)

/-- Trim white space from both ends. -/
def trimWhiteSpace (cs : List Char) : List Char :=
  ((cs.dropWhile isStrWhiteSpace).reverse.dropWhile isStrWhiteSpace).reverse

/-- The string-to-number conversion `Number(s)`; `none` is `NaN`. -/
def stringToNumber (s : String) : Option ℚ := parseNumeric (trimWhiteSpace s.data)

/-- The conversion `Number(p)` of a primitive; `none` is `NaN`. -/
def Prim.toNumber : Prim → Option ℚ
  | Prim.undefined => none
  | Prim.null => some 0
  | Prim.bool b => some (if b then 1 else 0)
  | Prim.num q => some q
  | Prim.nan => none
  | Prim.str s => stringToNumber s
  | Prim.date ms => some (ms : ℚ)
  | Prim.timestamp _ => none

/-- The conversion `Number(v)`: an empty array is `0`, an array of objects is
`NaN`. -/
def Val.toNumber : Val → Option ℚ
  | Val.prim p => p.toNumber
  | Val.arr [] => some 0
  | Val.arr (_ :: _) => none

/-- The idiom `Number(p) || 0` on a primitive. -/
def primNumOr0 (p : Prim) : ℚ := p.toNumber.getD 0

/-- The idiom `Number(v) || 0`: `NaN` and `0` both give `0`. -/
def numOr0 (v : Val) : ℚ := v.toNumber.getD 0

/-- The conversion `String(n)` of a number: the decimal notation of an integer
below `10^21` in absolute value, `"NaN"`; the notation of other numbers is not
modelled (`none`). -/
def numberToString : Option ℚ → Option String
  | none => some "NaN"
  | some q => if q.den = 1 ∧ |q.num| < 10 ^ 21 then some (toString q.num) else none

/-! ## The calculator -/

/-- Result of `computeDerived`. -/
structure Derived where
  profit : ℚ
  techCommission : ℚ
  shopProfit : ℚ
  deriving DecidableEq

/-- The rate `computeDerived` uses: `techPercent` itself when it is of type
number and not `NaN`, else `0`. -/
def techRate (techPercent : Val) : ℚ :=
  match techPercent with
  | Val.prim (Prim.num q) => q
  | _ => 0

/-- The method `computeDerived(partCost, amountCharged, techPercent)`. -/
def computeDerived (partCost amountCharged techPercent : Val) : Derived :=
  let pc := numOr0 partCost
  let ac := numOr0 amountCharged
  let tp := techRate techPercent
  let profit := ac - pc
  let techCommission := max 0 (profit * tp)
  let shopProfit := profit - techCommission
  { profit := profit, techCommission := techCommission, shopProfit := shopProfit }

/-! ## The maintenance job repository -/

/-- The collection `maintenanceJobs`: document id and document data. -/
abbrev Store := List (String × Obj)

/-- The test `v && Array.isArray(v) && v.length > 0`. -/
def isNonEmptyArray : Val → Bool
  | Val.arr (_ :: _) => true
  | _ => false

/-- The elements of an array value (no elements for a value that is no array). -/
def partsOf : Val → List Part
  | Val.arr ps => ps
  | Val.prim _ => []

/-- The reduction `parts.reduce((sum, part) => sum + (Number(part.partCost) || 0), 0)`. -/
def sumPartCosts (ps : List Part) : ℚ :=
  ps.foldl (fun sum part => sum + primNumOr0 part.partCost) 0

/-- The value the store writes for `serverTimestamp()` at instant `now`. -/
def serverTimestamp (now : Int) : Val := Val.prim (Prim.timestamp now)

/-- The statement `if (!jobData.totalPartCost && totalPartCost > 0)
jobData.totalPartCost = totalPartCost` shared by create and update. -/
def fillTotalPartCost (jobData : Obj) (totalPartCost : ℚ) : Obj :=
  if (field jobData "totalPartCost").truthy = false ∧ totalPartCost > 0 then
    setField jobData "totalPartCost" (vNum totalPartCost)
  else jobData

/-- The total part cost `addMaintenanceJob` derives from `jobData`. -/
def createTotalPartCost (jobData : Obj) : ℚ :=
  if isNonEmptyArray (field jobData "parts") = true then
    sumPartCosts (partsOf (field jobData "parts"))
  else if field jobData "totalPartCost" ≠ vUndef then
    numOr0 (field jobData "totalPartCost")
  else if field jobData "partCost" ≠ vUndef then
    numOr0 (field jobData "partCost")
  else 0

/-- The record `addMaintenanceJob(jobData)` hands to `addDoc`. -/
def newJobRecord (jobData : Obj) (now : Int) : Obj :=
  let totalPartCost := createTotalPartCost jobData
  let jobData1 := fillTotalPartCost jobData totalPartCost
  let d := computeDerived (vNum totalPartCost) (field jobData1 "amountCharged")
    (if field jobData1 "techPercent" ≠ vUndef then field jobData1 "techPercent" else vNum 0)
  [("profit", vNum d.profit), ("techCommission", vNum d.techCommission),
   ("shopProfit", vNum d.shopProfit), ("status", vStr "pending"),
   ("createdAt", serverTimestamp now), ("updatedAt", serverTimestamp now)] ++ jobData1

/-- The method `addMaintenanceJob(jobData)`: `newId` is the id the store assigns
to the new document; the result is that id and the collection afterwards. -/
def addMaintenanceJob (db : Store) (jobData : Obj) (newId : String) (now : Int) :
    String × Store :=
  (newId, (newId, newJobRecord jobData now) :: db)

/-- The method `getMaintenanceJob(jobId)`: `{ id, ...data }`, or the error thrown
when the document does not exist. -/
def getMaintenanceJob (db : Store) (jobId : String) : Except String Obj :=
  match db.lookup jobId with
  | some data => Except.ok (data ++ [("id", vStr jobId)])
  | none => Except.error "Job not found"

/-- The store primitive `updateDoc`: the given fields overwrite those of the
document, the other fields stay; it fails when the document does not exist. -/
def updateDoc (db : Store) (docId : String) (fields : Obj) : Except String Store :=
  match db.lookup docId with
  | some _ =>
    Except.ok (db.map (fun e => if e.1 = docId then (e.1, fields ++ e.2) else e))
  | none => Except.error "not-found"

/-- The flag `shouldRecalculate` of `updateMaintenanceJob`. -/
def shouldRecalculate (jobData : Obj) : Bool :=
  decide (field jobData "parts" ≠ vUndef) ||
  decide (field jobData "totalPartCost" ≠ vUndef) ||
  decide (field jobData "partCost" ≠ vUndef) ||
  decide (field jobData "amountCharged" ≠ vUndef) ||
  decide (field jobData "techPercent" ≠ vUndef)

/-- The total part cost `updateMaintenanceJob` derives: the partial update
first, then the stored job. -/
def updateTotalPartCost (currentJob jobData : Obj) : ℚ :=
  if isNonEmptyArray (field jobData "parts") = true then
    sumPartCosts (partsOf (field jobData "parts"))
  else if field jobData "totalPartCost" ≠ vUndef then
    numOr0 (field jobData "totalPartCost")
  else if field jobData "partCost" ≠ vUndef then
    numOr0 (field jobData "partCost")
  else if isNonEmptyArray (field currentJob "parts") = true then
    sumPartCosts (partsOf (field currentJob "parts"))
  else if field currentJob "totalPartCost" ≠ vUndef then
    numOr0 (field currentJob "totalPartCost")
  else if field currentJob "partCost" ≠ vUndef then
    numOr0 (field currentJob "partCost")
  else 0

/-- The body of `if (shouldRecalculate) { ... }`: `jobData` as it is after the
block, given the job read from the store. -/
def recalculate (currentJob jobData : Obj) : Obj :=
  let totalPartCost := updateTotalPartCost currentJob jobData
  let jobData1 := fillTotalPartCost jobData totalPartCost
  let amountCharged :=
    if field jobData1 "amountCharged" ≠ vUndef then field jobData1 "amountCharged"
    else field currentJob "amountCharged"
  let techPercent :=
    if field jobData1 "techPercent" ≠ vUndef then field jobData1 "techPercent"
    else field currentJob "techPercent"
  let d := computeDerived (vNum totalPartCost) amountCharged techPercent
  setField (setField (setField jobData1 "profit" (vNum d.profit))
    "techCommission" (vNum d.techCommission)) "shopProfit" (vNum d.shopProfit)

/-- The method `updateMaintenanceJob(jobId, jobData)`: the collection afterwards,
or the error thrown. -/
def updateMaintenanceJob (db : Store) (jobId : String) (jobData : Obj) (now : Int) :
    Except String Store :=
  if shouldRecalculate jobData = true then
    match getMaintenanceJob db jobId with
    | Except.error e => Except.error e
    | Except.ok currentJob =>
      updateDoc db jobId (("updatedAt", serverTimestamp now) :: recalculate currentJob jobData)
  else
    updateDoc db jobId (("updatedAt", serverTimestamp now) :: jobData)

/-- The derived fields of `job` are the numbers `d`. -/
def HasDerived (job : Obj) (d : Derived) : Prop :=
  field job "profit" = vNum d.profit
  ∧ field job "techCommission" = vNum d.techCommission
  ∧ field job "shopProfit" = vNum d.shopProfit

/-- The job invariant of the data model: the stored derived fields are
`computeDerived` of the stored `totalPartCost`, `amountCharged`, `techPercent`. -/
def DerivedInvariant (job : Obj) : Prop :=
  HasDerived job (computeDerived (field job "totalPartCost")
    (field job "amountCharged") (field job "techPercent"))

/-! ## The settlement aggregator -/

/-- The operator `a || b`. -/
def orElse (a b : Val) : Val := if a.truthy = true then a else b

/-- The statement `acc += (v || 0)` on a running sum that starts at `0`.  The sum
stays a number while `v` is falsy, a number or a boolean; with any other operand
JavaScript concatenates strings, and the sum is then `none` for good. -/
def plusOr0 (acc : Option ℚ) (v : Val) : Option ℚ :=
  match acc, orElse v (vNum 0) with
  | some a, Val.prim (Prim.num q) => some (a + q)
  | some a, Val.prim (Prim.bool b) => some (a + (if b then 1 else 0))
  | _, _ => none

/-- The display name used when a job or part carries none. -/
def placeholderName : Val := vStr "غير محدد"

/-- One entry of the detail list `jobs` of a representative's record. -/
structure JobDetail where
  jobId : Val
  jobDate : Val
  customerName : Val
  deviceModel : Val
  partName : Val
  partCost : ℚ
  deriving DecidableEq

/-- The record of one representative in `repTotals`. -/
structure RepTotals where
  repId : Val
  repName : Val
  jobsCount : Nat
  partsCount : Nat
  partCostSum : ℚ
  profitSum : Option ℚ
  techCommissionSum : Option ℚ
  shopProfitSum : Option ℚ
  revenueSum : Option ℚ
  jobs : List JobDetail
  deriving DecidableEq

/-- The record a bucket of `repTotals` is created with. -/
def newRepTotals (repId repName : Val) : RepTotals :=
  { repId := repId, repName := repName, jobsCount := 0, partsCount := 0,
    partCostSum := 0, profitSum := some 0, techCommissionSum := some 0,
    shopProfitSum := some 0, revenueSum := some 0, jobs := [] }

/-- The dictionary statement `if (!totals[id]) totals[id] = fresh`, for a
dictionary of records that carry their id (`key`). -/
def ensureBucket {β : Type} (key : β → Val) (totals : List β) (id : Val) (fresh : β) :
    List β :=
  if totals.any (fun x => decide (key x = id)) = true then totals
  else totals ++ [fresh]

/-- An in-place change of the bucket `totals[id]` (no effect without it). -/
def modifyBucket {β : Type} (key : β → Val) (totals : List β) (id : Val) (f : β → β) :
    List β :=
  totals.map (fun x => if key x = id then f x else x)

/-- The names a plain object inherits from `Object.prototype`. -/
def objectPrototypeNames : List String :=
  ["constructor", "__defineGetter__", "__defineSetter__", "hasOwnProperty",
   "__lookupGetter__", "__lookupSetter__", "isPrototypeOf", "propertyIsEnumerable",
   "toString", "valueOf", "__proto__", "toLocaleString"]

/-- The property name `String(id)` under which a dictionary `totals[id]` files an
id, where this model computes it: a string is its own name, a boolean and a
decimal integer have their notation, an array of objects lists `[object
Object]`.  The strings of the other numbers, of dates and of timestamp objects
depend on the engine or the library and are not computed (`none`). -/
def propertyName : Val → Option String
  | Val.prim (Prim.str s) => some s
  | Val.prim (Prim.bool b) => some (if b = true then "true" else "false")
  | Val.prim (Prim.num q) => numberToString (some q)
  | Val.prim Prim.nan => some "NaN"
  | Val.prim Prim.undefined => some "undefined"
  | Val.prim Prim.null => some "null"
  | Val.prim (Prim.date _) => none
  | Val.prim (Prim.timestamp _) => none
  | Val.arr ps => some (String.intercalate "," (ps.map (fun _ => "[object Object]")))

/-- The key of the bucket `totals[id]`: the property name of the id, so that the
number `1` and the string `"1"` have one bucket.  An id whose name is not
computed is filed under itself: it shares its bucket with equal values only. -/
def idKey (id : Val) : Val :=
  match propertyName id with
  | some s => vStr s
  | none => id

/-- The name of the id is one that a plain object inherits: on a dictionary that
starts as `{}` the read `totals[id]` then finds the inherited value (a function,
or the prototype itself for `__proto__`), which is truthy and is no record. -/
def isInheritedName (id : Val) : Bool :=
  match propertyName id with
  | some s => decide (s ∈ objectPrototypeNames)
  | none => false

/-- The key under which the record of a representative is filed. -/
def repKey (x : RepTotals) : Val := idKey x.repId

/-- Why `getRepSettlements` throws: the `TypeError` of `repTotals[id].jobs.push(...)`
when `repTotals[id]` is an inherited value, which has no `jobs`. -/
inductive AggregationError where
  | pushOnUndefined (id : Val)
  deriving DecidableEq

/-- A `forEach` whose body may throw: the state after the last element, or the
first error. -/
def forEachThrowing {σ α ε : Type} (body : σ → α → Except ε σ) : σ → List α → Except ε σ
  | s, [] => Except.ok s
  | s, a :: rest =>
    match body s a with
    | Except.ok s2 => forEachThrowing body s2 rest
    | Except.error e => Except.error e

/-- The changes one part makes to the bucket of its representative:
`partsCount++`, `partCostSum += Number(part.partCost) || 0`, `jobs.push(...)`. -/
def partBump (job : Obj) (part : Part) (r : RepTotals) : RepTotals :=
  { r with
    partsCount := r.partsCount + 1
    partCostSum := r.partCostSum + primNumOr0 part.partCost
    jobs := r.jobs ++
      [{ jobId := field job "id"
         jobDate := orElse (field job "dateCreated") (field job "createdAt")
         customerName := field job "customerName"
         deviceModel := field job "deviceModel"
         partName := Val.prim part.partName
         partCost := primNumOr0 part.partCost }] }

/-- The body of `job.parts.forEach(part => ...)` in `getRepSettlements`.  Under
an inherited name no bucket is created (`!repTotals[id]` is false), the two
updates land on the inherited value, and `jobs.push` throws. -/
def accruePart (job : Obj) (totals : List RepTotals) (part : Part) :
    Except AggregationError (List RepTotals) :=
  if part.repId.truthy = false then Except.ok totals
  else if isInheritedName (Val.prim part.repId) = true then
    Except.error (AggregationError.pushOnUndefined (Val.prim part.repId))
  else
    Except.ok (modifyBucket repKey
      (ensureBucket repKey totals (idKey (Val.prim part.repId))
        (newRepTotals (Val.prim part.repId)
          (orElse (Val.prim part.repName) placeholderName)))
      (idKey (Val.prim part.repId)) (partBump job part))

/-- An id that is an object (a date, a timestamp): a `Set` holds every such id
as an element of its own. -/
def isObjectId : Prim → Bool
  | Prim.date _ => true
  | Prim.timestamp _ => true
  | _ => false

/-- The list `[...new Set(job.parts.map(p => p.repId).filter(id => id))]`: the
truthy ids, equal primitives once; the order of its elements does not influence
the totals. -/
def uniqueReps (ps : List Part) : List Prim :=
  (((ps.map (fun p => p.repId)).filter (fun id => id.truthy)).filter
      (fun id => !isObjectId id)).dedup
    ++ ((ps.map (fun p => p.repId)).filter (fun id => id.truthy)).filter isObjectId

/-- The change `jobsCount++`. -/
def jobBump (r : RepTotals) : RepTotals := { r with jobsCount := r.jobsCount + 1 }

/-- The body of `uniqueReps.forEach(repId => ...)`: `if (repTotals[repId])
repTotals[repId].jobsCount++`. -/
def countJobFor (totals : List RepTotals) (repId : Prim) : List RepTotals :=
  modifyBucket repKey totals (idKey (Val.prim repId)) jobBump

/-- The legacy cost `Number(job.partCost) || Number(job.totalPartCost) || 0`. -/
def legacyPartCost (job : Obj) : ℚ :=
  if numOr0 (field job "partCost") ≠ 0 then numOr0 (field job "partCost")
  else numOr0 (field job "totalPartCost")

/-- The changes a legacy job makes to the bucket of its representative. -/
def legacyBump (job : Obj) (r : RepTotals) : RepTotals :=
  { r with
    jobsCount := r.jobsCount + 1
    partsCount := r.partsCount + 1
    partCostSum := r.partCostSum + legacyPartCost job
    profitSum := plusOr0 r.profitSum (field job "profit")
    techCommissionSum := plusOr0 r.techCommissionSum (field job "techCommission")
    shopProfitSum := plusOr0 r.shopProfitSum (field job "shopProfit")
    revenueSum := plusOr0 r.revenueSum (field job "amountCharged")
    jobs := r.jobs ++
      [{ jobId := field job "id"
         jobDate := orElse (field job "dateCreated") (field job "createdAt")
         customerName := field job "customerName"
         deviceModel := field job "deviceModel"
         partName := orElse (field job "partName") (vStr "قطعة")
         partCost := numOr0 (field job "partCost") }] }

/-- The legacy branch `else if (job.repId) { ... }` of `getRepSettlements`; under
an inherited name it throws at `jobs.push` as the part branch does. -/
def accrueLegacy (job : Obj) (totals : List RepTotals) :
    Except AggregationError (List RepTotals) :=
  if isInheritedName (field job "repId") = true then
    Except.error (AggregationError.pushOnUndefined (field job "repId"))
  else
    Except.ok (modifyBucket repKey
      (ensureBucket repKey totals (idKey (field job "repId"))
        (newRepTotals (field job "repId") (orElse (field job "repName") placeholderName)))
      (idKey (field job "repId")) (legacyBump job))

/-- The body of `jobs.forEach(job => ...)` in `getRepSettlements`. -/
def repStep (totals : List RepTotals) (job : Obj) : Except AggregationError (List RepTotals) :=
  if isNonEmptyArray (field job "parts") = true then
    match forEachThrowing (accruePart job) totals (partsOf (field job "parts")) with
    | Except.ok totals2 =>
      Except.ok ((uniqueReps (partsOf (field job "parts"))).foldl countJobFor totals2)
    | Except.error e => Except.error e
  else if (field job "repId").truthy = true then accrueLegacy job totals
  else Except.ok totals

/-- The method `getRepSettlements`, as a function of the list `jobs` that its
call of `getMaintenanceJobs(filters)` returned: the records of
`Object.values(repTotals)` (in the order the buckets were created; the engine
lists integer names first), or the error thrown. -/
def getRepSettlements (jobs : List Obj) : Except AggregationError (List RepTotals) :=
  forEachThrowing repStep [] jobs

/-- The record of one technician in `techTotals`. -/
structure TechTotals where
  techId : Val
  techName : Val
  jobsCount : Nat
  partCostSum : Option ℚ
  profitSum : Option ℚ
  techCommissionSum : Option ℚ
  shopProfitSum : Option ℚ
  revenueSum : Option ℚ
  deriving DecidableEq

/-- The record a bucket of `techTotals` is created with. -/
def newTechTotals (techId techName : Val) : TechTotals :=
  { techId := techId, techName := techName, jobsCount := 0, partCostSum := some 0,
    profitSum := some 0, techCommissionSum := some 0, shopProfitSum := some 0,
    revenueSum := some 0 }

/-- The changes a job makes to the bucket of its technician. -/
def techBump (job : Obj) (r : TechTotals) : TechTotals :=
  { r with
    jobsCount := r.jobsCount + 1
    partCostSum := plusOr0 r.partCostSum (field job "partCost")
    profitSum := plusOr0 r.profitSum (field job "profit")
    techCommissionSum := plusOr0 r.techCommissionSum (field job "techCommission")
    shopProfitSum := plusOr0 r.shopProfitSum (field job "shopProfit")
    revenueSum := plusOr0 r.revenueSum (field job "amountCharged") }

/-- The key under which the record of a technician is filed. -/
def techKey (x : TechTotals) : Val := idKey x.techId

/-- The body of `jobs.forEach(job => ...)` in `getTechSettlements`.  Under an
inherited name no bucket is created and the six updates land on the inherited
value: the job reaches no record. -/
def techStep (totals : List TechTotals) (job : Obj) : List TechTotals :=
  if (field job "techId").truthy = false then totals
  else if isInheritedName (field job "techId") = true then totals
  else
    modifyBucket techKey
      (ensureBucket techKey totals (idKey (field job "techId"))
        (newTechTotals (field job "techId")
          (orElse (field job "techName") placeholderName)))
      (idKey (field job "techId")) (techBump job)

/-- The method `getTechSettlements`, as a function of the list `jobs` that its
call of `getMaintenanceJobs(filters)` returned: the records of
`Object.values(techTotals)` (in the order the buckets were created; the engine
lists integer names first). -/
def getTechSettlements (jobs : List Obj) : List TechTotals :=
  jobs.foldl techStep []

/-! ## The settlement lifecycle -/

/-- The record `createSettlement(settlementData)` hands to `addDoc`. -/
def newSettlementRecord (settlementData : Obj) (now : Int) : Obj :=
  [("status", vStr "open"), ("createdAt", serverTimestamp now),
   ("updatedAt", serverTimestamp now)] ++ settlementData

/-- The method `createSettlement(settlementData)` on the collection
`settlements`: `newId` is the id the store assigns to the new document. -/
def createSettlement (db : Store) (settlementData : Obj) (newId : String) (now : Int) :
    String × Store :=
  (newId, (newId, newSettlementRecord settlementData now) :: db)

/-- The fields `markSettlementPaid(settlementId, notes = '')` writes. -/
def paidFields (notes : Val) (now : Int) : Obj :=
  [("status", vStr "paid"), ("paidAt", serverTimestamp now),
   ("notes", if notes = vUndef then vStr "" else notes),
   ("updatedAt", serverTimestamp now)]

/-- The method `markSettlementPaid(settlementId, notes)`: the collection
afterwards, or the error thrown. -/
def markSettlementPaid (db : Store) (settlementId : String) (notes : Val) (now : Int) :
    Except String Store :=
  updateDoc db settlementId (paidFields notes now)

/-- One call of the settlement lifecycle. -/
inductive SettlementOp where
  | create (settlementData : Obj) (newId : String) (now : Int)
  | markPaid (settlementId : String) (notes : Val) (now : Int)

/-- The collection after one call; a call that throws leaves it as it was. -/
def applySettlementOp (db : Store) : SettlementOp → Store
  | SettlementOp.create settlementData newId now =>
    (createSettlement db settlementData newId now).2
  | SettlementOp.markPaid settlementId notes now =>
    match markSettlementPaid db settlementId notes now with
    | Except.ok db2 => db2
    | Except.error _ => db

/-- The collection after a sequence of calls. -/
def runSettlementOps (db : Store) (ops : List SettlementOp) : Store :=
  ops.foldl applySettlementOp db

/-- The ids the store assigns along a sequence of calls are new: no document
of the collection has the id at the moment it is assigned. -/
def idsFresh : Store → List SettlementOp → Prop
  | _, [] => True
  | db, SettlementOp.create settlementData newId now :: rest =>
    db.lookup newId = none
      ∧ idsFresh (applySettlementOp db (SettlementOp.create settlementData newId now)) rest
  | db, SettlementOp.markPaid settlementId notes now :: rest =>
    idsFresh (applySettlementOp db (SettlementOp.markPaid settlementId notes now)) rest

/-! ## The sequential identifier allocator -/

/-- What the allocator sees of the store: the document `counters/phoneBarcode`
(absent or its data) and the collection `phones`. -/
structure AllocState where
  counter : Option Obj
  phones : List Obj

/-- The characters of a string that the pattern `\D` leaves: the digits `0` to
`9`. -/
def stripNonDigits (s : String) : List Char := s.data.filter (isDigitOf 10)

/-- How many low bits a natural number has beyond the 53 bits of the significand
of a double (`fuel` bounds the halvings; the number itself is enough). -/
def excessBits : Nat → Nat → Nat
  | 0, _ => 0
  | fuel + 1, n => if n < 2 ^ 53 then 0 else excessBits fuel (n / 2) + 1

/-- The double nearest to a natural number, a tie going to the even significand:
the number itself up to `2^53`, a multiple of `2^e` beyond.  (A number of 309
digits or more is `Infinity` for the code, a number this model does not have.) -/
def roundToDouble (n : Nat) : Nat :=
  let e := excessBits n n
  let q := n / 2 ^ e
  let r := n % 2 ^ e
  if r * 2 < 2 ^ e then q * 2 ^ e
  else if 2 ^ e < r * 2 then (q + 1) * 2 ^ e
  else if q % 2 = 0 then q * 2 ^ e
  else (q + 1) * 2 ^ e

/-- The double nearest to an integer. -/
def roundIntToDouble (z : Int) : Int :=
  if 0 ≤ z then (roundToDouble z.toNat : Int) else -(roundToDouble (-z).toNat : Int)

/-- The sum `last + 1` of the transaction, a double: an integer is read as the
double nearest to it, and the sum is the double nearest to the exact sum (the
exact sum while both stay within `2^53` in absolute value); other numbers are
added exactly, as everywhere in this model of numbers. -/
def addOne (last : ℚ) : ℚ :=
  if last.den = 1 then ((roundIntToDouble (roundIntToDouble last.num + 1) : Int) : ℚ)
  else last + 1

/-- The call `parseInt(digits, 10)` on a string of digits: `NaN` (`none`) when
it is empty, else the double nearest to the decimal number. -/
def parseIntDigits (ds : List Char) : Option ℚ :=
  if ds = [] then none else some ((roundToDouble (digitsValue 10 ds) : Nat) : ℚ)

/-- The number `num` the seeding loop reads from a phone, `none` when it is
`NaN`: a `phone_number` of type number as it is, otherwise the digits of
`String(phone_number)`.  The strings of `undefined`, `null`, booleans and arrays
of objects hold no digit; the string of a date or timestamp object depends on
the time zone and is not modelled, such a `phone_number` is read as no number. -/
def phoneNumberValue (phone : Obj) : Option ℚ :=
  match field phone "phone_number" with
  | Val.prim (Prim.num q) => some q
  | Val.prim (Prim.str s) => parseIntDigits (stripNonDigits s)
  | _ => none

/-- The loop `phones.forEach(p => { ... if (!isNaN(num) && num > maxNum) maxNum =
num })` from `maxNum = 0`. -/
def scanMax (phones : List Obj) : ℚ :=
  phones.foldl (fun maxNum phone =>
    match phoneNumberValue phone with
    | some num => if num > maxNum then num else maxNum
    | none => maxNum) 0

/-- The value `last` of the transaction: the stored `lastNumber` when the
counter exists and it is of type number (`none` is `NaN`), else `0`. -/
def lastNumberOf (counter : Option Obj) : Option ℚ :=
  match counter with
  | none => some 0
  | some data =>
    match field data "lastNumber" with
    | Val.prim (Prim.num q) => some q
    | Val.prim Prim.nan => none
    | _ => some 0

/-- A number as a value. -/
def numberVal : Option ℚ → Val
  | some q => vNum q
  | none => Val.prim Prim.nan

/-- The method `s.padStart(n, c)` for a one-character filler. -/
def padStart (s : String) (n : Nat) (c : Char) : String :=
  String.mk (List.replicate (n - s.length) c ++ s.data)

/-- The barcode of a number: `String(n).padStart(6, '0')`. -/
def formatBarcode (n : Option ℚ) : Option String :=
  (numberToString n).map (fun s => padStart s 6 (Char.ofNat 48))

/-- The document the counter is set to. -/
def counterDoc (lastNumber : Val) (now : Int) : Obj :=
  [("lastNumber", lastNumber), ("updatedAt", serverTimestamp now)]

/-- Where a call of `getNextPhoneNumber` stands between two accesses of the
store. -/
inductive Phase where
  | start
  | sawAbsent
  | scanned (maxNum : ℚ)
  | ready
  | done (result : Option String)
  deriving DecidableEq

/-- One access of the store by a call of `getNextPhoneNumber`: the `getDoc` of
the counter, the `getPhones` with the loop, the `setDoc` that seeds the counter,
and the transaction, which the store runs as one serialized read-modify-write. -/
def allocStep (now : Int) (st : AllocState) : Phase → Phase × AllocState
  | Phase.start => if st.counter.isSome = true then (Phase.ready, st) else (Phase.sawAbsent, st)
  | Phase.sawAbsent => (Phase.scanned (scanMax st.phones), st)
  | Phase.scanned maxNum =>
    (Phase.ready, { st with counter := some (counterDoc (vNum maxNum) now) })
  | Phase.ready =>
    (Phase.done (formatBarcode ((lastNumberOf st.counter).map addOne)),
     { st with counter := some (counterDoc
        (numberVal ((lastNumberOf st.counter).map addOne)) now) })
  | Phase.done result => (Phase.done result, st)

/-- A call that makes `fuel` accesses of the store one after the other. -/
def runAlloc (now : Int) : Nat → Phase → AllocState → Phase × AllocState
  | 0, phase, st => (phase, st)
  | fuel + 1, phase, st =>
    runAlloc now fuel (allocStep now st phase).1 (allocStep now st phase).2

/-- The method `getNextPhoneNumber()` run without interference: the barcode
(`none` when its notation is not modelled) and the store afterwards.  Four
accesses complete every call. -/
def getNextPhoneNumber (st : AllocState) (now : Int) : Option String × AllocState :=
  match runAlloc now 4 Phase.start st with
  | (Phase.done result, st2) => (result, st2)
  | (_, st2) => (none, st2)

/-- The results of `n` calls of `getNextPhoneNumber` one after the other, and
the store afterwards. -/
def allocateMany (now : Int) : Nat → AllocState → List (Option String) × AllocState
  | 0, st => ([], st)
  | n + 1, st =>
    ((getNextPhoneNumber st now).1 :: (allocateMany now n (getNextPhoneNumber st now).2).1,
     (allocateMany now n (getNextPhoneNumber st now).2).2)

/-- Independent clients calling `getNextPhoneNumber` against one store. -/
structure AllocSystem where
  store : AllocState
  clients : List Phase

/-- The client `i` makes its next access of the store. -/
def systemStep (now : Int) (sys : AllocSystem) (i : Nat) : AllocSystem :=
  match sys.clients.get? i with
  | none => sys
  | some phase =>
    { store := (allocStep now sys.store phase).2
      clients := sys.clients.set i (allocStep now sys.store phase).1 }

/-- The clients access the store in the order of the schedule. -/
def runSchedule (now : Int) (sys : AllocSystem) (schedule : List Nat) : AllocSystem :=
  schedule.foldl (systemStep now) sys

/-- The number a call run without interference increments: the stored
`lastNumber` as the transaction reads it, or the seed when the counter is
absent. -/
def seenLast (st : AllocState) : Option ℚ :=
  match st.counter with
  | none => some (scanMax st.phones)
  | some data => lastNumberOf (some data)

/-! ## The filtered read of maintenance jobs -/

/-- The comparison of a `where` constraint. -/
inductive WhereOp where
  | eq
  | ge
  | le
  deriving DecidableEq

/-- A constraint `where(fieldPath, op, value)`. -/
structure Where where
  fieldPath : String
  op : WhereOp
  value : Val
  deriving DecidableEq

/-- A query on the collection `maintenanceJobs`: its constraints in the order
they were added. -/
abbrev Query := List Where

/-- An error thrown by the store: its `code` and its `message`. -/
structure StoreError where
  code : String
  message : String
  deriving DecidableEq

/-- The collaborators of the filtered read: the answer of the store to a query
on `maintenanceJobs` (the documents with their ids, or an error) and
`Date.parse`, the time value in milliseconds of a date string (`none` when
invalid). -/
structure World where
  getDocs : Query → Except StoreError (List (String × Obj))
  dateParse : String → Option Int

/-- What a call of `getMaintenanceJobs` did: the queries it sent to the store,
in order, and what it returned or threw. -/
structure ReadRun where
  issued : List Query
  outcome : Except StoreError (List Obj)

/-- The constraints both the indexed and the plain path add: `status`, `techId`,
`visitDate >= dateFrom`, `visitDate <= dateTo`, each when the filter is truthy. -/
def buildQuery (filters : Obj) : Query :=
  (if (field filters "status").truthy = true then
      [{ fieldPath := "status", op := WhereOp.eq, value := field filters "status" }]
    else [])
  ++ (if (field filters "techId").truthy = true then
      [{ fieldPath := "techId", op := WhereOp.eq, value := field filters "techId" }]
    else [])
  ++ (if (field filters "dateFrom").truthy = true then
      [{ fieldPath := "visitDate", op := WhereOp.ge, value := field filters "dateFrom" }]
    else [])
  ++ (if (field filters "dateTo").truthy = true then
      [{ fieldPath := "visitDate", op := WhereOp.le, value := field filters "dateTo" }]
    else [])

/-- The query of the fallback: the `status` only. -/
def fallbackQuery (filters : Obj) : Query :=
  if (field filters "status").truthy = true then
    [{ fieldPath := "status", op := WhereOp.eq, value := field filters "status" }]
  else []

/-- The loop `querySnapshot.forEach(doc => jobs.push({ id: doc.id, ...doc.data() }))`. -/
def snapshotJobs (docs : List (String × Obj)) : List Obj :=
  docs.map (fun d => d.2 ++ [("id", vStr d.1)])

/-- The operator `===` between a stored value and a filter value: equal
primitives of one type; `NaN` equals nothing, and an object (array, date,
timestamp) equals only itself, which a stored value never is. -/
def strictEq (a b : Val) : Bool :=
  match a, b with
  | Val.prim Prim.undefined, Val.prim Prim.undefined => true
  | Val.prim Prim.null, Val.prim Prim.null => true
  | Val.prim (Prim.bool x), Val.prim (Prim.bool y) => decide (x = y)
  | Val.prim (Prim.num x), Val.prim (Prim.num y) => decide (x = y)
  | Val.prim (Prim.str x), Val.prim (Prim.str y) => decide (x = y)
  | _, _ => false

/-- The predicate of the representative filter: the legacy `repId` is the
filter, or `parts` is an array with a part whose `repId` is the filter. -/
def repMatches (repId : Val) (job : Obj) : Bool :=
  strictEq (field job "repId") repId ||
    (match field job "parts" with
     | Val.arr ps => ps.any (fun part => strictEq (Val.prim part.repId) repId)
     | Val.prim _ => false)

/-- The statement `if (filters.repId) jobs = jobs.filter(...)`. -/
def repFilter (filters : Obj) (jobs : List Obj) : List Obj :=
  if (field filters "repId").truthy = true then
    jobs.filter (repMatches (field filters "repId"))
  else jobs

/-- The time value a `Date` keeps: `none` beyond 8.64e15 milliseconds. -/
def timeClip (t : Int) : Option Int :=
  if |t| ≤ 8640000000000000 then some t else none

/-- The time value of `new Date(v)` in milliseconds, `none` for an invalid
date: a number within 8.64e15 is truncated, a string parsed, a `Date` copied;
`undefined` and `NaN` give an invalid date, and so do an array of parts and a
structured timestamp `{seconds}` taken as a whole, whose primitive value is not
a date string. -/
def newDate (dateParse : String → Option Int) : Val → Option Int
  | Val.prim Prim.undefined => none
  | Val.prim Prim.null => some 0
  | Val.prim (Prim.bool b) => some (if b = true then 1 else 0)
  | Val.prim (Prim.num q) =>
    if |q| ≤ 8640000000000000 then some (Int.tdiv q.num q.den) else none
  | Val.prim Prim.nan => none
  | Val.prim (Prim.str s) => dateParse s
  | Val.prim (Prim.date ms) => some ms
  | Val.prim (Prim.timestamp _) => none
  | Val.arr _ => none

/-- The date the code reads from a job: `job.visitDate?.seconds ? new
Date(job.visitDate.seconds * 1000) : new Date(job.visitDate)`. -/
def visitInstant (dateParse : String → Option Int) (job : Obj) : Option Int :=
  match field job "visitDate" with
  | Val.prim (Prim.timestamp seconds) =>
    if seconds ≠ 0 then timeClip (seconds * 1000)
    else newDate dateParse (Val.prim (Prim.timestamp seconds))
  | v => newDate dateParse v

/-- The comparator of the sort, `dateB - dateA`; `none` is `NaN`. -/
def compareVisit (dateParse : String → Option Int) (a b : Obj) : Option Int :=
  match visitInstant dateParse b, visitInstant dateParse a with
  | some x, some y => some (x - y)
  | _, _ => none

/-- The sort leaves `a` before `b`: the comparator is not positive (`NaN` counts
as zero). -/
def staysBefore (dateParse : String → Option Int) (a b : Obj) : Bool :=
  match compareVisit dateParse a b with
  | some v => decide (v ≤ 0)
  | none => true

/-- The call `jobs.sort((a, b) => dateB - dateA)`: a stable sort, by insertion.
With a consistent comparator every stable sort gives this order; with an
inconsistent one (invalid dates) the language leaves the order to the engine. -/
def sortByVisitDesc (dateParse : String → Option Int) (jobs : List Obj) : List Obj :=
  jobs.insertionSort (fun a b => staysBefore dateParse a b = true)

/-- The comparison `jobDate >= dateFrom` of two dates (`false` with an invalid
one). -/
def instantGe (a b : Option Int) : Bool :=
  match a, b with
  | some x, some y => decide (y ≤ x)
  | _, _ => false

/-- The local tests of the fallback on one job, the representative aside: the
date bounds and the technician, each when the filter is truthy. -/
def passesLocal (dateParse : String → Option Int) (filters : Obj) (job : Obj) : Bool :=
  (!(field filters "dateFrom").truthy ||
      instantGe (visitInstant dateParse job) (newDate dateParse (field filters "dateFrom")))
  && (!(field filters "dateTo").truthy ||
      instantGe (newDate dateParse (field filters "dateTo")) (visitInstant dateParse job))
  && (!(field filters "techId").truthy ||
      strictEq (field job "techId") (field filters "techId"))

/-- The local filters of the fallback, in the order of the code: `dateFrom`,
`dateTo`, the representative, the technician. -/
def fallbackFilter (dateParse : String → Option Int) (filters : Obj) (allJobs : List Obj) :
    List Obj :=
  let afterFrom :=
    if (field filters "dateFrom").truthy = true then
      allJobs.filter (fun job =>
        instantGe (visitInstant dateParse job) (newDate dateParse (field filters "dateFrom")))
    else allJobs
  let afterTo :=
    if (field filters "dateTo").truthy = true then
      afterFrom.filter (fun job =>
        instantGe (newDate dateParse (field filters "dateTo")) (visitInstant dateParse job))
    else afterFrom
  let afterRep := repFilter filters afterTo
  if (field filters "techId").truthy = true then
    afterRep.filter (fun job => strictEq (field job "techId") (field filters "techId"))
  else afterRep

/-- Whether a list of characters occurs in another. -/
def containsChars (pat : List Char) : List Char → Bool
  | [] => pat.isEmpty
  | c :: cs => pat.isPrefixOf (c :: cs) || containsChars pat cs

/-- The test of the catch block: `indexError.code === 'failed-precondition' ||
indexError.message.includes('index')`. -/
def isMissingIndex (e : StoreError) : Bool :=
  decide (e.code = "failed-precondition") || containsChars "index".data e.message.data

/-- The value of `hasStatusAndDateRange` as a condition. -/
def hasStatusAndDateRange (filters : Obj) : Bool :=
  (field filters "status").truthy &&
    ((field filters "dateFrom").truthy || (field filters "dateTo").truthy)

/-- The method `getMaintenanceJobs(filters)`. -/
def getMaintenanceJobs (w : World) (filters : Obj) : ReadRun :=
  if hasStatusAndDateRange filters = true then
    match w.getDocs (buildQuery filters) with
    | Except.ok docs =>
      { issued := [buildQuery filters]
        outcome := Except.ok
          (sortByVisitDesc w.dateParse (repFilter filters (snapshotJobs docs))) }
    | Except.error indexError =>
      if isMissingIndex indexError = true then
        match w.getDocs (fallbackQuery filters) with
        | Except.ok docs =>
          { issued := [buildQuery filters, fallbackQuery filters]
            outcome := Except.ok
              (sortByVisitDesc w.dateParse
                (fallbackFilter w.dateParse filters (snapshotJobs docs))) }
        | Except.error error =>
          { issued := [buildQuery filters, fallbackQuery filters]
            outcome := Except.error error }
      else { issued := [buildQuery filters], outcome := Except.error indexError }
  else
    match w.getDocs (buildQuery filters) with
    | Except.ok docs =>
      { issued := [buildQuery filters]
        outcome := Except.ok
          (sortByVisitDesc w.dateParse (repFilter filters (snapshotJobs docs))) }
    | Except.error error => { issued := [buildQuery filters], outcome := Except.error error }

/-! ## A store with typed comparisons -/

/-- The instant of a date or timestamp value in milliseconds. -/
def storedInstant : Val → Option Int
  | Val.prim (Prim.date ms) => some ms
  | Val.prim (Prim.timestamp seconds) => some (seconds * 1000)
  | _ => none

/-- Lexicographic order of strings by code point. -/
def charsLe : List Char → List Char → Bool
  | [], _ => true
  | _ :: _, [] => false
  | a :: as, b :: bs => decide (a.toNat < b.toNat) || (decide (a.toNat = b.toNat) && charsLe as bs)

/-- The order of the store between two values of one type (numbers, strings,
timestamps); values of different types are not comparable in a range
constraint. -/
def storeLe (a b : Val) : Bool :=
  match a, b with
  | Val.prim (Prim.num x), Val.prim (Prim.num y) => decide (x ≤ y)
  | Val.prim (Prim.str x), Val.prim (Prim.str y) => charsLe x.data y.data
  | x, y =>
    match storedInstant x, storedInstant y with
    | some s, some t => decide (s ≤ t)
    | _, _ => false

/-- Equality in the store: equal values of one type. -/
def storeEq (a b : Val) : Bool :=
  match storedInstant a, storedInstant b with
  | some s, some t => decide (s = t)
  | none, none => decide (a = b) && decide (a ≠ vUndef) && decide (a ≠ Val.prim Prim.nan)
  | _, _ => false

/-- A document satisfies a constraint of a query. -/
def satisfiesWhere (data : Obj) (c : Where) : Bool :=
  match c.op with
  | WhereOp.eq => storeEq (field data c.fieldPath) c.value
  | WhereOp.ge => storeLe c.value (field data c.fieldPath)
  | WhereOp.le => storeLe (field data c.fieldPath) c.value

/-- A query with an equality and a range constraint needs a composite index. -/
def needsCompositeIndex (q : Query) : Bool :=
  q.any (fun c => decide (c.op = WhereOp.eq)) && q.any (fun c => decide (c.op ≠ WhereOp.eq))

/-- The error of the store for a query without its index. -/
def missingIndexError : StoreError :=
  { code := "failed-precondition", message := "The query requires an index." }

/-- A store holding `docs` that answers a query with exactly the documents that
satisfy its constraints, comparing values within one type; without composite
indexes (`indexed = false`) it refuses the queries that need one. -/
def typedStore (docs : List (String × Obj)) (indexed : Bool) :
    Query → Except StoreError (List (String × Obj)) :=
  fun q =>
    if needsCompositeIndex q = true ∧ indexed = false then Except.error missingIndexError
    else Except.ok (docs.filter (fun d => q.all (satisfiesWhere d.2)))

/-- Days from 1 January 1970 to a date of the proleptic Gregorian calendar. -/
def daysFromCivil (y m d : Int) : Int :=
  let y1 := if m ≤ 2 then y - 1 else y
  let era := Int.fdiv y1 400
  let yoe := y1 - era * 400
  let mp := Int.fmod (m + 9) 12
  let doy := Int.fdiv (153 * mp + 2) 5 + d - 1
  let doe := yoe * 365 + Int.fdiv yoe 4 - Int.fdiv yoe 100 + doy
  era * 146097 + doe - 719468

/-- Number of days of a month. -/
def daysInMonth (y m : Nat) : Nat :=
  if m = 2 then (if (y % 4 = 0 ∧ y % 100 ≠ 0) ∨ y % 400 = 0 then 29 else 28)
  else if m = 4 ∨ m = 6 ∨ m = 9 ∨ m = 11 then 30
  else 31

/-- The value of `Date.parse` on a calendar date written `YYYY-MM-DD`: midnight
UTC of that day.  Other strings get no value from this instance. -/
def isoDateParse (s : String) : Option Int :=
  match s.data with
  | [y1, y2, y3, y4, h1, m1, m2, h2, d1, d2] =>
    if h1.toNat = 45 ∧ h2.toNat = 45
        ∧ [y1, y2, y3, y4, m1, m2, d1, d2].all (isDigitOf 10) = true then
      if 1 ≤ digitsValue 10 [m1, m2] ∧ digitsValue 10 [m1, m2] ≤ 12
          ∧ 1 ≤ digitsValue 10 [d1, d2]
          ∧ digitsValue 10 [d1, d2]
              ≤ daysInMonth (digitsValue 10 [y1, y2, y3, y4]) (digitsValue 10 [m1, m2]) then
        some (daysFromCivil (digitsValue 10 [y1, y2, y3, y4] : Nat)
          (digitsValue 10 [m1, m2] : Nat) (digitsValue 10 [d1, d2] : Nat) * 86400000)
      else none
    else none
  | _ => none

/-- The world of a typed store holding `docs`. -/
def typedWorld (docs : List (String × Obj)) (indexed : Bool) : World :=
  { getDocs := typedStore docs indexed, dateParse := isoDateParse }

/-! ## The read of settlements -/

/-- What a name is bound to in the code that builds a query: the function
`query` imported from the store library, or a reference to a collection with the
constraints added so far. -/
inductive Binding where
  | queryFunction
  | reference (collectionName : String) (constraints : Query)
  deriving DecidableEq

/-- Why a call of `getSettlements` throws: the call of a value that is not a
function (a `TypeError`), a name without binding, an argument the library
refuses, or an error of the store. -/
inductive ReadError where
  | notAFunction (name : String)
  | notDefined (name : String)
  | badArgument
  | store (e : StoreError)
  deriving DecidableEq

/-- Bindings of names, the innermost first. -/
abbrev Scope := List (String × Binding)

/-- The scope of the module: the import `query`. -/
def moduleScope : Scope := [("query", Binding.queryFunction)]

/-- The call `callee(arg, where(...))`, both names read in `scope`: the imported
function adds the constraint to the reference it is given; a callee bound to
anything else is not a function. -/
def callByName (scope : Scope) (callee arg : String) (c : Where) : Except ReadError Binding :=
  match scope.lookup callee with
  | none => Except.error (ReadError.notDefined callee)
  | some (Binding.reference _ _) => Except.error (ReadError.notAFunction callee)
  | some Binding.queryFunction =>
    match scope.lookup arg with
    | none => Except.error (ReadError.notDefined arg)
    | some Binding.queryFunction => Except.error ReadError.badArgument
    | some (Binding.reference collectionName cs) =>
      Except.ok (Binding.reference collectionName (cs ++ [c]))

/-- The statement `if (filters[k]) query = query(query, where(k, '==',
filters[k]))` in a scope: the scope afterwards, or the error thrown. -/
def addEqualityFilter (scope : Scope) (filters : Obj) (k : String) : Except ReadError Scope :=
  if (field filters k).truthy = true then
    match callByName scope "query" "query"
        { fieldPath := k, op := WhereOp.eq, value := field filters k } with
    | Except.ok v => Except.ok (("query", v) :: scope)
    | Except.error e => Except.error e
  else Except.ok scope

/-- The call `getDocs(query)` with the name read in `scope`, and the loop that
collects `{ id: doc.id, ...doc.data() }`. -/
def readByName (getDocs : Query → Except StoreError (List (String × Obj))) (scope : Scope) :
    Except ReadError (List Obj) :=
  match scope.lookup "query" with
  | none => Except.error (ReadError.notDefined "query")
  | some Binding.queryFunction => Except.error ReadError.badArgument
  | some (Binding.reference _ cs) =>
    match getDocs cs with
    | Except.ok docs => Except.ok (snapshotJobs docs)
    | Except.error e => Except.error (ReadError.store e)

/-- The method `getSettlements(filters)`; `getDocs` is the answer of the store to
a query on the collection `settlements`.  The body declares `let query =
collection(this.db, 'settlements')`, a binding of its own for the name `query`. -/
def getSettlements (getDocs : Query → Except StoreError (List (String × Obj)))
    (filters : Obj) : Except ReadError (List Obj) :=
  match addEqualityFilter (("query", Binding.reference "settlements" []) :: moduleScope)
      filters "type" with
  | Except.error e => Except.error e
  | Except.ok scope1 =>
    match addEqualityFilter scope1 filters "status" with
    | Except.error e => Except.error e
    | Except.ok scope2 => readByName getDocs scope2

/-! ## The specification's wording -/

/-- The total part cost as the specification of create words it: the sum of the
costs of the parts, a non-numeric cost counting as `0`, when `parts` is a
non-empty sequence; else the explicit `totalPartCost` when given; else the legacy
`partCost` when given; else `0`. -/
def specTotalPartCost (jobData : Obj) : Val :=
  if isNonEmptyArray (field jobData "parts") = true then
    vNum ((partsOf (field jobData "parts")).map (fun part =>
      match part.partCost.toNumber with
      | some q => q
      | none => 0)).sum
  else if field jobData "totalPartCost" ≠ vUndef then field jobData "totalPartCost"
  else if field jobData "partCost" ≠ vUndef then field jobData "partCost"
  else vNum 0

/-- A field as the recalculation of update reads it: the value in the partial
update when it is not `undefined`, else the stored one. -/
def updatedField (job upd : Obj) (k : String) : Val :=
  if field upd k ≠ vUndef then field upd k else field job k

/-- The conversion `String(v)` for the values whose string is modelled:
strings, numbers with a modelled notation, `NaN`, `undefined`, `null` and
booleans. -/
def jsStringOf : Val → Option String
  | Val.prim (Prim.str s) => some s
  | Val.prim (Prim.num q) => numberToString (some q)
  | Val.prim Prim.nan => some "NaN"
  | Val.prim Prim.undefined => some "undefined"
  | Val.prim Prim.null => some "null"
  | Val.prim (Prim.bool b) => some (if b = true then "true" else "false")
  | _ => none

/-- The integer the specification reads from a phone: the digits of its
`phone_number`, the other characters stripped, as a decimal number; `none` when
no digit is left. -/
def specPhoneInteger (phone : Obj) : Option ℚ :=
  match jsStringOf (field phone "phone_number") with
  | some s =>
    if stripNonDigits s = [] then none
    else some ((digitsValue 10 (stripNonDigits s) : Nat) : ℚ)
  | none => none

/-- The seed of the specification: the maximum of the integers read from the
phones, `0` when there is none. -/
def specSeed (phones : List Obj) : ℚ :=
  (phones.filterMap specPhoneInteger).foldr max 0

/-- A `phone_number` whose integer the code reads as the specification does: a
string whose digits make a number below `2^53`, a natural number below `2^53`,
or a value without digits (absent, `null`, a boolean, `NaN`). -/
def isIdentifierValue (v : Val) : Bool :=
  match v with
  | Val.prim (Prim.num q) => decide (q.den = 1 ∧ 0 ≤ q.num ∧ q.num < 2 ^ 53)
  | Val.prim (Prim.str s) => decide (digitsValue 10 (stripNonDigits s) < 2 ^ 53)
  | Val.prim (Prim.date _) => false
  | Val.prim (Prim.timestamp _) => false
  | Val.arr _ => false
  | _ => true

/-- A filter value that can equal a stored value: `undefined`, `null`, a boolean,
a number or a string.  `NaN` equals nothing, and an object (array, date,
timestamp) equals only itself, which a value read from the store is not. -/
def comparesByValue : Val → Bool
  | Val.prim Prim.undefined => true
  | Val.prim Prim.null => true
  | Val.prim (Prim.bool _) => true
  | Val.prim (Prim.num _) => true
  | Val.prim (Prim.str _) => true
  | _ => false

/-- A stored value equals the filter value. -/
def equalsFilter (v filter : Val) : Prop := v = filter ∧ comparesByValue filter = true

/-- The job is attributed to the representative of the filter, in the words of
the specification: its legacy `repId` equals the filter, or one of its parts has
a `repId` equal to the filter. -/
def specAttributedTo (repId : Val) (job : Obj) : Prop :=
  equalsFilter (field job "repId") repId
    ∨ ∃ part ∈ partsOf (field job "parts"), equalsFilter (Val.prim part.repId) repId

/-- The job is within the date bounds and of the technician of the filter: its
visit date, as an instant, is not before `dateFrom` and not after `dateTo`, and
its `techId` equals the filter, each when the filter is set. -/
def specWithinFilters (dateParse : String → Option Int) (filters : Obj) (job : Obj) : Prop :=
  ((field filters "dateFrom").truthy = true →
      ∃ t b, visitInstant dateParse job = some t
        ∧ newDate dateParse (field filters "dateFrom") = some b ∧ b ≤ t)
  ∧ ((field filters "dateTo").truthy = true →
      ∃ t b, visitInstant dateParse job = some t
        ∧ newDate dateParse (field filters "dateTo") = some b ∧ t ≤ b)
  ∧ ((field filters "techId").truthy = true →
      equalsFilter (field job "techId") (field filters "techId"))

/-- Both jobs have a visit instant and the instant of `b` is not after the
instant of `a`: what "ordered by non-increasing visit instant" asks of a job `a`
placed before a job `b`. -/
def visitNotAfter (dateParse : String → Option Int) (a b : Obj) : Prop :=
  ∃ x y, visitInstant dateParse a = some x ∧ visitInstant dateParse b = some y ∧ y ≤ x

/-- The settlements the specification expects from `getSettlements`: the stored
settlements whose `type` equals `filters.type` when that filter is set and whose
`status` equals `filters.status` when that filter is set. -/
def specGetSettlements (docs : List (String × Obj)) (filters : Obj) : List Obj :=
  snapshotJobs (docs.filter (fun d =>
    (!(field filters "type").truthy || decide (field d.2 "type" = field filters "type"))
    && (!(field filters "status").truthy
        || decide (field d.2 "status" = field filters "status"))))

/-! ## Sums of the aggregators -/

/-- A field value the aggregators add as the number it is: a number, or absent
(`undefined` or `null`). -/
def isNumberOrAbsent (v : Val) : Bool :=
  match v with
  | Val.prim (Prim.num _) => true
  | Val.prim Prim.undefined => true
  | Val.prim Prim.null => true
  | _ => false

/-- The number a field contributes to a sum: itself, `0` when absent. -/
def numberOf (v : Val) : ℚ :=
  match v with
  | Val.prim (Prim.num q) => q
  | _ => 0

/-- The derived fields of every job of the list are numbers (or absent, counting
as `0`) with `shopProfit = profit - techCommission`. -/
def DerivedConsistent (js : List Obj) : Prop :=
  ∀ job ∈ js, isNumberOrAbsent (field job "profit") = true
    ∧ isNumberOrAbsent (field job "techCommission") = true
    ∧ isNumberOrAbsent (field job "shopProfit") = true
    ∧ numberOf (field job "shopProfit")
        = numberOf (field job "profit") - numberOf (field job "techCommission")

/-- Three sums that are numbers with `shopProfitSum = profitSum -
techCommissionSum`. -/
def SumsBalanced (profitSum techCommissionSum shopProfitSum : Option ℚ) : Prop :=
  ∃ p t s : ℚ, profitSum = some p ∧ techCommissionSum = some t
    ∧ shopProfitSum = some s ∧ s = p - t

/-! ## Concrete inputs -/

/-- The job of the specification's example: parts of cost 30 and 20 from `R1`
and one of cost 10 from `R2`. -/
def threePartsJob : Obj :=
  [("parts", Val.arr
      [Part.mk Prim.undefined (Prim.num 30) (Prim.str "R1") Prim.undefined,
       Part.mk Prim.undefined (Prim.num 20) (Prim.str "R1") Prim.undefined,
       Part.mk Prim.undefined (Prim.num 10) (Prim.str "R2") Prim.undefined])]

/-- A job carrying one part of cost 30 and also an explicit `totalPartCost` of
100, charged 200 at a rate of one half. -/
def conflictingJobData : Obj :=
  [("parts", Val.arr [Part.mk (Prim.str "screen") (Prim.num 30) (Prim.str "R1") Prim.undefined]),
   ("totalPartCost", vNum 100), ("amountCharged", vNum 200), ("techPercent", vNum (1 / 2))]

/-- A legacy job: one part cost of 50, charged 200 at a rate of one half. -/
def legacyJobData : Obj :=
  [("partCost", vNum 50), ("amountCharged", vNum 200), ("techPercent", vNum (1 / 2)),
   ("repId", vStr "R1"), ("techId", vStr "T1")]

/-- A collection holding one legacy job stored before `totalPartCost` existed:
part cost 50, charged 100 at a rate of one half. -/
def legacyStore : Store :=
  [("j1", [("partCost", vNum 50), ("amountCharged", vNum 100), ("techPercent", vNum (1 / 2)),
      ("profit", vNum 50), ("techCommission", vNum 25), ("shopProfit", vNum 25),
      ("status", vStr "pending")])]

/-- A collection holding one job that satisfies the job invariant: total part
cost 50, charged 100 at a rate of one half. -/
def consistentStore : Store :=
  [("j1", [("totalPartCost", vNum 50), ("amountCharged", vNum 100),
      ("techPercent", vNum (1 / 2)), ("profit", vNum 50), ("techCommission", vNum 25),
      ("shopProfit", vNum 25), ("status", vStr "pending")])]

/-- A job data with one part of cost 30 and a technician, charged 200 at a rate
of one half. -/
def partsJobData : Obj :=
  [("parts", Val.arr [Part.mk (Prim.str "screen") (Prim.num 30) (Prim.str "R1") Prim.undefined]),
   ("amountCharged", vNum 200), ("techPercent", vNum (1 / 2)), ("techId", vStr "T1"),
   ("techName", vStr "Sami")]

/-- An inventory of three phones: barcode `"000041"`, the number 7 and the
text `"ab-12"`. -/
def threePhones : List Obj :=
  [[("phone_number", vStr "000041")], [("phone_number", vNum 7)],
   [("phone_number", vStr "ab-12")]]

/-- Two clients that both start `getNextPhoneNumber` against an absent counter
and an empty inventory. -/
def twoClients : AllocSystem :=
  { store := { counter := none, phones := [] }, clients := [Phase.start, Phase.start] }

/-- A schedule of the two clients: both read the absent counter and scan the
inventory, the first seeds the counter and runs its transaction, then the second
seeds the counter and runs its transaction. -/
def racingSchedule : List Nat := [0, 1, 0, 1, 0, 0, 1, 1]

/-- A filter with a technician and a lower date bound, without status. -/
def techAndDateFilter : Obj :=
  [("techId", vStr "T1"), ("dateFrom", vStr "2024-01-01")]

/-- A filter with a status and a lower date bound. -/
def statusAndDateFilter : Obj :=
  [("status", vStr "completed"), ("dateFrom", vStr "2024-01-01")]

/-- An error of the store that is not about an index. -/
def unavailableError : StoreError :=
  { code := "unavailable", message := "The service is currently unavailable." }

/-- An error of the store whose code is not `failed-precondition` and whose
message speaks of an index. -/
def buildingIndexError : StoreError :=
  { code := "unavailable", message := "The index is still building." }

/-- A store that refuses every query with the same error. -/
def failingWorld (e : StoreError) : World :=
  { getDocs := fun _ => Except.error e, dateParse := isoDateParse }

/-- A filter with a status, a lower date bound and a representative. -/
def lateFilterWithRep : Obj :=
  [("status", vStr "completed"), ("dateFrom", vStr "2024-02-01"), ("repId", vStr "R1")]

/-- A filter with a status, the lower date bound at 1 January and a
representative. -/
def earlyFilterWithRep : Obj :=
  [("status", vStr "completed"), ("dateFrom", vStr "2024-01-01"), ("repId", vStr "R1")]

/-- A completed job of January whose legacy representative is `R1`. -/
def januaryRepJob : String × Obj :=
  ("j1", [("status", vStr "completed"), ("visitDate", vStr "2024-01-15"),
    ("repId", vStr "R1")])

/-- A completed job of February attributed to `R1` only inside `parts`. -/
def partsOnlyJob : String × Obj :=
  ("j2", [("status", vStr "completed"), ("visitDate", vStr "2024-02-10"),
    ("parts", Val.arr [Part.mk (Prim.str "Screen") (Prim.num 50) (Prim.str "R1")
      (Prim.str "Rep One")])])

/-- A completed job of February of another representative. -/
def otherRepJob : String × Obj :=
  ("j3", [("status", vStr "completed"), ("visitDate", vStr "2024-02-12"),
    ("repId", vStr "R2")])

/-- A job of 1 January 2024, its date a string. -/
def earlyJob : String × Obj :=
  ("e1", [("status", vStr "completed"), ("visitDate", vStr "2024-01-01")])

/-- A job without a visit date. -/
def undatedJob : String × Obj :=
  ("u1", [("status", vStr "completed")])

/-- A job of 3 January 2024, its date a string. -/
def midJob : String × Obj :=
  ("m1", [("status", vStr "completed"), ("visitDate", vStr "2024-01-03")])

/-- A job of 5 January 2024, its date a timestamp of the store. -/
def lateJob : String × Obj :=
  ("l1", [("status", vStr "completed"), ("visitDate", Val.prim (Prim.timestamp 1704412800))])

/-- A job of 15 January 2024, its date a timestamp of the store. -/
def timestampJob : String × Obj :=
  ("t1", [("status", vStr "completed"), ("visitDate", Val.prim (Prim.timestamp 1705276800))])

/-- A collection of settlements with one paid settlement. -/
def paidSettlements : Store :=
  [("s1", [("status", vStr "paid"), ("repId", vStr "R1"), ("notes", vStr "cash")])]

/-- Calls of the lifecycle: a new settlement, the paid one marked again, the
new one marked. -/
def lifecycleOps : List SettlementOp :=
  [SettlementOp.create [("repId", vStr "R2")] "s2" 10,
   SettlementOp.markPaid "s1" (vStr "again") 20,
   SettlementOp.markPaid "s2" vUndef 30]

/-- Stored settlements: an open one and a paid one. -/
def settlementDocs : List (String × Obj) :=
  [("s1", [("type", vStr "rep"), ("status", vStr "open"), ("repId", vStr "R1")]),
   ("s2", [("type", vStr "tech"), ("status", vStr "paid"), ("techId", vStr "T1")])]

/-- The filter on the status `open`. -/
def openFilter : Obj := [("status", vStr "open")]

/-- Two jobs of technician `T1` whose derived fields are consistent: a legacy
job of `R1` and a job with one part of `R1`. -/
def balancedJobs : List Obj :=
  [[("repId", vStr "R1"), ("techId", vStr "T1"), ("profit", vNum 150),
    ("techCommission", vNum 75), ("shopProfit", vNum 75), ("partCost", vNum 50)],
   [("techId", vStr "T1"), ("profit", vNum 60), ("techCommission", vNum 20),
    ("shopProfit", vNum 40),
    ("parts", Val.arr [Part.mk (Prim.str "screen") (Prim.num 30) (Prim.str "R1")
      Prim.undefined])]]

/-- A partial update with one part of cost 30 and an explicit `totalPartCost` of
100. -/
def conflictingUpdate : Obj :=
  [("parts", Val.arr [Part.mk (Prim.str "screen") (Prim.num 30) (Prim.str "R1") Prim.undefined]),
   ("totalPartCost", vNum 100)]

/-- A store whose counter stands at `2^53` and that holds no phone. -/
def stuckCounter : AllocState :=
  ⟨some [("lastNumber", vNum 9007199254740992)], []⟩

/-- An inventory with one phone whose identifier is `2^53 + 1`. -/
def largePhones : List Obj := [[("phone_number", vStr "9007199254740993")]]

/-- A job with one part whose representative id is the string `constructor`. -/
def inheritedNameJob : Obj :=
  [("id", vStr "j1"),
   ("parts", Val.arr [Part.mk (Prim.str "screen") (Prim.num 30) (Prim.str "constructor")
      (Prim.str "Rep C")])]

/-- A job with a part of the representative `1`, a number, and a part of the
representative `"1"`, a string. -/
def mergedIdsJob : Obj :=
  [("id", vStr "j2"),
   ("parts", Val.arr
      [Part.mk (Prim.str "screen") (Prim.num 30) (Prim.num 1) (Prim.str "Rep One"),
       Part.mk (Prim.str "battery") (Prim.num 20) (Prim.str "1") (Prim.str "Rep One")])]

/-- A legacy job data whose charged amount is the string `"200"`: part cost 50,
rate one half. -/
def stringChargeData : Obj :=
  [("partCost", vNum 50), ("amountCharged", vStr "200"), ("techPercent", vNum (1 / 2)),
   ("repId", vStr "R1"), ("techId", vStr "T1")]

/-- A legacy job of `R1`: part cost 40, charged 100. -/
def legacyRepJob : Obj :=
  [("repId", vStr "R1"), ("partCost", vNum 40), ("amountCharged", vNum 100),
   ("profit", vNum 60), ("techCommission", vNum 30), ("shopProfit", vNum 30)]

/-! ## Basic facts -/

theorem numOr0_vNum (q : ℚ) : numOr0 (vNum q) = q := rfl

theorem techRate_vNum (q : ℚ) : techRate (vNum q) = q := rfl

theorem field_cons (k k2 : String) (v : Val) (o : Obj) :
    field ((k, v) :: o) k2 = if k2 = k then v else field o k2 := by
  unfold field
  rw [List.lookup_cons]
  by_cases h : k2 = k
  · have hb : (k2 == k) = true := by simp [h]
    simp [hb, h]
  · have hb : (k2 == k) = false := by simp [h]
    simp [hb, h]

theorem field_append (a b : Obj) (k : String) :
    field (a ++ b) k = if a.lookup k = none then field b k else field a k := by
  unfold field
  rw [List.lookup_append]
  cases h : a.lookup k <;> simp

theorem field_of_lookup_none (o : Obj) (k : String) (h : o.lookup k = none) :
    field o k = vUndef := by
  unfold field
  rw [h]

theorem field_setField (o : Obj) (k k2 : String) (v : Val) :
    field (setField o k v) k2 = if k2 = k then v else field o k2 :=
  field_cons k k2 v o

theorem lookup_setField (o : Obj) (k k2 : String) (v : Val) :
    (setField o k v).lookup k2 = if k2 = k then some v else o.lookup k2 := by
  unfold setField
  rw [List.lookup_cons]
  by_cases h : k2 = k
  · have hb : (k2 == k) = true := by simp [h]
    simp [hb, h]
  · have hb : (k2 == k) = false := by simp [h]
    simp [hb, h]

/-- The reduction over the parts is the sum of the coerced costs. -/
theorem sumPartCosts_eq_sum (ps : List Part) :
    sumPartCosts ps = (ps.map (fun part => primNumOr0 part.partCost)).sum := by
  unfold sumPartCosts
  rw [List.sum_eq_foldl, List.foldl_map]

/-- The calculator reads its first argument through `Number(partCost) || 0`. -/
theorem computeDerived_numOr0 (partCost amountCharged techPercent : Val) :
    computeDerived (vNum (numOr0 partCost)) amountCharged techPercent
      = computeDerived partCost amountCharged techPercent := by
  simp only [computeDerived, numOr0_vNum]

/-- A falsy value coerces to zero. -/
theorem numOr0_of_not_truthy (v : Val) (h : v.truthy = false) : numOr0 v = 0 := by
  cases v with
  | prim p =>
    cases p with
    | undefined => rfl
    | null => rfl
    | bool b =>
      cases b with
      | false => rfl
      | true => simp [Val.truthy, Prim.truthy] at h
    | num q =>
      have hq : q = 0 := by simpa [Val.truthy, Prim.truthy] using h
      rw [hq]
      rfl
    | nan => rfl
    | str s =>
      have hs : s = "" := by simpa [Val.truthy, Prim.truthy] using h
      rw [hs]
      rfl
    | date ms => simp [Val.truthy, Prim.truthy] at h
    | timestamp t => simp [Val.truthy, Prim.truthy] at h
  | arr ps => simp [Val.truthy] at h

/-- Reading a document after `updateDoc`: the written fields lie over the old
ones. -/
theorem updateDoc_lookup (db : Store) (docId : String) (fields job : Obj)
    (h : db.lookup docId = some job) :
    ∃ db2, updateDoc db docId fields = Except.ok db2
      ∧ db2.lookup docId = some (fields ++ job) := by
  refine ⟨db.map (fun e => if e.1 = docId then (e.1, fields ++ e.2) else e), ?_, ?_⟩
  · unfold updateDoc
    rw [h]
  · induction db with
    | nil => simp at h
    | cons e rest ih =>
      obtain ⟨k, v⟩ := e
      rw [List.lookup_cons] at h
      rw [List.map_cons]
      by_cases hk : docId = k
      · have hb : (docId == k) = true := by simp [hk]
        rw [hb] at h
        have hv : v = job := by simpa using h
        simp [hk, hv, List.lookup_cons]
      · have hb : (docId == k) = false := by simp [hk]
        rw [hb] at h
        have hk2 : ¬ k = docId := fun h2 => hk h2.symm
        simp only [hk2, if_false, List.lookup_cons, hb]
        exact ih h

/-! ## The calculator: claims -/

/-- C1: on numbers `computeDerived` returns `profit = amountCharged - partCost`
(no floor), `techCommission = max 0 (profit * techPercent)` and
`shopProfit = profit - techCommission`, with no rounding; and
`computeDerived(50, 200, 0.3)` is profit 150, commission 45, shop profit 105. -/
theorem computeDerived_numeric (partCost amountCharged techPercent : ℚ) :
    computeDerived (vNum partCost) (vNum amountCharged) (vNum techPercent)
        = { profit := amountCharged - partCost,
            techCommission := max 0 ((amountCharged - partCost) * techPercent),
            shopProfit := (amountCharged - partCost)
              - max 0 ((amountCharged - partCost) * techPercent) }
      ∧ (amountCharged < partCost →
          (computeDerived (vNum partCost) (vNum amountCharged) (vNum techPercent)).profit < 0)
      ∧ computeDerived (vNum 50) (vNum 200) (vNum (3 / 10))
        = { profit := 150, techCommission := 45, shopProfit := 105 } := by
  refine ⟨rfl, ?_, ?_⟩
  · intro h
    simp only [computeDerived, numOr0_vNum]
    linarith
  · simp only [computeDerived, numOr0_vNum, techRate_vNum]
    norm_num

/-- C2: for non-negative `partCost`, `amountCharged` and `techPercent` in `[0,1]`
the commission is non-negative and `shopProfit = profit - techCommission`; when
`amountCharged < partCost` the commission is `0` and the shop profit is the
negative profit. -/
theorem computeDerived_commission_nonneg (partCost amountCharged techPercent : ℚ)
    (hpc : 0 ≤ partCost) (hac : 0 ≤ amountCharged)
    (htp0 : 0 ≤ techPercent) (htp1 : techPercent ≤ 1) :
    0 ≤ (computeDerived (vNum partCost) (vNum amountCharged) (vNum techPercent)).techCommission
      ∧ (computeDerived (vNum partCost) (vNum amountCharged) (vNum techPercent)).shopProfit
        = (computeDerived (vNum partCost) (vNum amountCharged) (vNum techPercent)).profit
          - (computeDerived (vNum partCost) (vNum amountCharged) (vNum techPercent)).techCommission
      ∧ (amountCharged < partCost →
          (computeDerived (vNum partCost) (vNum amountCharged) (vNum techPercent)).techCommission = 0
          ∧ (computeDerived (vNum partCost) (vNum amountCharged) (vNum techPercent)).shopProfit
            = amountCharged - partCost
          ∧ amountCharged - partCost < 0) := by
  have _ := hpc
  have _ := hac
  have _ := htp1
  simp only [computeDerived, numOr0_vNum, techRate_vNum]
  refine ⟨le_max_left _ _, trivial, ?_⟩
  intro h
  have hneg : amountCharged - partCost < 0 := by linarith
  have hle : (amountCharged - partCost) * techPercent ≤ 0 :=
    mul_nonpos_of_nonpos_of_nonneg (le_of_lt hneg) htp0
  have hmax : max 0 ((amountCharged - partCost) * techPercent) = 0 := max_eq_left hle
  refine ⟨hmax, ?_, hneg⟩
  rw [hmax, sub_zero]

/-- Witness for C2: `computeDerived(100, 80, 0.5)` has profit -20, commission 0
and shop profit -20. -/
theorem computeDerived_commission_nonneg_witness :
    (computeDerived (vNum 100) (vNum 80) (vNum (1 / 2))).techCommission = 0
      ∧ (computeDerived (vNum 100) (vNum 80) (vNum (1 / 2))).shopProfit = (80 : ℚ) - 100
      ∧ (computeDerived (vNum 100) (vNum 80) (vNum (1 / 2))).profit = -20 := by
  have h := computeDerived_commission_nonneg 100 80 (1 / 2)
    (by norm_num) (by norm_num) (by norm_num) (by norm_num)
  refine ⟨(h.2.2 (by norm_num)).1, (h.2.2 (by norm_num)).2.1, ?_⟩
  simp only [computeDerived, numOr0_vNum]
  norm_num

/-! ## The repository: create -/

theorem field_fillTotalPartCost (jobData : Obj) (t : ℚ) (k : String)
    (hk : k ≠ "totalPartCost") :
    field (fillTotalPartCost jobData t) k = field jobData k := by
  unfold fillTotalPartCost
  split
  · rw [field_setField, if_neg hk]
  · rfl

theorem lookup_fillTotalPartCost (jobData : Obj) (t : ℚ) (k : String)
    (hk : k ≠ "totalPartCost") :
    (fillTotalPartCost jobData t).lookup k = jobData.lookup k := by
  unfold fillTotalPartCost
  split
  · rw [lookup_setField, if_neg hk]
  · rfl

/-- The total that create derives is the coercion of the specification's total. -/
theorem numOr0_specTotalPartCost (jobData : Obj) :
    numOr0 (specTotalPartCost jobData) = createTotalPartCost jobData := by
  unfold specTotalPartCost createTotalPartCost
  split_ifs
  · rw [numOr0_vNum, sumPartCosts_eq_sum]
    congr 1
    apply List.map_congr_left
    intro part _
    unfold primNumOr0
    cases part.partCost.toNumber <;> rfl
  · rfl
  · rfl
  · rfl

/-- The calculator depends on its arguments through their coercions only. -/
theorem computeDerived_congr (p1 p2 a1 a2 t1 t2 : Val) (hp : numOr0 p1 = numOr0 p2)
    (ha : numOr0 a1 = numOr0 a2) (ht : techRate t1 = techRate t2) :
    computeDerived p1 a1 t1 = computeDerived p2 a2 t2 := by
  simp only [computeDerived, hp, ha, ht]

/-- The rate create passes to the calculator. -/
theorem techRate_orZero (v : Val) :
    techRate (if v ≠ vUndef then v else vNum 0) = techRate v := by
  by_cases h : v = vUndef
  · rw [h]
    rfl
  · rw [if_pos h]

/-- The derived fields of the record create writes. -/
theorem newJobRecord_hasDerived (jobData : Obj) (now : Int) :
    HasDerived (newJobRecord jobData now)
      (computeDerived (vNum (createTotalPartCost jobData)) (field jobData "amountCharged")
        (field jobData "techPercent")) := by
  have hA := field_fillTotalPartCost jobData (createTotalPartCost jobData)
    "amountCharged" (by decide)
  have hP := field_fillTotalPartCost jobData (createTotalPartCost jobData)
    "techPercent" (by decide)
  have hc : computeDerived (vNum (createTotalPartCost jobData))
      (field jobData "amountCharged")
      (if field jobData "techPercent" ≠ vUndef then field jobData "techPercent" else vNum 0)
      = computeDerived (vNum (createTotalPartCost jobData)) (field jobData "amountCharged")
        (field jobData "techPercent") :=
    computeDerived_congr _ _ _ _ _ _ rfl rfl (techRate_orZero _)
  unfold HasDerived
  simp only [newJobRecord, List.cons_append, List.nil_append, field_cons, hA, hP, hc]
  simp

/-- The fields create copies from `jobData`, `totalPartCost` aside. -/
theorem newJobRecord_field (jobData : Obj) (now : Int) (k : String)
    (h1 : k ≠ "profit") (h2 : k ≠ "techCommission") (h3 : k ≠ "shopProfit")
    (h4 : k ≠ "status") (h5 : k ≠ "createdAt") (h6 : k ≠ "updatedAt") :
    field (newJobRecord jobData now) k
      = field (fillTotalPartCost jobData (createTotalPartCost jobData)) k := by
  simp only [newJobRecord, List.cons_append, List.nil_append, field_cons, if_neg h1, if_neg h2,
    if_neg h3, if_neg h4, if_neg h5, if_neg h6]

/-- C7: the record `addMaintenanceJob` persists carries `profit`,
`techCommission` and `shopProfit` equal to `computeDerived(T, amountCharged,
techPercent or 0 when absent)`, with `T` the total part cost in the precedence of
the specification, and the status `pending` whatever `jobData` carries. -/
theorem addMaintenanceJob_persists_derived (db : Store) (jobData : Obj)
    (newId : String) (now : Int) :
    ∃ stored : Obj,
      (addMaintenanceJob db jobData newId now).2.lookup
          (addMaintenanceJob db jobData newId now).1 = some stored
      ∧ HasDerived stored
          (computeDerived (specTotalPartCost jobData) (field jobData "amountCharged")
            (if field jobData "techPercent" = vUndef then vNum 0
             else field jobData "techPercent"))
      ∧ field stored "status" = vStr "pending" := by
  refine ⟨newJobRecord jobData now, ?_, ?_, ?_⟩
  · simp [addMaintenanceJob, List.lookup_cons]
  · have hR : techRate (if field jobData "techPercent" = vUndef then vNum 0
        else field jobData "techPercent") = techRate (field jobData "techPercent") := by
      by_cases h : field jobData "techPercent" = vUndef
      · rw [if_pos h, h]
        rfl
      · rw [if_neg h]
    have hc : computeDerived (specTotalPartCost jobData) (field jobData "amountCharged")
        (if field jobData "techPercent" = vUndef then vNum 0
         else field jobData "techPercent")
        = computeDerived (vNum (createTotalPartCost jobData)) (field jobData "amountCharged")
          (field jobData "techPercent") :=
      computeDerived_congr _ _ _ _ _ _
        (by rw [numOr0_vNum, numOr0_specTotalPartCost]) rfl hR
    rw [hc]
    exact newJobRecord_hasDerived jobData now
  · simp only [newJobRecord, List.cons_append, List.nil_append, field_cons]
    simp

theorem sumPartCosts_nonneg (ps : List Part)
    (h : ∀ part ∈ ps, 0 ≤ primNumOr0 part.partCost) : 0 ≤ sumPartCosts ps := by
  rw [sumPartCosts_eq_sum]
  apply List.sum_nonneg
  intro x hx
  obtain ⟨part, hpart, rfl⟩ := List.mem_map.mp hx
  exact h part hpart

/-- What `totalPartCost` reads as after `fillTotalPartCost`, when the total was
derived consistently and is not negative. -/
theorem numOr0_fillTotalPartCost (jobData : Obj) (t : ℚ)
    (htruthy : (field jobData "totalPartCost").truthy = true →
      numOr0 (field jobData "totalPartCost") = t)
    (hnonneg : (field jobData "totalPartCost").truthy = false → 0 ≤ t) :
    numOr0 (field (fillTotalPartCost jobData t) "totalPartCost") = t := by
  unfold fillTotalPartCost
  split
  · rw [field_setField, if_pos rfl, numOr0_vNum]
  · rename_i hcond
    by_cases htr : (field jobData "totalPartCost").truthy = true
    · exact htruthy htr
    · have hfalse : (field jobData "totalPartCost").truthy = false := by
        simpa using htr
      have hle : ¬ t > 0 := fun hpos => hcond ⟨hfalse, hpos⟩
      rw [numOr0_of_not_truthy _ hfalse]
      have h0 := hnonneg hfalse
      linarith

/-- A truthy value is not `undefined`. -/
theorem ne_vUndef_of_truthy (v : Val) (h : v.truthy = true) : v ≠ vUndef := by
  intro hv
  rw [hv] at h
  simp [vUndef, Val.truthy, Prim.truthy] at h

/-- C8, counterexample: a job data with a part of cost 30 and an explicit
`totalPartCost` of 100 is persisted with derived fields computed from 30 beside a
stored `totalPartCost` of 100, so the stored record breaks the job invariant. -/
theorem addMaintenanceJob_invariant_counterexample :
    ∃ stored : Obj,
      (addMaintenanceJob [] conflictingJobData "j1" 0).2.lookup "j1" = some stored
      ∧ field stored "totalPartCost" = vNum 100
      ∧ field stored "profit" = vNum 170
      ∧ ¬ DerivedInvariant stored := by
  refine ⟨newJobRecord conflictingJobData 0, ?_, ?_, ?_, ?_⟩
  · simp [addMaintenanceJob, List.lookup_cons]
  · simp [newJobRecord, conflictingJobData, fillTotalPartCost, createTotalPartCost, field,
      List.lookup, Val.truthy, Prim.truthy, vNum]
  · simp [newJobRecord, conflictingJobData, fillTotalPartCost, createTotalPartCost, field,
      List.lookup, Val.truthy, Prim.truthy, vNum, isNonEmptyArray, partsOf, sumPartCosts,
      primNumOr0, Prim.toNumber, computeDerived, numOr0, Val.toNumber]
    norm_num
  · intro h
    have h1 := h.1
    simp [newJobRecord, conflictingJobData, fillTotalPartCost, createTotalPartCost, field,
      List.lookup, Val.truthy, Prim.truthy, vNum, isNonEmptyArray, partsOf, sumPartCosts,
      primNumOr0, Prim.toNumber, computeDerived, numOr0, Val.toNumber] at h1

/-- C8, amended: the record `addMaintenanceJob` persists satisfies the job
invariant on its own stored fields whenever the part costs of `jobData` are not
negative and `jobData` does not carry a non-empty `parts` sequence together with
a truthy `totalPartCost` that differs from the sum of the parts' costs. -/
theorem addMaintenanceJob_invariant (db : Store) (jobData : Obj) (newId : String)
    (now : Int)
    (hconf : isNonEmptyArray (field jobData "parts") = true →
      (field jobData "totalPartCost").truthy = true →
      numOr0 (field jobData "totalPartCost")
        = sumPartCosts (partsOf (field jobData "parts")))
    (hparts : ∀ part ∈ partsOf (field jobData "parts"), 0 ≤ primNumOr0 part.partCost)
    (hlegacy : 0 ≤ numOr0 (field jobData "partCost")) :
    ∃ stored : Obj,
      (addMaintenanceJob db jobData newId now).2.lookup
          (addMaintenanceJob db jobData newId now).1 = some stored
      ∧ DerivedInvariant stored := by
  refine ⟨newJobRecord jobData now, ?_, ?_⟩
  · simp [addMaintenanceJob, List.lookup_cons]
  · have htruthy : (field jobData "totalPartCost").truthy = true →
        numOr0 (field jobData "totalPartCost") = createTotalPartCost jobData := by
      intro htr
      unfold createTotalPartCost
      split_ifs with h1 h2
      · exact hconf h1 htr
      · rfl
      · exact absurd (ne_vUndef_of_truthy _ htr) h2
      · exact absurd (ne_vUndef_of_truthy _ htr) h2
    have hnonneg : (field jobData "totalPartCost").truthy = false →
        0 ≤ createTotalPartCost jobData := by
      intro hfalse
      unfold createTotalPartCost
      split_ifs with h1 h2 h3
      · exact sumPartCosts_nonneg _ hparts
      · rw [numOr0_of_not_truthy _ hfalse]
      · exact hlegacy
      · exact le_refl _
    have hT := numOr0_fillTotalPartCost jobData (createTotalPartCost jobData) htruthy hnonneg
    unfold DerivedInvariant
    rw [newJobRecord_field jobData now "totalPartCost" (by decide) (by decide) (by decide)
        (by decide) (by decide) (by decide),
      newJobRecord_field jobData now "amountCharged" (by decide) (by decide) (by decide)
        (by decide) (by decide) (by decide),
      newJobRecord_field jobData now "techPercent" (by decide) (by decide) (by decide)
        (by decide) (by decide) (by decide),
      field_fillTotalPartCost jobData _ "amountCharged" (by decide),
      field_fillTotalPartCost jobData _ "techPercent" (by decide)]
    have hc : computeDerived
        (field (fillTotalPartCost jobData (createTotalPartCost jobData)) "totalPartCost")
        (field jobData "amountCharged") (field jobData "techPercent")
        = computeDerived (vNum (createTotalPartCost jobData)) (field jobData "amountCharged")
          (field jobData "techPercent") :=
      computeDerived_congr _ _ _ _ _ _ (by rw [hT, numOr0_vNum]) rfl rfl
    rw [hc]
    exact newJobRecord_hasDerived jobData now

/-- Witness for C8 (amended): a legacy job data. -/
theorem addMaintenanceJob_invariant_witness :
    ∃ stored : Obj,
      (addMaintenanceJob [] legacyJobData "j1" 0).2.lookup
          (addMaintenanceJob [] legacyJobData "j1" 0).1 = some stored
      ∧ DerivedInvariant stored :=
  addMaintenanceJob_invariant [] legacyJobData "j1" 0
    (by simp [legacyJobData, field, List.lookup, isNonEmptyArray, vUndef])
    (by simp [legacyJobData, field, List.lookup, partsOf, vUndef])
    (by simp [legacyJobData, field, List.lookup, numOr0, Val.toNumber, Prim.toNumber, vNum])

/-! ## The repository: update -/

theorem field_currentJob (job : Obj) (jobId k : String) (hk : k ≠ "id") :
    field (job ++ [("id", vStr jobId)]) k = field job k := by
  rw [field_append]
  split
  · rename_i hnone
    rw [field_cons, if_neg hk, field_of_lookup_none job k hnone]
    rfl
  · rfl

theorem updateTotalPartCost_currentJob (job upd : Obj) (jobId : String) :
    updateTotalPartCost (job ++ [("id", vStr jobId)]) upd = updateTotalPartCost job upd := by
  unfold updateTotalPartCost
  rw [field_currentJob job jobId "parts" (by decide),
    field_currentJob job jobId "totalPartCost" (by decide),
    field_currentJob job jobId "partCost" (by decide)]

/-- The document after an update that recalculates. -/
theorem updateMaintenanceJob_recalc (db : Store) (jobId : String) (job upd : Obj) (now : Int)
    (hjob : db.lookup jobId = some job) (hr : shouldRecalculate upd = true) :
    ∃ db2, updateMaintenanceJob db jobId upd now = Except.ok db2
      ∧ db2.lookup jobId = some ((("updatedAt", serverTimestamp now)
          :: recalculate (job ++ [("id", vStr jobId)]) upd) ++ job) := by
  unfold updateMaintenanceJob
  rw [if_pos hr]
  have hg : getMaintenanceJob db jobId = Except.ok (job ++ [("id", vStr jobId)]) := by
    unfold getMaintenanceJob
    rw [hjob]
  rw [hg]
  exact updateDoc_lookup db jobId _ job hjob

/-- The document after an update that does not recalculate. -/
theorem updateMaintenanceJob_plain (db : Store) (jobId : String) (job upd : Obj) (now : Int)
    (hjob : db.lookup jobId = some job) (hr : shouldRecalculate upd = false) :
    ∃ db2, updateMaintenanceJob db jobId upd now = Except.ok db2
      ∧ db2.lookup jobId = some ((("updatedAt", serverTimestamp now) :: upd) ++ job) := by
  unfold updateMaintenanceJob
  rw [hr]
  exact updateDoc_lookup db jobId _ job hjob

/-- The derived fields written by the recalculation. -/
theorem recalculate_hasDerived (job upd : Obj) (jobId : String) (now : Int) :
    HasDerived ((("updatedAt", serverTimestamp now)
        :: recalculate (job ++ [("id", vStr jobId)]) upd) ++ job)
      (computeDerived (vNum (updateTotalPartCost job upd))
        (updatedField job upd "amountCharged") (updatedField job upd "techPercent")) := by
  unfold HasDerived updatedField
  simp only [recalculate, setField, List.cons_append, field_cons,
    updateTotalPartCost_currentJob,
    field_fillTotalPartCost upd _ "amountCharged" (by decide),
    field_fillTotalPartCost upd _ "techPercent" (by decide),
    field_currentJob job jobId "amountCharged" (by decide),
    field_currentJob job jobId "techPercent" (by decide)]
  simp

/-- The other fields after the recalculation. -/
theorem recalculate_field (job upd : Obj) (jobId : String) (now : Int) (k : String)
    (h1 : k ≠ "profit") (h2 : k ≠ "techCommission") (h3 : k ≠ "shopProfit")
    (h4 : k ≠ "updatedAt") :
    field ((("updatedAt", serverTimestamp now)
        :: recalculate (job ++ [("id", vStr jobId)]) upd) ++ job) k
      = field (fillTotalPartCost upd (updateTotalPartCost job upd) ++ job) k := by
  simp only [recalculate, setField, List.cons_append, field_cons, if_neg h1, if_neg h2,
    if_neg h3, if_neg h4, updateTotalPartCost_currentJob]

theorem lookup_ne_none_of_field (o : Obj) (k : String) (h : field o k ≠ vUndef) :
    o.lookup k ≠ none := by
  intro hn
  exact h (field_of_lookup_none o k hn)

theorem isNonEmptyArray_vUndef : isNonEmptyArray vUndef = false := rfl

theorem truthy_vUndef : vUndef.truthy = false := rfl

/-- Without part-cost fields in the update, the total is re-derived from the
stored job in the precedence of create. -/
theorem updateTotalPartCost_of_absent (job upd : Obj)
    (h1 : field upd "parts" = vUndef) (h2 : field upd "totalPartCost" = vUndef)
    (h3 : field upd "partCost" = vUndef) :
    updateTotalPartCost job upd = createTotalPartCost job := by
  unfold updateTotalPartCost createTotalPartCost
  rw [h1, h2, h3, isNonEmptyArray_vUndef]
  simp

/-- C9, counterexample: a stored legacy job (part cost 50, no `totalPartCost`)
updated with `amountCharged` 200 alone gets profit 150, computed from the legacy
part cost, where `computeDerived` of the stored `totalPartCost` gives 200; and
its stored `totalPartCost` changes from absent to 50. -/
theorem updateMaintenanceJob_amountCharged_counterexample :
    ∃ db2 job job2,
      legacyStore.lookup "j1" = some job
      ∧ updateMaintenanceJob legacyStore "j1" [("amountCharged", vNum 200)] 0 = Except.ok db2
      ∧ db2.lookup "j1" = some job2
      ∧ field job2 "profit" = vNum 150
      ∧ (computeDerived (field job "totalPartCost") (vNum 200)
          (field job "techPercent")).profit = 200
      ∧ field job "totalPartCost" = vUndef
      ∧ field job2 "totalPartCost" = vNum 50 := by
  have hjob : legacyStore.lookup "j1" = some
      [("partCost", vNum 50), ("amountCharged", vNum 100), ("techPercent", vNum (1 / 2)),
       ("profit", vNum 50), ("techCommission", vNum 25), ("shopProfit", vNum 25),
       ("status", vStr "pending")] := by
    simp [legacyStore, List.lookup]
  obtain ⟨db2, hdb2, hlook⟩ := updateMaintenanceJob_recalc legacyStore "j1" _
    [("amountCharged", vNum 200)] 0 hjob
    (by simp [shouldRecalculate, field, List.lookup, vNum, vUndef])
  refine ⟨db2, _, _, hjob, hdb2, hlook, ?_, ?_, ?_, ?_⟩
  · simp [recalculate, fillTotalPartCost, updateTotalPartCost, setField, field, List.lookup,
      Val.truthy, Prim.truthy, vNum, vUndef, vStr, isNonEmptyArray, computeDerived, numOr0,
      Val.toNumber, Prim.toNumber, techRate]
    norm_num
  · simp [field, List.lookup, vNum, vUndef, computeDerived, numOr0, Val.toNumber,
      Prim.toNumber, techRate]
  · simp [field, List.lookup, vUndef]
  · simp [recalculate, fillTotalPartCost, updateTotalPartCost, setField, field, List.lookup,
      Val.truthy, Prim.truthy, vNum, vUndef, vStr, isNonEmptyArray, numOr0,
      Val.toNumber, Prim.toNumber]

/-- C9, amended: an update that contains only `amountCharged` overwrites the
derived fields with `computeDerived(T, new amountCharged, stored techPercent)`,
where `T` is the total part cost re-derived from the stored job in the precedence
of create (stored parts' sum, else stored `totalPartCost`, else stored legacy
`partCost`, else 0); the stored `techPercent` is unchanged; the stored
`totalPartCost` becomes `T` when `T > 0` and is unchanged otherwise.  When the
stored `totalPartCost` already is the number `T`, it is unchanged and the derived
fields are `computeDerived` of it. -/
theorem updateMaintenanceJob_amountCharged_only (db : Store) (jobId : String)
    (job upd : Obj) (now : Int)
    (hjob : db.lookup jobId = some job)
    (hac : field upd "amountCharged" ≠ vUndef)
    (honly : ∀ k : String, k ≠ "amountCharged" → upd.lookup k = none) :
    ∃ db2 job2,
      updateMaintenanceJob db jobId upd now = Except.ok db2
      ∧ db2.lookup jobId = some job2
      ∧ HasDerived job2 (computeDerived (specTotalPartCost job)
          (field upd "amountCharged") (field job "techPercent"))
      ∧ field job2 "amountCharged" = field upd "amountCharged"
      ∧ field job2 "techPercent" = field job "techPercent"
      ∧ field job2 "totalPartCost"
          = (if 0 < numOr0 (specTotalPartCost job) then vNum (numOr0 (specTotalPartCost job))
             else field job "totalPartCost")
      ∧ (∀ q : ℚ, field job "totalPartCost" = vNum q → numOr0 (specTotalPartCost job) = q →
          field job2 "totalPartCost" = field job "totalPartCost"
          ∧ HasDerived job2 (computeDerived (field job "totalPartCost")
              (field upd "amountCharged") (field job "techPercent"))) := by
  have hparts := field_of_lookup_none upd "parts" (honly "parts" (by decide))
  have htpc := field_of_lookup_none upd "totalPartCost" (honly "totalPartCost" (by decide))
  have hpc := field_of_lookup_none upd "partCost" (honly "partCost" (by decide))
  have htp := field_of_lookup_none upd "techPercent" (honly "techPercent" (by decide))
  have hr : shouldRecalculate upd = true := by
    unfold shouldRecalculate
    simp [hac]
  obtain ⟨db2, hdb2, hlook⟩ := updateMaintenanceJob_recalc db jobId job upd now hjob hr
  have hT : updateTotalPartCost job upd = numOr0 (specTotalPartCost job) := by
    rw [updateTotalPartCost_of_absent job upd hparts htpc hpc, numOr0_specTotalPartCost]
  have hder := recalculate_hasDerived job upd jobId now
  have hua : updatedField job upd "amountCharged" = field upd "amountCharged" := by
    unfold updatedField
    rw [if_pos hac]
  have hut : updatedField job upd "techPercent" = field job "techPercent" := by
    unfold updatedField
    rw [htp]
    simp
  rw [hua, hut, hT] at hder
  have hderived : HasDerived ((("updatedAt", serverTimestamp now)
      :: recalculate (job ++ [("id", vStr jobId)]) upd) ++ job)
      (computeDerived (specTotalPartCost job) (field upd "amountCharged")
        (field job "techPercent")) := by
    rw [← computeDerived_numOr0 (specTotalPartCost job)]
    exact hder
  have hfac : field ((("updatedAt", serverTimestamp now)
      :: recalculate (job ++ [("id", vStr jobId)]) upd) ++ job) "amountCharged"
      = field upd "amountCharged" := by
    rw [recalculate_field job upd jobId now "amountCharged" (by decide) (by decide)
      (by decide) (by decide), field_append,
      lookup_fillTotalPartCost upd _ "amountCharged" (by decide),
      if_neg (lookup_ne_none_of_field upd "amountCharged" hac),
      field_fillTotalPartCost upd _ "amountCharged" (by decide)]
  have hftp : field ((("updatedAt", serverTimestamp now)
      :: recalculate (job ++ [("id", vStr jobId)]) upd) ++ job) "techPercent"
      = field job "techPercent" := by
    rw [recalculate_field job upd jobId now "techPercent" (by decide) (by decide)
      (by decide) (by decide), field_append,
      lookup_fillTotalPartCost upd _ "techPercent" (by decide),
      if_pos (honly "techPercent" (by decide))]
  have hftpc : field ((("updatedAt", serverTimestamp now)
      :: recalculate (job ++ [("id", vStr jobId)]) upd) ++ job) "totalPartCost"
      = (if 0 < numOr0 (specTotalPartCost job) then vNum (numOr0 (specTotalPartCost job))
         else field job "totalPartCost") := by
    rw [recalculate_field job upd jobId now "totalPartCost" (by decide) (by decide)
      (by decide) (by decide), hT]
    unfold fillTotalPartCost
    rw [htpc]
    by_cases hpos : 0 < numOr0 (specTotalPartCost job)
    · rw [if_pos ⟨truthy_vUndef, hpos⟩, if_pos hpos]
      simp [setField, field_cons]
    · have hneg : ¬ (vUndef.truthy = false ∧ numOr0 (specTotalPartCost job) > 0) :=
        fun h => hpos h.2
      rw [if_neg hneg, if_neg hpos, field_append,
        if_pos (honly "totalPartCost" (by decide))]
  refine ⟨db2, _, hdb2, hlook, hderived, hfac, hftp, hftpc, ?_⟩
  intro q hq hspec
  constructor
  · rw [hftpc, hspec, hq]
    simp
  · have hc : computeDerived (field job "totalPartCost") (field upd "amountCharged")
        (field job "techPercent")
        = computeDerived (specTotalPartCost job) (field upd "amountCharged")
          (field job "techPercent") :=
      computeDerived_congr _ _ _ _ _ _ (by rw [hq, numOr0_vNum, hspec]) rfl rfl
    rw [hc]
    exact hderived

/-- Witness for C9 (amended): the stored legacy job, updated with
`amountCharged` 200 alone. -/
theorem updateMaintenanceJob_amountCharged_only_witness :
    ∃ db2 job2,
      updateMaintenanceJob legacyStore "j1" [("amountCharged", vNum 200)] 0 = Except.ok db2
      ∧ db2.lookup "j1" = some job2
      ∧ field job2 "amountCharged" = vNum 200 := by
  obtain ⟨db2, job2, h1, h2, _, h4, _⟩ := updateMaintenanceJob_amountCharged_only
    legacyStore "j1"
    [("partCost", vNum 50), ("amountCharged", vNum 100), ("techPercent", vNum (1 / 2)),
     ("profit", vNum 50), ("techCommission", vNum 25), ("shopProfit", vNum 25),
     ("status", vStr "pending")]
    [("amountCharged", vNum 200)] 0
    (by simp [legacyStore, List.lookup])
    (by simp [field, List.lookup, vNum, vUndef])
    (by
      intro k hk
      have hb : (k == "amountCharged") = false := by simp [hk]
      simp [List.lookup, hb])
  refine ⟨db2, job2, h1, h2, ?_⟩
  rw [h4]
  simp [field, List.lookup]

theorem lookup_none_of_field_undef (o : Obj) (k : String)
    (hwf : ∀ k : String, o.lookup k ≠ some vUndef) (h : field o k = vUndef) :
    o.lookup k = none := by
  cases hl : o.lookup k with
  | none => rfl
  | some v =>
    have hv : field o k = v := by
      unfold field
      rw [hl]
    rw [hv] at h
    rw [h] at hl
    exact absurd hl (hwf k)

/-- After the merge a field reads as the recalculation read it, for an update
without `undefined` values. -/
theorem field_merge_eq_updatedField (job upd : Obj) (k : String)
    (hwf : ∀ k : String, upd.lookup k ≠ some vUndef) :
    field (upd ++ job) k = updatedField job upd k := by
  unfold updatedField
  rw [field_append]
  by_cases h : field upd k = vUndef
  · rw [if_pos (lookup_none_of_field_undef upd k hwf h)]
    simp [h]
  · rw [if_neg (lookup_ne_none_of_field upd k h)]
    simp [h]

theorem shouldRecalculate_false (upd : Obj) (h : shouldRecalculate upd = false) :
    field upd "parts" = vUndef ∧ field upd "totalPartCost" = vUndef
      ∧ field upd "partCost" = vUndef ∧ field upd "amountCharged" = vUndef
      ∧ field upd "techPercent" = vUndef := by
  unfold shouldRecalculate at h
  simp only [Bool.or_eq_false_iff, decide_eq_false_iff_not, ne_eq, not_not] at h
  exact ⟨h.1.1.1.1, h.1.1.1.2, h.1.1.2, h.1.2, h.2⟩

theorem vNum_injective (a b : ℚ) (h : vNum a = vNum b) : a = b := by
  unfold vNum at h
  injection h with h1
  injection h1

theorem stored_total_iff (job upd : Obj) (hwf : ∀ k : String, upd.lookup k ≠ some vUndef) :
    numOr0 (field (fillTotalPartCost upd (updateTotalPartCost job upd) ++ job) "totalPartCost")
        = updateTotalPartCost job upd
      ↔ (isNonEmptyArray (field upd "parts") = true →
          (field upd "totalPartCost").truthy = true →
          numOr0 (field upd "totalPartCost") = sumPartCosts (partsOf (field upd "parts")))
        ∧ ((field upd "totalPartCost").truthy = false →
          ¬ 0 < updateTotalPartCost job upd →
          numOr0 (updatedField job upd "totalPartCost") = updateTotalPartCost job upd) := by
  cases htr : (field upd "totalPartCost").truthy with
  | true =>
    have hne := ne_vUndef_of_truthy _ htr
    have hfill : fillTotalPartCost upd (updateTotalPartCost job upd) = upd := by
      unfold fillTotalPartCost
      rw [if_neg]
      rw [htr]
      simp
    rw [hfill, field_append, if_neg (lookup_ne_none_of_field upd _ hne)]
    have hT : updateTotalPartCost job upd
        = if isNonEmptyArray (field upd "parts") = true then
            sumPartCosts (partsOf (field upd "parts"))
          else numOr0 (field upd "totalPartCost") := by
      unfold updateTotalPartCost
      split_ifs <;> rfl
    rw [hT]
    by_cases hp : isNonEmptyArray (field upd "parts") = true
    · simp [hp]
    · simp [hp]
  | false =>
    by_cases hpos : 0 < updateTotalPartCost job upd
    · have hfill : fillTotalPartCost upd (updateTotalPartCost job upd)
          = setField upd "totalPartCost" (vNum (updateTotalPartCost job upd)) := by
        unfold fillTotalPartCost
        rw [if_pos ⟨htr, hpos⟩]
      rw [hfill]
      simp [setField, field_cons, numOr0_vNum, hpos]
    · have hfill : fillTotalPartCost upd (updateTotalPartCost job upd) = upd := by
        unfold fillTotalPartCost
        rw [if_neg]
        intro h
        exact hpos h.2
      rw [hfill, field_merge_eq_updatedField job upd "totalPartCost" hwf]
      simp [hpos]

/-- C10, counterexample: a stored job that satisfies the job invariant no longer
satisfies it after an update with `profit` alone (stored as given), after an
update with a part of cost 30 together with `totalPartCost` 100 (the derived
fields follow the part, the stored total is 100), and after an update with
`partCost` 0 alone (the derived fields follow the cost 0, the stored total stays
50). -/
theorem updateMaintenanceJob_invariant_counterexample :
    (∃ job, consistentStore.lookup "j1" = some job ∧ DerivedInvariant job)
    ∧ (∃ db2 job2,
        updateMaintenanceJob consistentStore "j1" [("profit", vNum 999)] 0 = Except.ok db2
        ∧ db2.lookup "j1" = some job2 ∧ ¬ DerivedInvariant job2)
    ∧ (∃ db2 job2,
        updateMaintenanceJob consistentStore "j1" conflictingUpdate 0 = Except.ok db2
        ∧ db2.lookup "j1" = some job2 ∧ ¬ DerivedInvariant job2)
    ∧ (∃ db2 job2,
        updateMaintenanceJob consistentStore "j1" [("partCost", vNum 0)] 0 = Except.ok db2
        ∧ db2.lookup "j1" = some job2 ∧ ¬ DerivedInvariant job2) := by
  have hjob : consistentStore.lookup "j1" = some
      [("totalPartCost", vNum 50), ("amountCharged", vNum 100),
       ("techPercent", vNum (1 / 2)), ("profit", vNum 50), ("techCommission", vNum 25),
       ("shopProfit", vNum 25), ("status", vStr "pending")] := by
    simp [consistentStore, List.lookup]
  refine ⟨⟨_, hjob, ?_⟩, ?_, ?_, ?_⟩
  · unfold DerivedInvariant HasDerived
    simp [field, List.lookup, vNum, computeDerived, numOr0, Val.toNumber, Prim.toNumber,
      techRate]
    norm_num
  · obtain ⟨db2, hdb2, hlook⟩ := updateMaintenanceJob_plain consistentStore "j1" _
      [("profit", vNum 999)] 0 hjob
      (by simp [shouldRecalculate, field, List.lookup, vNum, vUndef])
    refine ⟨db2, _, hdb2, hlook, ?_⟩
    intro h
    have h1 := h.1
    simp [field, List.lookup, vNum, computeDerived, numOr0, Val.toNumber, Prim.toNumber,
      techRate] at h1
    norm_num at h1
  · obtain ⟨db2, hdb2, hlook⟩ := updateMaintenanceJob_recalc consistentStore "j1" _
      conflictingUpdate 0 hjob
      (by simp [shouldRecalculate, conflictingUpdate, field, List.lookup, vNum, vUndef])
    refine ⟨db2, _, hdb2, hlook, ?_⟩
    intro h
    have h1 := h.1
    simp [recalculate, fillTotalPartCost, updateTotalPartCost, conflictingUpdate, setField,
      field, List.lookup, Val.truthy, Prim.truthy, vNum, vUndef, vStr, isNonEmptyArray,
      partsOf, sumPartCosts, primNumOr0, computeDerived, numOr0, Val.toNumber,
      Prim.toNumber, techRate] at h1
    norm_num at h1
  · obtain ⟨db2, hdb2, hlook⟩ := updateMaintenanceJob_recalc consistentStore "j1" _
      [("partCost", vNum 0)] 0 hjob
      (by simp [shouldRecalculate, field, List.lookup, vNum, vUndef])
    refine ⟨db2, _, hdb2, hlook, ?_⟩
    intro h
    have h1 := h.1
    simp [recalculate, fillTotalPartCost, updateTotalPartCost, setField,
      field, List.lookup, Val.truthy, Prim.truthy, vNum, vUndef, vStr, isNonEmptyArray,
      computeDerived, numOr0, Val.toNumber, Prim.toNumber, techRate] at h1
    norm_num at h1

/-- C10, amended: after `updateMaintenanceJob` with a partial update without
`undefined` values, a stored job that satisfied the job invariant satisfies it
again exactly when (a) an update that touches none of `parts`, `totalPartCost`,
`partCost`, `amountCharged`, `techPercent` sets each derived field it carries to
the value already stored; (b) an update that carries a non-empty `parts`
sequence together with a truthy `totalPartCost` gives as `totalPartCost` the sum
of the parts' costs; and (c) when an update touches one of the five inputs
without a truthy `totalPartCost` and the re-derived total part cost is not
positive, the `totalPartCost` that stays stored (the one of the update when it
carries one, else the stored one) coerces to that total. -/
theorem updateMaintenanceJob_preserves_invariant (db : Store) (jobId : String)
    (job upd : Obj) (now : Int)
    (hjob : db.lookup jobId = some job)
    (hinv : DerivedInvariant job)
    (hwf : ∀ k : String, upd.lookup k ≠ some vUndef) :
    ∃ db2 job2,
      updateMaintenanceJob db jobId upd now = Except.ok db2
      ∧ db2.lookup jobId = some job2
      ∧ (DerivedInvariant job2 ↔
          (shouldRecalculate upd = false →
            (upd.lookup "profit" = none ∨ field upd "profit" = field job "profit")
            ∧ (upd.lookup "techCommission" = none
                ∨ field upd "techCommission" = field job "techCommission")
            ∧ (upd.lookup "shopProfit" = none
                ∨ field upd "shopProfit" = field job "shopProfit"))
          ∧ (shouldRecalculate upd = true →
              isNonEmptyArray (field upd "parts") = true →
              (field upd "totalPartCost").truthy = true →
              numOr0 (field upd "totalPartCost")
                = sumPartCosts (partsOf (field upd "parts")))
          ∧ (shouldRecalculate upd = true →
              (field upd "totalPartCost").truthy = false →
              ¬ 0 < updateTotalPartCost job upd →
              numOr0 (updatedField job upd "totalPartCost")
                = updateTotalPartCost job upd)) := by
  by_cases hr : shouldRecalculate upd = true
  · obtain ⟨db2, hdb2, hlook⟩ := updateMaintenanceJob_recalc db jobId job upd now hjob hr
    refine ⟨db2, _, hdb2, hlook, ?_⟩
    have hder := recalculate_hasDerived job upd jobId now
    have hac : field (fillTotalPartCost upd (updateTotalPartCost job upd) ++ job)
        "amountCharged" = updatedField job upd "amountCharged" := by
      rw [← field_merge_eq_updatedField job upd "amountCharged" hwf, field_append, field_append,
        lookup_fillTotalPartCost upd _ "amountCharged" (by decide),
        field_fillTotalPartCost upd _ "amountCharged" (by decide)]
    have htp : field (fillTotalPartCost upd (updateTotalPartCost job upd) ++ job)
        "techPercent" = updatedField job upd "techPercent" := by
      rw [← field_merge_eq_updatedField job upd "techPercent" hwf, field_append, field_append,
        lookup_fillTotalPartCost upd _ "techPercent" (by decide),
        field_fillTotalPartCost upd _ "techPercent" (by decide)]
    have hstored : DerivedInvariant ((("updatedAt", serverTimestamp now)
          :: recalculate (job ++ [("id", vStr jobId)]) upd) ++ job)
        ↔ numOr0 (field (fillTotalPartCost upd (updateTotalPartCost job upd) ++ job)
            "totalPartCost") = updateTotalPartCost job upd := by
      unfold DerivedInvariant
      rw [recalculate_field job upd jobId now "totalPartCost" (by decide) (by decide)
          (by decide) (by decide),
        recalculate_field job upd jobId now "amountCharged" (by decide) (by decide)
          (by decide) (by decide),
        recalculate_field job upd jobId now "techPercent" (by decide) (by decide)
          (by decide) (by decide), hac, htp]
      constructor
      · intro h
        have hp := vNum_injective _ _ (h.1.symm.trans hder.1)
        simp only [computeDerived, numOr0_vNum] at hp
        linarith
      · intro h
        have hc : computeDerived
            (field (fillTotalPartCost upd (updateTotalPartCost job upd) ++ job)
              "totalPartCost")
            (updatedField job upd "amountCharged") (updatedField job upd "techPercent")
            = computeDerived (vNum (updateTotalPartCost job upd))
              (updatedField job upd "amountCharged") (updatedField job upd "techPercent") :=
          computeDerived_congr _ _ _ _ _ _ (by rw [h, numOr0_vNum]) rfl rfl
        rw [hc]
        exact hder
    rw [hstored, stored_total_iff job upd hwf]
    constructor
    · rintro ⟨hb, hc⟩
      exact ⟨fun hf => absurd (hr.symm.trans hf) (by decide), fun _ => hb, fun _ => hc⟩
    · rintro ⟨_, hb, hc⟩
      exact ⟨hb hr, hc hr⟩
  · have hr2 : shouldRecalculate upd = false := by simpa using hr
    obtain ⟨db2, hdb2, hlook⟩ := updateMaintenanceJob_plain db jobId job upd now hjob hr2
    refine ⟨db2, _, hdb2, hlook, ?_⟩
    obtain ⟨h1, h2, h3, h4, h5⟩ := shouldRecalculate_false upd hr2
    have hkeep : ∀ k : String, k ≠ "updatedAt" → upd.lookup k = none →
        field ((("updatedAt", serverTimestamp now) :: upd) ++ job) k = field job k := by
      intro k hk hl
      rw [List.cons_append, field_cons, if_neg hk, field_append, if_pos hl]
    have hset : ∀ k : String, k ≠ "updatedAt" →
        (field ((("updatedAt", serverTimestamp now) :: upd) ++ job) k = field job k
          ↔ (upd.lookup k = none ∨ field upd k = field job k)) := by
      intro k hk
      rw [List.cons_append, field_cons, if_neg hk, field_append]
      by_cases hl : upd.lookup k = none
      · simp [hl]
      · simp [hl]
    unfold DerivedInvariant HasDerived
    rw [hkeep "totalPartCost" (by decide) (lookup_none_of_field_undef upd _ hwf h2),
      hkeep "amountCharged" (by decide) (lookup_none_of_field_undef upd _ hwf h4),
      hkeep "techPercent" (by decide) (lookup_none_of_field_undef upd _ hwf h5),
      ← hinv.1, ← hinv.2.1, ← hinv.2.2,
      hset "profit" (by decide), hset "techCommission" (by decide),
      hset "shopProfit" (by decide)]
    constructor
    · intro h
      exact ⟨fun _ => h, fun hf => absurd (hr2.symm.trans hf) (by decide),
        fun hf => absurd (hr2.symm.trans hf) (by decide)⟩
    · rintro ⟨h, _, _⟩
      exact h hr2

/-- Witness for C10 (amended): the consistent stored job, whose `totalPartCost` is
50, updated with `totalPartCost` 0 alone: the derived fields follow the total 0,
which is the `totalPartCost` stored. -/
theorem updateMaintenanceJob_preserves_invariant_witness :
    ∃ db2 job2,
      updateMaintenanceJob consistentStore "j1" [("totalPartCost", vNum 0)] 0
        = Except.ok db2
      ∧ db2.lookup "j1" = some job2
      ∧ field job2 "totalPartCost" = vNum 0
      ∧ DerivedInvariant job2 := by
  have hjob : consistentStore.lookup "j1" = some
      [("totalPartCost", vNum 50), ("amountCharged", vNum 100),
       ("techPercent", vNum (1 / 2)), ("profit", vNum 50), ("techCommission", vNum 25),
       ("shopProfit", vNum 25), ("status", vStr "pending")] := by
    simp [consistentStore, List.lookup]
  obtain ⟨db2, job2, hdb2, hlook, hiff⟩ := updateMaintenanceJob_preserves_invariant
    consistentStore "j1" _ [("totalPartCost", vNum 0)] 0 hjob
    (by
      unfold DerivedInvariant HasDerived
      simp [field, List.lookup, vNum, computeDerived, numOr0, Val.toNumber, Prim.toNumber,
        techRate]
      norm_num)
    (by
      intro k
      by_cases hk : k = "totalPartCost"
      · simp [hk, List.lookup, vNum, vUndef]
      · have hb : (k == "totalPartCost") = false := by simp [hk]
        simp [List.lookup, hb])
  obtain ⟨db3, hdb3, hlook3⟩ := updateMaintenanceJob_recalc consistentStore "j1" _
    [("totalPartCost", vNum 0)] 0 hjob
    (by simp [shouldRecalculate, field, List.lookup, vNum, vUndef])
  have hsame : db3 = db2 := by
    rw [hdb3] at hdb2
    injection hdb2
  subst hsame
  have hjob2 := hlook3.symm.trans hlook
  refine ⟨db3, job2, hdb2, hlook, ?_, hiff.mpr ⟨?_, ?_, ?_⟩⟩
  · injection hjob2 with hj
    rw [← hj]
    simp [recalculate, fillTotalPartCost, updateTotalPartCost, setField,
      field, List.lookup, Val.truthy, Prim.truthy, vNum, vUndef, isNonEmptyArray,
      numOr0, Val.toNumber, Prim.toNumber]
  · intro hf
    simp [shouldRecalculate, field, List.lookup, vNum, vUndef] at hf
  · intro _ hp
    simp [field, List.lookup, isNonEmptyArray, vUndef] at hp
  · intro _ _ _
    simp [updatedField, updateTotalPartCost, field, List.lookup, isNonEmptyArray, vUndef,
      vNum, numOr0, Val.toNumber, Prim.toNumber]

/-! ## The repository: what an update leaves alone -/

theorem lookup_cons_ne (k k2 : String) (v : Val) (o : Obj) (h : k2 ≠ k) :
    List.lookup k2 ((k, v) :: o) = List.lookup k2 o := by
  rw [List.lookup_cons]
  have hb : (k2 == k) = false := by simp [h]
  rw [hb]

theorem lookup_append_of_none (a b : Obj) (k : String) (h : a.lookup k = none) :
    (a ++ b).lookup k = b.lookup k := by
  rw [List.lookup_append, h]
  rfl

/-- The fields other than the derived ones, after the recalculation. -/
theorem recalculate_lookup (job upd : Obj) (jobId : String) (now : Int) (k : String)
    (h1 : k ≠ "profit") (h2 : k ≠ "techCommission") (h3 : k ≠ "shopProfit")
    (h4 : k ≠ "updatedAt") :
    ((("updatedAt", serverTimestamp now)
        :: recalculate (job ++ [("id", vStr jobId)]) upd) ++ job).lookup k
      = (fillTotalPartCost upd (updateTotalPartCost job upd) ++ job).lookup k := by
  simp only [recalculate, setField, List.cons_append, updateTotalPartCost_currentJob]
  rw [lookup_cons_ne _ _ _ _ h4, lookup_cons_ne _ _ _ _ h3, lookup_cons_ne _ _ _ _ h2,
    lookup_cons_ne _ _ _ _ h1]

/-- The documents an `updateDoc` does not address stay as they are. -/
theorem updateDoc_lookup_other (db db2 : Store) (docId other : String) (fields : Obj)
    (h : updateDoc db docId fields = Except.ok db2) (hne : other ≠ docId) :
    db2.lookup other = db.lookup other := by
  unfold updateDoc at h
  cases hl : db.lookup docId with
  | none =>
    rw [hl] at h
    cases h
  | some job =>
    rw [hl] at h
    have hdb2 : db2 = db.map (fun e => if e.1 = docId then (e.1, fields ++ e.2) else e) := by
      injection h with h2
      exact h2.symm
    rw [hdb2]
    clear hdb2 h hl
    induction db with
    | nil => rfl
    | cons e rest ih =>
      obtain ⟨k, v⟩ := e
      rw [List.map_cons]
      by_cases hk : k = docId
      · have hb : (other == k) = false := by
          rw [hk]
          simp [hne]
        simp only [hk, if_true, List.lookup_cons]
        rw [hk] at hb
        rw [hb]
        exact ih
      · simp only [hk, if_false, List.lookup_cons]
        rw [ih]

/-- C11, counterexample: the stored legacy job (part cost 50, no
`totalPartCost`) updated with `amountCharged` alone gains the field
`totalPartCost`, which is neither in the partial update nor a derived field. -/
theorem updateMaintenanceJob_frame_counterexample :
    ∃ db2 job job2,
      legacyStore.lookup "j1" = some job
      ∧ updateMaintenanceJob legacyStore "j1" [("amountCharged", vNum 200)] 0 = Except.ok db2
      ∧ db2.lookup "j1" = some job2
      ∧ List.lookup "totalPartCost" [("amountCharged", vNum 200)] = none
      ∧ job.lookup "totalPartCost" = none
      ∧ job2.lookup "totalPartCost" = some (vNum 50) := by
  have hjob : legacyStore.lookup "j1" = some
      [("partCost", vNum 50), ("amountCharged", vNum 100), ("techPercent", vNum (1 / 2)),
       ("profit", vNum 50), ("techCommission", vNum 25), ("shopProfit", vNum 25),
       ("status", vStr "pending")] := by
    simp [legacyStore, List.lookup]
  obtain ⟨db2, hdb2, hlook⟩ := updateMaintenanceJob_recalc legacyStore "j1" _
    [("amountCharged", vNum 200)] 0 hjob
    (by simp [shouldRecalculate, field, List.lookup, vNum, vUndef])
  refine ⟨db2, _, _, hjob, hdb2, hlook, ?_, ?_, ?_⟩
  · simp [List.lookup]
  · simp [List.lookup]
  · simp [recalculate, fillTotalPartCost, updateTotalPartCost, setField, field, List.lookup,
      Val.truthy, Prim.truthy, vNum, vUndef, vStr, isNonEmptyArray, numOr0,
      Val.toNumber, Prim.toNumber]

/-- C11, amended: `updateMaintenanceJob` leaves unchanged, and does not add,
every field that is neither present in the partial update nor one of `profit`,
`techCommission`, `shopProfit`, `totalPartCost` (the update timestamp aside); a
`totalPartCost` that is not in the update becomes the re-derived total when the
update touches one of the five inputs and that total is positive, and is
unchanged otherwise; when the update touches none of the five inputs, every
field that is not in the update is unchanged, the derived ones included; the
other documents of the collection are unchanged. -/
theorem updateMaintenanceJob_frame (db : Store) (jobId : String) (job upd : Obj)
    (now : Int) (hjob : db.lookup jobId = some job) :
    ∃ db2 job2,
      updateMaintenanceJob db jobId upd now = Except.ok db2
      ∧ db2.lookup jobId = some job2
      ∧ (∀ k : String, upd.lookup k = none → k ≠ "profit" → k ≠ "techCommission" →
          k ≠ "shopProfit" → k ≠ "updatedAt" → k ≠ "totalPartCost" →
          job2.lookup k = job.lookup k)
      ∧ (upd.lookup "totalPartCost" = none →
          job2.lookup "totalPartCost"
            = if shouldRecalculate upd = true ∧ 0 < updateTotalPartCost job upd then
                some (vNum (updateTotalPartCost job upd))
              else job.lookup "totalPartCost")
      ∧ (shouldRecalculate upd = false → ∀ k : String, upd.lookup k = none →
          k ≠ "updatedAt" → job2.lookup k = job.lookup k)
      ∧ (∀ other : String, other ≠ jobId → db2.lookup other = db.lookup other) := by
  by_cases hr : shouldRecalculate upd = true
  · obtain ⟨db2, hdb2, hlook⟩ := updateMaintenanceJob_recalc db jobId job upd now hjob hr
    have hupd : updateDoc db jobId (("updatedAt", serverTimestamp now)
        :: recalculate (job ++ [("id", vStr jobId)]) upd) = Except.ok db2 := by
      have h := hdb2
      unfold updateMaintenanceJob at h
      rw [if_pos hr] at h
      have hg : getMaintenanceJob db jobId = Except.ok (job ++ [("id", vStr jobId)]) := by
        unfold getMaintenanceJob
        rw [hjob]
      rw [hg] at h
      exact h
    refine ⟨db2, _, hdb2, hlook, ?_, ?_, ?_, ?_⟩
    · intro k hk h1 h2 h3 h4 h5
      rw [recalculate_lookup job upd jobId now k h1 h2 h3 h4]
      apply lookup_append_of_none
      rw [lookup_fillTotalPartCost upd _ k h5]
      exact hk
    · intro hk
      rw [recalculate_lookup job upd jobId now "totalPartCost" (by decide) (by decide)
        (by decide) (by decide)]
      have hf : field upd "totalPartCost" = vUndef := field_of_lookup_none upd _ hk
      unfold fillTotalPartCost
      rw [hf]
      by_cases hpos : 0 < updateTotalPartCost job upd
      · rw [if_pos ⟨truthy_vUndef, hpos⟩, if_pos ⟨hr, hpos⟩]
        simp [setField, List.lookup_cons]
      · rw [if_neg (fun h => hpos h.2), if_neg (fun h => hpos h.2)]
        exact lookup_append_of_none upd job _ hk
    · intro hfalse
      rw [hr] at hfalse
      cases hfalse
    · intro other hne
      exact updateDoc_lookup_other db db2 jobId other _ hupd hne
  · have hr2 : shouldRecalculate upd = false := by simpa using hr
    obtain ⟨db2, hdb2, hlook⟩ := updateMaintenanceJob_plain db jobId job upd now hjob hr2
    have hupd : updateDoc db jobId (("updatedAt", serverTimestamp now) :: upd)
        = Except.ok db2 := by
      have h := hdb2
      unfold updateMaintenanceJob at h
      rw [hr2] at h
      exact h
    have hkeep : ∀ k : String, upd.lookup k = none → k ≠ "updatedAt" →
        ((("updatedAt", serverTimestamp now) :: upd) ++ job).lookup k = job.lookup k := by
      intro k hk h4
      rw [List.cons_append, lookup_cons_ne _ _ _ _ h4]
      exact lookup_append_of_none upd job k hk
    refine ⟨db2, _, hdb2, hlook, ?_, ?_, ?_, ?_⟩
    · intro k hk _ _ _ h4 _
      exact hkeep k hk h4
    · intro hk
      rw [if_neg (fun h => hr h.1)]
      exact hkeep _ hk (by decide)
    · intro _ k hk h4
      exact hkeep k hk h4
    · intro other hne
      exact updateDoc_lookup_other db db2 jobId other _ hupd hne

/-- Witness for C11 (amended): the consistent stored job updated with
`amountCharged` alone keeps its `status`. -/
theorem updateMaintenanceJob_frame_witness :
    ∃ db2 job2,
      updateMaintenanceJob consistentStore "j1" [("amountCharged", vNum 200)] 0
        = Except.ok db2
      ∧ db2.lookup "j1" = some job2
      ∧ job2.lookup "status" = some (vStr "pending") := by
  obtain ⟨db2, job2, h1, h2, h3, _⟩ := updateMaintenanceJob_frame consistentStore "j1"
    [("totalPartCost", vNum 50), ("amountCharged", vNum 100),
     ("techPercent", vNum (1 / 2)), ("profit", vNum 50), ("techCommission", vNum 25),
     ("shopProfit", vNum 25), ("status", vStr "pending")]
    [("amountCharged", vNum 200)] 0
    (by simp [consistentStore, List.lookup])
  refine ⟨db2, job2, h1, h2, ?_⟩
  rw [h3 "status" (by simp [List.lookup]) (by decide) (by decide) (by decide) (by decide)
    (by decide)]
  simp [List.lookup]

/-! ## The calculator: coercion of its inputs -/

theorem stringToNumber_rate : stringToNumber "0.3" = some (3 / 10) := by
  simp [stringToNumber, trimWhiteSpace, parseNumeric, parseUnsignedDecimal, parseExponent,
    isDigitOf, digitValue, digitsValue, scale10, isStrWhiteSpace]

theorem stringToNumber_fifty : stringToNumber "50" = some 50 := by
  simp [stringToNumber, trimWhiteSpace, parseNumeric, parseUnsignedDecimal, parseExponent,
    isDigitOf, digitValue, digitsValue, scale10, isStrWhiteSpace]

theorem stringToNumber_two_hundred : stringToNumber "200" = some 200 := by
  simp [stringToNumber, trimWhiteSpace, parseNumeric, parseUnsignedDecimal, parseExponent,
    isDigitOf, digitValue, digitsValue, scale10, isStrWhiteSpace]

theorem techRate_of_not_number (tp : Val) (h : ∀ q : ℚ, tp ≠ vNum q) : techRate tp = 0 := by
  cases tp with
  | arr ps => rfl
  | prim p =>
    cases p with
    | num q => exact absurd rfl (h q)
    | undefined => rfl
    | null => rfl
    | bool b => rfl
    | nan => rfl
    | str s => rfl
    | date d => rfl
    | timestamp t => rfl

theorem computeDerived_rate_zero (pc ac tp : Val) (h : techRate tp = 0) :
    (computeDerived pc ac tp).techCommission = 0
      ∧ (computeDerived pc ac tp).shopProfit = (computeDerived pc ac tp).profit := by
  simp only [computeDerived, h, mul_zero, max_self, sub_zero, and_self]

/-- C19, counterexample: the numeric string `"0.3"` coerces to the number 0.3,
yet as `techPercent` it counts as 0: `computeDerived(50, 200, "0.3")` has
commission 0 where `computeDerived(50, 200, 0.3)` has 45, while the numeric
strings `"50"` and `"200"` are used with their values as costs. -/
theorem computeDerived_string_rate_counterexample :
    numOr0 (vStr "0.3") = 3 / 10
      ∧ computeDerived (vNum 50) (vNum 200) (vStr "0.3")
          = { profit := 150, techCommission := 0, shopProfit := 150 }
      ∧ computeDerived (vNum 50) (vNum 200) (vNum (numOr0 (vStr "0.3")))
          = { profit := 150, techCommission := 45, shopProfit := 105 }
      ∧ computeDerived (vStr "50") (vStr "200") (vNum (3 / 10))
          = { profit := 150, techCommission := 45, shopProfit := 105 } := by
  have h1 : numOr0 (vStr "0.3") = 3 / 10 := by
    simp [numOr0, vStr, Val.toNumber, Prim.toNumber, stringToNumber_rate]
  have h2 : numOr0 (vStr "50") = 50 := by
    simp [numOr0, vStr, Val.toNumber, Prim.toNumber, stringToNumber_fifty]
  have h3 : numOr0 (vStr "200") = 200 := by
    simp [numOr0, vStr, Val.toNumber, Prim.toNumber, stringToNumber_two_hundred]
  refine ⟨h1, ?_, ?_, ?_⟩
  · simp only [computeDerived, numOr0_vNum]
    simp [techRate, vStr]
    norm_num
  · rw [h1]
    simp only [computeDerived, numOr0_vNum, techRate_vNum]
    norm_num
  · simp only [computeDerived, h2, h3, techRate_vNum]
    norm_num

/-- C19, amended: `computeDerived` coerces `partCost` and `amountCharged` with
`Number(.) || 0` (a missing or non-numeric value is 0, a numeric string its
value), and uses `techPercent` only when it is of type number and not `NaN`,
as 0 otherwise: the result is `computeDerived` of those three numbers; an absent
`techPercent`, and one supplied as a string, give commission 0 and
`shopProfit = profit`. -/
theorem computeDerived_coercion (partCost amountCharged techPercent : Val) :
    computeDerived partCost amountCharged techPercent
        = computeDerived (vNum (numOr0 partCost)) (vNum (numOr0 amountCharged))
            (vNum (techRate techPercent))
      ∧ (∀ q : ℚ, techPercent = vNum q → techRate techPercent = q)
      ∧ ((∀ q : ℚ, techPercent ≠ vNum q) → techRate techPercent = 0)
      ∧ (techPercent = vUndef →
          (computeDerived partCost amountCharged techPercent).techCommission = 0
          ∧ (computeDerived partCost amountCharged techPercent).shopProfit
            = (computeDerived partCost amountCharged techPercent).profit)
      ∧ (∀ s : String, techPercent = vStr s →
          (computeDerived partCost amountCharged techPercent).techCommission = 0
          ∧ (computeDerived partCost amountCharged techPercent).shopProfit
            = (computeDerived partCost amountCharged techPercent).profit) := by
  refine ⟨?_, ?_, techRate_of_not_number techPercent, ?_, ?_⟩
  · exact computeDerived_congr _ _ _ _ _ _ (numOr0_vNum _).symm (numOr0_vNum _).symm
      (techRate_vNum _).symm
  · intro q hq
    rw [hq]
    rfl
  · intro h
    apply computeDerived_rate_zero
    rw [h]
    rfl
  · intro s h
    apply computeDerived_rate_zero
    rw [h]
    rfl

/-- Witness for C19 (amended): an absent `techPercent` on costs 50 and 200. -/
theorem computeDerived_coercion_witness :
    (computeDerived (vNum 50) (vNum 200) vUndef).techCommission = 0
      ∧ (computeDerived (vNum 50) (vNum 200) vUndef).shopProfit
        = (computeDerived (vNum 50) (vNum 200) vUndef).profit :=
  (computeDerived_coercion (vNum 50) (vNum 200) vUndef).2.2.2.1 rfl

/-! ## The settlement lifecycle: claims -/

theorem markSettlementPaid_lookup (db : Store) (settlementId : String) (notes : Val)
    (now : Int) (st : Obj) (h : db.lookup settlementId = some st) :
    ∃ db2, markSettlementPaid db settlementId notes now = Except.ok db2
      ∧ db2.lookup settlementId = some (paidFields notes now ++ st) :=
  updateDoc_lookup db settlementId (paidFields notes now) st h

theorem field_paidFields_status (notes : Val) (now : Int) (st : Obj) :
    field (paidFields notes now ++ st) "status" = vStr "paid" := by
  simp only [paidFields, List.cons_append, field_cons]
  simp

/-- One call keeps a paid settlement paid. -/
theorem applySettlementOp_keeps_paid (db : Store) (op : SettlementOp) (id : String)
    (st : Obj) (hst : db.lookup id = some st) (hpaid : field st "status" = vStr "paid")
    (hfresh : idsFresh db [op]) :
    ∃ st2, (applySettlementOp db op).lookup id = some st2
      ∧ field st2 "status" = vStr "paid" := by
  cases op with
  | create settlementData newId now =>
    have hnone : db.lookup newId = none := hfresh.1
    have hne : id ≠ newId := by
      intro h
      rw [h, hnone] at hst
      cases hst
    have hb : (id == newId) = false := by simp [hne]
    refine ⟨st, ?_, hpaid⟩
    simp only [applySettlementOp, createSettlement, List.lookup_cons, hb]
    exact hst
  | markPaid settlementId notes now =>
    cases hres : markSettlementPaid db settlementId notes now with
    | error e =>
      refine ⟨st, ?_, hpaid⟩
      simp only [applySettlementOp, hres]
      exact hst
    | ok db2 =>
      by_cases hid : id = settlementId
      · subst hid
        obtain ⟨db3, h3, hl3⟩ := markSettlementPaid_lookup db id notes now st hst
        rw [hres] at h3
        have hdb : db2 = db3 := by
          injection h3
        refine ⟨_, ?_, field_paidFields_status notes now st⟩
        simp only [applySettlementOp, hres]
        rw [hdb]
        exact hl3
      · refine ⟨st, ?_, hpaid⟩
        have h := updateDoc_lookup_other db db2 settlementId id _ hres hid
        simp only [applySettlementOp, hres, h]
        exact hst

/-- A sequence of calls keeps a paid settlement paid. -/
theorem runSettlementOps_keeps_paid (ops : List SettlementOp) (db : Store) (id : String)
    (st : Obj) (hst : db.lookup id = some st) (hpaid : field st "status" = vStr "paid")
    (hfresh : idsFresh db ops) :
    ∃ st2, (runSettlementOps db ops).lookup id = some st2
      ∧ field st2 "status" = vStr "paid" := by
  induction ops generalizing db st with
  | nil => exact ⟨st, hst, hpaid⟩
  | cons op rest ih =>
    have hone : idsFresh db [op] := by
      cases op with
      | create settlementData newId now => exact ⟨hfresh.1, trivial⟩
      | markPaid settlementId notes now => exact trivial
    have hrest : idsFresh (applySettlementOp db op) rest := by
      cases op with
      | create settlementData newId now => exact hfresh.2
      | markPaid settlementId notes now => exact hfresh
    obtain ⟨st1, hst1, hpaid1⟩ := applySettlementOp_keeps_paid db op id st hst hpaid hone
    unfold runSettlementOps
    rw [List.foldl_cons]
    exact ih (applySettlementOp db op) st1 hst1 hpaid1 hrest

/-- C20: `createSettlement` always persists the status `open`;
`markSettlementPaid(id, notes)` sets the status `paid` and the given notes; a
settlement that is paid stays paid under every sequence of these operations
(the store assigning new ids); and marking a settlement paid twice leaves the
same stored settlement as marking it once, the timestamps `paidAt` and
`updatedAt` aside, and the same other documents. -/
theorem settlement_lifecycle :
    (∀ (db : Store) (settlementData : Obj) (newId : String) (now : Int),
      ∃ st, (createSettlement db settlementData newId now).2.lookup
          (createSettlement db settlementData newId now).1 = some st
        ∧ field st "status" = vStr "open")
    ∧ (∀ (db : Store) (id : String) (notes : Val) (now : Int) (st : Obj),
        db.lookup id = some st →
        ∃ db2 st2, markSettlementPaid db id notes now = Except.ok db2
          ∧ db2.lookup id = some st2
          ∧ field st2 "status" = vStr "paid"
          ∧ field st2 "notes" = (if notes = vUndef then vStr "" else notes))
    ∧ (∀ (db : Store) (id : String) (st : Obj) (ops : List SettlementOp),
        db.lookup id = some st → field st "status" = vStr "paid" → idsFresh db ops →
        ∃ st2, (runSettlementOps db ops).lookup id = some st2
          ∧ field st2 "status" = vStr "paid" ∧ field st2 "status" ≠ vStr "open")
    ∧ (∀ (db : Store) (id : String) (notes : Val) (now1 now2 : Int) (st : Obj),
        db.lookup id = some st →
        ∃ db1 db2 st1 st2, markSettlementPaid db id notes now1 = Except.ok db1
          ∧ markSettlementPaid db1 id notes now2 = Except.ok db2
          ∧ db1.lookup id = some st1 ∧ db2.lookup id = some st2
          ∧ (∀ k : String, k ≠ "paidAt" → k ≠ "updatedAt" → field st2 k = field st1 k)
          ∧ (∀ other : String, other ≠ id → db2.lookup other = db1.lookup other)) := by
  refine ⟨?_, ?_, ?_, ?_⟩
  · intro db settlementData newId now
    refine ⟨newSettlementRecord settlementData now, ?_, ?_⟩
    · simp [createSettlement, List.lookup_cons]
    · simp only [newSettlementRecord, List.cons_append, field_cons]
      simp
  · intro db id notes now st hst
    obtain ⟨db2, h2, hl2⟩ := markSettlementPaid_lookup db id notes now st hst
    refine ⟨db2, _, h2, hl2, field_paidFields_status notes now st, ?_⟩
    simp only [paidFields, List.cons_append, field_cons]
    simp
  · intro db id st ops hst hpaid hfresh
    obtain ⟨st2, h2, hp2⟩ := runSettlementOps_keeps_paid ops db id st hst hpaid hfresh
    refine ⟨st2, h2, hp2, ?_⟩
    rw [hp2]
    simp [vStr]
  · intro db id notes now1 now2 st hst
    obtain ⟨db1, h1, hl1⟩ := markSettlementPaid_lookup db id notes now1 st hst
    obtain ⟨db2, h2, hl2⟩ := markSettlementPaid_lookup db1 id notes now2 _ hl1
    refine ⟨db1, db2, _, _, h1, h2, hl1, hl2, ?_, ?_⟩
    · intro k hk1 hk2
      simp only [paidFields, List.cons_append, List.nil_append, field_cons, if_neg hk1,
        if_neg hk2]
      by_cases hs : k = "status"
      · simp [hs]
      · by_cases hn : k = "notes"
        · simp [hn]
        · simp [hs, hn]
    · intro other hne
      exact updateDoc_lookup_other db1 db2 id other _ h2 hne

/-- C20, witness: a paid settlement is still paid after a creation and two
markings, one of them of the paid settlement itself. -/
theorem settlement_lifecycle_witness :
    paidSettlements.lookup "s1"
        = some [("status", vStr "paid"), ("repId", vStr "R1"), ("notes", vStr "cash")]
      ∧ idsFresh paidSettlements lifecycleOps
      ∧ ∃ st2, (runSettlementOps paidSettlements lifecycleOps).lookup "s1" = some st2
          ∧ field st2 "status" = vStr "paid" ∧ field st2 "status" ≠ vStr "open" :=
  ⟨rfl, ⟨rfl, trivial⟩,
    settlement_lifecycle.2.2.1 paidSettlements "s1"
      [("status", vStr "paid"), ("repId", vStr "R1"), ("notes", vStr "cash")]
      lifecycleOps rfl rfl ⟨rfl, trivial⟩⟩

/-! ## Decimal notation -/

theorem digitValue_digitChar (k : Nat) (h : k < 10) :
    digitValue 10 (Nat.digitChar k) = some k := by
  interval_cases k <;> rfl

theorem digitsFold_init (ds : List Char) (a : Nat) :
    ds.foldl (fun n c => 10 * n + (digitValue 10 c).getD 0) a
      = a * 10 ^ ds.length + ds.foldl (fun n c => 10 * n + (digitValue 10 c).getD 0) 0 := by
  induction ds generalizing a with
  | nil => simp
  | cons c rest ih =>
    rw [List.foldl_cons, List.foldl_cons, ih, ih (10 * 0 + (digitValue 10 c).getD 0),
      List.length_cons]
    ring

theorem digitsValue_cons (c : Char) (ds : List Char) :
    digitsValue 10 (c :: ds)
      = (digitValue 10 c).getD 0 * 10 ^ ds.length + digitsValue 10 ds := by
  unfold digitsValue
  rw [List.foldl_cons, digitsFold_init]
  simp

theorem digitsValue_toDigitsCore (fuel n : Nat) (ds : List Char) (h : n < fuel) :
    digitsValue 10 (Nat.toDigitsCore 10 fuel n ds)
      = n * 10 ^ ds.length + digitsValue 10 ds := by
  induction fuel generalizing n ds with
  | zero => omega
  | succ fuel ih =>
    unfold Nat.toDigitsCore
    have hmod : n % 10 < 10 := Nat.mod_lt _ (by decide)
    by_cases hq : n / 10 = 0
    · simp only [hq, if_true]
      rw [digitsValue_cons, digitValue_digitChar _ hmod]
      have hn : n % 10 = n := by omega
      simp [hn]
    · simp only [hq, if_false]
      have hlt : n / 10 < fuel := by omega
      rw [ih (n / 10) _ hlt, digitsValue_cons, digitValue_digitChar _ hmod, List.length_cons]
      simp only [Option.getD_some]
      have hdiv : n = 10 * (n / 10) + n % 10 := (Nat.div_add_mod n 10).symm
      calc n / 10 * 10 ^ (ds.length + 1) + (n % 10 * 10 ^ ds.length + digitsValue 10 ds)
          = (10 * (n / 10) + n % 10) * 10 ^ ds.length + digitsValue 10 ds := by ring
        _ = n * 10 ^ ds.length + digitsValue 10 ds := by rw [← hdiv]

/-- The decimal notation of a natural number reads back as the number. -/
theorem digitsValue_repr (n : Nat) : digitsValue 10 (Nat.repr n).data = n := by
  have h : (Nat.repr n).data = Nat.toDigitsCore 10 (n + 1) n [] := rfl
  rw [h, digitsValue_toDigitsCore (n + 1) n [] (Nat.lt_succ_self n)]
  simp [digitsValue]

theorem all_digits_toDigitsCore (fuel n : Nat) (ds : List Char)
    (hds : ∀ c ∈ ds, isDigitOf 10 c = true) :
    ∀ c ∈ Nat.toDigitsCore 10 fuel n ds, isDigitOf 10 c = true := by
  induction fuel generalizing n ds with
  | zero => exact hds
  | succ fuel ih =>
    unfold Nat.toDigitsCore
    have hmod : n % 10 < 10 := Nat.mod_lt _ (by decide)
    have hd : isDigitOf 10 (Nat.digitChar (n % 10)) = true := by
      unfold isDigitOf
      rw [digitValue_digitChar _ hmod]
      rfl
    have hcons : ∀ c ∈ Nat.digitChar (n % 10) :: ds, isDigitOf 10 c = true := by
      intro c hc
      rcases List.mem_cons.mp hc with h | h
      · rw [h]
        exact hd
      · exact hds c h
    by_cases hq : n / 10 = 0
    · simp only [hq, if_true]
      exact hcons
    · simp only [hq, if_false]
      exact ih _ _ hcons

/-- The decimal notation of a natural number holds digits only. -/
theorem stripNonDigits_repr (n : Nat) : stripNonDigits (Nat.repr n) = (Nat.repr n).data := by
  unfold stripNonDigits
  rw [List.filter_eq_self]
  have h : (Nat.repr n).data = Nat.toDigitsCore 10 (n + 1) n [] := rfl
  rw [h]
  exact all_digits_toDigitsCore (n + 1) n [] (by simp)

theorem toDigitsCore_ne_nil (fuel m : Nat) (ds : List Char) (hds : ds ≠ []) :
    Nat.toDigitsCore 10 fuel m ds ≠ [] := by
  induction fuel generalizing m ds with
  | zero => exact hds
  | succ fuel ih =>
    unfold Nat.toDigitsCore
    by_cases hq : m / 10 = 0
    · simp only [hq, if_true]
      simp
    · simp only [hq, if_false]
      exact ih _ _ (by simp)

theorem repr_data_ne_nil (n : Nat) : (Nat.repr n).data ≠ [] := by
  have h : (Nat.repr n).data = Nat.toDigitsCore 10 (n + 1) n [] := rfl
  rw [h]
  unfold Nat.toDigitsCore
  by_cases hq : n / 10 = 0
  · simp only [hq, if_true]
    simp
  · simp only [hq, if_false]
    exact toDigitsCore_ne_nil _ _ _ (by simp)

theorem digitsValue_replicate_zero (k : Nat) (ds : List Char) :
    digitsValue 10 (List.replicate k (Char.ofNat 48) ++ ds) = digitsValue 10 ds := by
  induction k with
  | zero => rfl
  | succ k ih =>
    rw [List.replicate_succ, List.cons_append, digitsValue_cons, ih]
    have h0 : digitValue 10 (Char.ofNat 48) = some 0 := rfl
    rw [h0]
    simp

/-- A padded decimal notation reads back as the number. -/
theorem digitsValue_padStart_repr (n : Nat) :
    digitsValue 10 (padStart (Nat.repr n) 6 (Char.ofNat 48)).data = n := by
  unfold padStart
  rw [digitsValue_replicate_zero, digitsValue_repr]

/-! ## The allocator run without interference -/

theorem excessBits_small (fuel n : ℕ) (h : n < 2 ^ 53) : excessBits fuel n = 0 := by
  cases fuel with
  | zero => rfl
  | succ f => rw [excessBits, if_pos h]

/-- Up to `2^53` every natural number is a double. -/
theorem roundToDouble_small (n : ℕ) (h : n ≤ 2 ^ 53) : roundToDouble n = n := by
  rcases Nat.lt_or_ge n (2 ^ 53) with hlt | hge
  · simp only [roundToDouble, excessBits_small n n hlt, pow_zero, Nat.mod_one, Nat.div_one,
      Nat.mul_one, Nat.zero_mul]
    simp
  · have hn : n = 2 ^ 53 := le_antisymm h hge
    subst hn
    decide

/-- Up to `2^53` in absolute value every integer is a double. -/
theorem roundIntToDouble_small (z : ℤ) (h : |z| ≤ 2 ^ 53) : roundIntToDouble z = z := by
  unfold roundIntToDouble
  by_cases hnn : 0 ≤ z
  · rw [if_pos hnn, roundToDouble_small _ (by
      have := abs_of_nonneg hnn
      omega)]
    exact Int.toNat_of_nonneg hnn
  · rw [if_neg hnn, roundToDouble_small _ (by
      have := abs_of_neg (not_le.mp hnn)
      omega)]
    have : (((-z).toNat : ℕ) : ℤ) = -z := Int.toNat_of_nonneg (by omega)
    rw [this, neg_neg]

theorem addOne_int (c : ℤ) (hc : |c| ≤ 2 ^ 53) (h : |c + 1| ≤ 2 ^ 53) :
    addOne (c : ℚ) = ((c + 1 : ℤ) : ℚ) := by
  unfold addOne
  simp only [Rat.intCast_den, Rat.intCast_num, if_true]
  rw [roundIntToDouble_small c hc, roundIntToDouble_small (c + 1) h]

theorem addOne_nat (k : ℕ) (h : k + 1 ≤ 2 ^ 53) : addOne (k : ℚ) = ((k + 1 : ℕ) : ℚ) := by
  have hcast : (k : ℚ) = ((k : ℤ) : ℚ) := by push_cast; rfl
  rw [hcast, addOne_int (k : ℤ) (by
    rw [abs_of_nonneg (by omega)]
    exact_mod_cast (by omega : k ≤ 2 ^ 53)) (by
    rw [abs_of_nonneg (by omega)]
    exact_mod_cast h)]
  push_cast
  rfl

theorem addOne_zero : addOne 0 = 1 := by
  have h := addOne_nat 0 (by norm_num)
  simpa using h

/-- At `2^53` the sum `last + 1` is `last`. -/
theorem addOne_stuck : addOne 9007199254740992 = 9007199254740992 := by
  have hr : roundToDouble 9007199254740993 = 9007199254740992 := by decide
  have h1 : roundIntToDouble 9007199254740992 = 9007199254740992 :=
    roundIntToDouble_small _ (by norm_num)
  have h2 : roundIntToDouble (9007199254740992 + 1) = 9007199254740992 := by
    simp only [roundIntToDouble]
    norm_num
    exact_mod_cast hr
  have hcast : (9007199254740992 : ℚ) = ((9007199254740992 : ℤ) : ℚ) := by norm_num
  rw [hcast]
  unfold addOne
  simp only [Rat.intCast_den, Rat.intCast_num, if_true]
  rw [h1, h2]

theorem lastNumberOf_counterDoc (n : Option ℚ) (now : Int) :
    lastNumberOf (some (counterDoc (numberVal n) now)) = n := by
  cases n with
  | none => simp [lastNumberOf, counterDoc, numberVal, field, List.lookup]
  | some q => simp [lastNumberOf, counterDoc, numberVal, field, List.lookup, vNum]

theorem lastNumberOf_counterDoc_vNum (q : ℚ) (now : Int) :
    lastNumberOf (some (counterDoc (vNum q) now)) = some q :=
  lastNumberOf_counterDoc (some q) now

/-- A call run without interference: the barcode of the number seen plus one,
and the counter set to that number. -/
theorem getNextPhoneNumber_eq (st : AllocState) (now : Int) :
    getNextPhoneNumber st now
      = (formatBarcode ((seenLast st).map addOne),
         { st with counter := some (counterDoc
            (numberVal ((seenLast st).map addOne)) now) }) := by
  obtain ⟨counter, phones⟩ := st
  cases counter with
  | none =>
    simp only [getNextPhoneNumber, runAlloc, allocStep, seenLast, Option.isSome_none,
      Bool.false_eq_true, if_false, lastNumberOf_counterDoc_vNum]
  | some data =>
    simp only [getNextPhoneNumber, runAlloc, allocStep, seenLast, Option.isSome_some, if_true]

theorem numberToString_int (n : ℤ) (h : |n| < 10 ^ 21) :
    numberToString (some (n : ℚ)) = some (toString n) := by
  unfold numberToString
  simp only [Rat.intCast_den, Rat.intCast_num, true_and, if_pos h]

theorem formatBarcode_int (n : ℤ) (h : |n| < 10 ^ 21) :
    formatBarcode (some (n : ℚ)) = some (padStart (toString n) 6 (Char.ofNat 48)) := by
  unfold formatBarcode
  rw [numberToString_int n h]
  rfl

theorem formatBarcode_nat (n : ℕ) (h : n < 10 ^ 21) :
    formatBarcode (some (n : ℚ)) = some (padStart (Nat.repr n) 6 (Char.ofNat 48)) := by
  have hcast : (n : ℚ) = ((n : ℤ) : ℚ) := by push_cast; rfl
  rw [hcast, formatBarcode_int (n : ℤ) (by
    rw [abs_of_nonneg (Int.natCast_nonneg n)]
    exact_mod_cast h)]
  rfl

/-- Calls one after the other from a counter at `k`. -/
theorem allocateMany_from (now : Int) (N k : ℕ) (phones : List Obj) (hb : k + N ≤ 2 ^ 53) :
    allocateMany now N ⟨some (counterDoc (vNum (k : ℚ)) now), phones⟩
      = ((List.range N).map (fun i => some (padStart (Nat.repr (k + i + 1)) 6 (Char.ofNat 48))),
         ⟨some (counterDoc (vNum ((k + N : ℕ) : ℚ)) now), phones⟩) := by
  induction N generalizing k with
  | zero => rfl
  | succ N ih =>
    have hstep : getNextPhoneNumber ⟨some (counterDoc (vNum (k : ℚ)) now), phones⟩ now
        = (some (padStart (Nat.repr (k + 1)) 6 (Char.ofNat 48)),
           ⟨some (counterDoc (vNum ((k + 1 : ℕ) : ℚ)) now), phones⟩) := by
      rw [getNextPhoneNumber_eq]
      simp only [seenLast, lastNumberOf_counterDoc_vNum, Option.map_some']
      rw [addOne_nat k (by omega), formatBarcode_nat (k + 1) (by
        have h53 : (2 : ℕ) ^ 53 < 10 ^ 21 := by norm_num
        omega)]
      rfl
    unfold allocateMany
    rw [hstep]
    simp only
    rw [ih (k + 1) (by omega), List.range_succ_eq_map, List.map_cons, List.map_map]
    have harg : ∀ i : ℕ, k + 1 + i + 1 = k + (i + 1) + 1 := by intro i; omega
    have hN : k + 1 + N = k + (N + 1) := by omega
    simp only [Function.comp_def, harg, hN, Nat.add_zero]

/-- The padded decimal notation determines the number. -/
theorem padStart_repr_injective (a b : ℕ)
    (h : padStart (Nat.repr a) 6 (Char.ofNat 48) = padStart (Nat.repr b) 6 (Char.ofNat 48)) :
    a = b := by
  have ha := digitsValue_padStart_repr a
  rw [h, digitsValue_padStart_repr] at ha
  exact ha.symm

theorem scanMax_nil : scanMax [] = 0 := rfl

/-- Calls one after the other from an absent counter and an empty inventory. -/
theorem allocateMany_fresh (now : Int) (N : ℕ) (hb : N ≤ 2 ^ 53) :
    (allocateMany now N ⟨none, []⟩).1
        = (List.range N).map (fun i => some (padStart (Nat.repr (i + 1)) 6 (Char.ofNat 48)))
      ∧ (0 < N → (allocateMany now N ⟨none, []⟩).2
          = ⟨some (counterDoc (vNum (N : ℚ)) now), []⟩) := by
  cases N with
  | zero =>
    refine ⟨rfl, ?_⟩
    intro h
    omega
  | succ N =>
    have hstep : getNextPhoneNumber ⟨none, []⟩ now
        = (some (padStart (Nat.repr 1) 6 (Char.ofNat 48)),
           ⟨some (counterDoc (vNum ((1 : ℕ) : ℚ)) now), []⟩) := by
      rw [getNextPhoneNumber_eq]
      simp only [seenLast, scanMax_nil, Option.map_some', addOne_zero]
      have hcast : (1 : ℚ) = ((1 : ℕ) : ℚ) := by norm_num
      rw [hcast, formatBarcode_nat 1 (by norm_num)]
      rfl
    unfold allocateMany
    rw [hstep]
    simp only
    rw [allocateMany_from now N 1 [] (by omega), List.range_succ_eq_map, List.map_cons,
      List.map_map]
    have harg : ∀ i : ℕ, 1 + i + 1 = i + 1 + 1 := by intro i; omega
    have hN : 1 + N = N + 1 := by omega
    refine ⟨?_, ?_⟩
    · simp only [Function.comp_def, harg, Nat.zero_add]
    · intro _
      simp only [hN]

/-- Within the integers that doubles hold exactly: from a counter whose
`lastNumber` is the integer `c` with `|c| ≤ 2^53` and `|c + 1| ≤ 2^53`, one call
run without interference stores `lastNumber = c + 1` and returns the decimal
notation of `c + 1` left-padded with zeros to width 6; `N ≤ 2^53` calls one after the other
from an absent counter and an empty inventory return the padded notations of
exactly `1, ..., N` in this order, without duplicates, and leave the counter at
`N`. -/
theorem getNextPhoneNumber_sequential :
    (∀ (st : AllocState) (now : Int) (data : Obj) (c : ℤ),
      st.counter = some data → field data "lastNumber" = vNum (c : ℚ) →
      |c| ≤ 2 ^ 53 → |c + 1| ≤ 2 ^ 53 →
      (getNextPhoneNumber st now).1 = some (padStart (toString (c + 1)) 6 (Char.ofNat 48))
      ∧ (getNextPhoneNumber st now).2.counter
          = some (counterDoc (vNum ((c + 1 : ℤ) : ℚ)) now)
      ∧ lastNumberOf (getNextPhoneNumber st now).2.counter = some ((c : ℚ) + 1)
      ∧ (getNextPhoneNumber st now).2.phones = st.phones)
    ∧ (∀ (now : Int) (N : ℕ), N ≤ 2 ^ 53 →
        (allocateMany now N ⟨none, []⟩).1
          = (List.range N).map
              (fun i => some (padStart (Nat.repr (i + 1)) 6 (Char.ofNat 48)))
        ∧ ((allocateMany now N ⟨none, []⟩).1).Nodup
        ∧ (0 < N → lastNumberOf (allocateMany now N ⟨none, []⟩).2.counter = some (N : ℚ)))
    ∧ (allocateMany 0 3 ⟨none, []⟩).1 = [some "000001", some "000002", some "000003"] := by
  refine ⟨?_, ?_, ?_⟩
  · intro st now data c hc hlast hbc hb
    have hseen : seenLast st = some (c : ℚ) := by
      unfold seenLast
      rw [hc]
      simp only [lastNumberOf, hlast, vNum]
    have hcast : ((c + 1 : ℤ) : ℚ) = (c : ℚ) + 1 := by push_cast; rfl
    have hb21 : |c + 1| < 10 ^ 21 := lt_of_le_of_lt hb (by norm_num)
    rw [getNextPhoneNumber_eq, hseen]
    simp only [Option.map_some', addOne_int c hbc hb, numberVal]
    refine ⟨formatBarcode_int (c + 1) hb21, trivial, ?_, trivial⟩
    rw [← hcast]
    exact lastNumberOf_counterDoc_vNum _ now
  · intro now N hb
    obtain ⟨h1, h2⟩ := allocateMany_fresh now N hb
    refine ⟨h1, ?_, ?_⟩
    · rw [h1]
      apply List.Nodup.map _ (List.nodup_range N)
      intro i j hij
      have hs : padStart (Nat.repr (i + 1)) 6 (Char.ofNat 48)
          = padStart (Nat.repr (j + 1)) 6 (Char.ofNat 48) := Option.some.inj hij
      have := padStart_repr_injective _ _ hs
      omega
    · intro hpos
      rw [h2 hpos]
      exact lastNumberOf_counterDoc_vNum _ now
  · rw [(allocateMany_fresh 0 3 (by norm_num)).1]
    decide

/-- From a counter at 41 the call returns `"000042"` and stores 42. -/
theorem getNextPhoneNumber_sequential_witness :
    (getNextPhoneNumber ⟨some [("lastNumber", vNum 41)], []⟩ 0).1 = some "000042"
      ∧ lastNumberOf (getNextPhoneNumber ⟨some [("lastNumber", vNum 41)], []⟩ 0).2.counter
        = some 42 := by
  obtain ⟨h1, _, h3, _⟩ := getNextPhoneNumber_sequential.1
    ⟨some [("lastNumber", vNum 41)], []⟩ 0 [("lastNumber", vNum 41)] 41 rfl
    (by simp [field, List.lookup]) (by norm_num) (by norm_num)
  refine ⟨?_, ?_⟩
  · rw [h1]
    decide
  · rw [h3]
    norm_num

/-- C16, the code at the failing input: from a counter whose `lastNumber` is the
integer 9007199254740992 (`2^53`) a call run without interference stores
9007199254740992 again, not 9007199254740993, and returns its notation; two
calls one after the other return the same barcode. -/
theorem getNextPhoneNumber_repeats :
    lastNumberOf stuckCounter.counter = some 9007199254740992
      ∧ (getNextPhoneNumber stuckCounter 0).1 = some "9007199254740992"
      ∧ lastNumberOf (getNextPhoneNumber stuckCounter 0).2.counter = some 9007199254740992
      ∧ (allocateMany 0 2 stuckCounter).1
          = [some "9007199254740992", some "9007199254740992"] := by
  have hfmt : formatBarcode (some (9007199254740992 : ℚ)) = some "9007199254740992" := by
    have hcast : (9007199254740992 : ℚ) = ((9007199254740992 : ℕ) : ℚ) := by norm_num
    rw [hcast, formatBarcode_nat 9007199254740992 (by norm_num)]
    decide
  have hseen : ∀ now : Int,
      seenLast ⟨some (counterDoc (vNum 9007199254740992) now), []⟩
        = some 9007199254740992 := by
    intro now
    simp [seenLast, lastNumberOf, counterDoc, field, List.lookup, vNum]
  have hseen0 : seenLast stuckCounter = some 9007199254740992 := by
    simp [seenLast, stuckCounter, lastNumberOf, field, List.lookup, vNum]
  have hstep : getNextPhoneNumber stuckCounter 0
      = (some "9007199254740992",
         ⟨some (counterDoc (vNum 9007199254740992) 0), []⟩) := by
    rw [getNextPhoneNumber_eq, hseen0]
    simp only [Option.map_some', addOne_stuck, hfmt, numberVal]
    rfl
  have hstep2 : getNextPhoneNumber ⟨some (counterDoc (vNum 9007199254740992) 0), []⟩ 0
      = (some "9007199254740992",
         ⟨some (counterDoc (vNum 9007199254740992) 0), []⟩) := by
    rw [getNextPhoneNumber_eq, hseen 0]
    simp only [Option.map_some', addOne_stuck, hfmt, numberVal]
  refine ⟨?_, ?_, ?_, ?_⟩
  · simp [stuckCounter, lastNumberOf, field, List.lookup, vNum]
  · rw [hstep]
  · rw [hstep]
    exact lastNumberOf_counterDoc_vNum _ 0
  · simp only [allocateMany, hstep, hstep2]

/-! ## The seed of the counter -/

theorem phoneNumberValue_eq_spec (phone : Obj)
    (h : isIdentifierValue (field phone "phone_number") = true) :
    phoneNumberValue phone = specPhoneInteger phone := by
  unfold phoneNumberValue specPhoneInteger
  cases hv : field phone "phone_number" with
  | arr ps =>
    rw [hv] at h
    simp [isIdentifierValue] at h
  | prim pr =>
    rw [hv] at h
    cases pr with
    | undefined => rfl
    | null => rfl
    | bool b => cases b <;> rfl
    | nan => rfl
    | str s =>
      simp only [isIdentifierValue, decide_eq_true_eq] at h
      simp only [jsStringOf, parseIntDigits, roundToDouble_small _ (le_of_lt h)]
    | date d => simp [isIdentifierValue] at h
    | timestamp t => simp [isIdentifierValue] at h
    | num q =>
      simp only [isIdentifierValue, decide_eq_true_eq] at h
      obtain ⟨hden, hnonneg, hlt⟩ := h
      obtain ⟨n, hn⟩ := Int.eq_ofNat_of_zero_le hnonneg
      have hq : q = (n : ℚ) := by
        have h1 : (q.num : ℚ) = q := Rat.coe_int_num_of_den_eq_one hden
        rw [← h1, hn]
        rfl
      have habs : |q.num| < 10 ^ 21 := by
        rw [abs_of_nonneg hnonneg]
        exact lt_trans hlt (by norm_num)
      have hstr : jsStringOf (Val.prim (Prim.num q)) = some (Nat.repr n) := by
        simp only [jsStringOf, numberToString, hden, true_and, if_pos habs]
        rw [hn]
        rfl
      rw [hstr]
      simp only [stripNonDigits_repr, if_neg (repr_data_ne_nil n), digitsValue_repr]
      rw [hq]

/-- The integer of a phone whose identifier the code reads as the specification
does is a natural number below `2^53`. -/
theorem specPhoneInteger_small (phone : Obj) (v : ℚ)
    (h : isIdentifierValue (field phone "phone_number") = true)
    (hv : specPhoneInteger phone = some v) : ∃ n : ℕ, v = n ∧ n < 2 ^ 53 := by
  rw [← phoneNumberValue_eq_spec phone h] at hv
  unfold phoneNumberValue at hv
  cases hf : field phone "phone_number" with
  | arr ps =>
    rw [hf] at hv
    cases hv
  | prim pr =>
    rw [hf] at hv h
    cases pr with
    | undefined => cases hv
    | null => cases hv
    | bool b => cases hv
    | nan => cases hv
    | date d => cases hv
    | timestamp t => cases hv
    | str s =>
      simp only [isIdentifierValue, decide_eq_true_eq] at h
      simp only [parseIntDigits, roundToDouble_small _ (le_of_lt h)] at hv
      by_cases hnil : stripNonDigits s = []
      · rw [if_pos hnil] at hv
        cases hv
      · rw [if_neg hnil] at hv
        exact ⟨_, (Option.some.inj hv).symm, h⟩
    | num q =>
      simp only [isIdentifierValue, decide_eq_true_eq] at h
      obtain ⟨hden, hnonneg, hlt⟩ := h
      obtain ⟨n, hn⟩ := Int.eq_ofNat_of_zero_le hnonneg
      have hq : q = (n : ℚ) := by
        have h1 : (q.num : ℚ) = q := Rat.coe_int_num_of_den_eq_one hden
        rw [← h1, hn]
        rfl
      refine ⟨n, ?_, ?_⟩
      · rw [← hq]
        exact (Option.some.inj hv).symm
      · rw [hn] at hlt
        exact_mod_cast hlt

theorem scanMax_eq_foldr (phones : List Obj) (a : ℚ) (ha : 0 ≤ a) :
    phones.foldl (fun maxNum phone =>
        match phoneNumberValue phone with
        | some num => if num > maxNum then num else maxNum
        | none => maxNum) a
      = max a ((phones.filterMap phoneNumberValue).foldr max 0) := by
  induction phones generalizing a with
  | nil => simp [ha]
  | cons phone rest ih =>
    rw [List.foldl_cons]
    cases hv : phoneNumberValue phone with
    | none =>
      simp only [List.filterMap_cons, hv]
      exact ih a ha
    | some num =>
      simp only [List.filterMap_cons, hv, List.foldr_cons]
      by_cases hgt : num > a
      · rw [if_pos hgt, ih num (le_trans ha (le_of_lt hgt)), ← max_assoc,
          max_eq_right (le_of_lt hgt)]
      · rw [if_neg hgt, ih a ha, ← max_assoc, max_eq_left (not_lt.mp hgt)]

theorem filterMap_congr_mem {γ δ : Type} (f g : γ → Option δ) (l : List γ)
    (h : ∀ x ∈ l, f x = g x) : l.filterMap f = l.filterMap g := by
  induction l with
  | nil => rfl
  | cons x rest ih =>
    simp only [List.filterMap_cons, h x (List.mem_cons_self _ _)]
    rw [ih (fun y hy => h y (List.mem_cons_of_mem _ hy))]

theorem foldr_max_nonneg (l : List ℚ) : 0 ≤ l.foldr max 0 := by
  induction l with
  | nil => exact le_refl _
  | cons x rest ih => exact le_trans ih (le_max_right _ _)

theorem le_foldr_max (l : List ℚ) (v : ℚ) (h : v ∈ l) : v ≤ l.foldr max 0 := by
  induction l with
  | nil => simp at h
  | cons x rest ih =>
    rw [List.foldr_cons]
    rcases List.mem_cons.mp h with heq | hmem
    · rw [heq]
      exact le_max_left _ _
    · exact le_trans (ih hmem) (le_max_right _ _)

/-- Under identifiers the code reads as the specification does, the loop
computes the seed of the specification. -/
theorem scanMax_eq_specSeed (phones : List Obj)
    (hwf : ∀ phone ∈ phones, isIdentifierValue (field phone "phone_number") = true) :
    scanMax phones = specSeed phones := by
  unfold scanMax specSeed
  rw [scanMax_eq_foldr phones 0 (le_refl _), max_eq_right (foldr_max_nonneg _),
    filterMap_congr_mem phoneNumberValue specPhoneInteger phones
      (fun p hp => phoneNumberValue_eq_spec p (hwf p hp))]

theorem foldr_max_small (l : List ℚ) (h : ∀ v ∈ l, ∃ n : ℕ, v = n ∧ n < 2 ^ 53) :
    ∃ n : ℕ, l.foldr max 0 = n ∧ n < 2 ^ 53 := by
  induction l with
  | nil => exact ⟨0, by simp, by norm_num⟩
  | cons x rest ih =>
    obtain ⟨m, hm, hmlt⟩ := ih (fun v hv => h v (List.mem_cons_of_mem _ hv))
    obtain ⟨k, hk, hklt⟩ := h x (List.mem_cons_self _ _)
    rw [List.foldr_cons, hm, hk]
    refine ⟨max k m, by push_cast; rfl, ?_⟩
    exact max_lt hklt hmlt

theorem specSeed_small (phones : List Obj)
    (hwf : ∀ phone ∈ phones, isIdentifierValue (field phone "phone_number") = true) :
    ∃ n : ℕ, specSeed phones = n ∧ n < 2 ^ 53 := by
  unfold specSeed
  apply foldr_max_small
  intro v hv
  obtain ⟨phone, hp, hpv⟩ := List.mem_filterMap.mp hv
  exact specPhoneInteger_small phone v (hwf phone hp) hpv

/-- Within the integers that doubles hold exactly: with no counter record and an
inventory whose identifiers are strings or natural numbers with an integer below
`2^53` (or hold no digit), `getNextPhoneNumber` seeds the counter with the
maximum over the phones of the integer read from the digits of `phone_number`
(0 when none has a digit), and the identifier it returns is the barcode of that
maximum plus one, greater than the integer of every phone in the inventory. -/
theorem getNextPhoneNumber_seeds (st : AllocState) (now : Int)
    (hc : st.counter = none)
    (hwf : ∀ phone ∈ st.phones, isIdentifierValue (field phone "phone_number") = true) :
    runAlloc now 3 Phase.start st
        = (Phase.ready, { st with counter := some (counterDoc (vNum (specSeed st.phones)) now) })
      ∧ (∃ n : ℕ, specSeed st.phones = n
          ∧ (getNextPhoneNumber st now).1
              = some (padStart (Nat.repr (n + 1)) 6 (Char.ofNat 48))
          ∧ lastNumberOf (getNextPhoneNumber st now).2.counter = some ((n : ℚ) + 1))
      ∧ (∀ phone ∈ st.phones, ∀ v : ℚ, specPhoneInteger phone = some v →
          v < specSeed st.phones + 1)
      ∧ (st.phones.filterMap specPhoneInteger = [] → specSeed st.phones = 0) := by
  obtain ⟨counter, phones⟩ := st
  simp only at hc hwf
  subst hc
  have hscan := scanMax_eq_specSeed phones hwf
  have hseen : seenLast ⟨none, phones⟩ = some (specSeed phones) := by
    simp only [seenLast, hscan]
  refine ⟨?_, ?_, ?_, ?_⟩
  · simp only [runAlloc, allocStep, Option.isSome_none, Bool.false_eq_true, if_false, hscan]
  · obtain ⟨n, hn, hlt⟩ := specSeed_small phones hwf
    have hadd : addOne (specSeed phones) = ((n + 1 : ℕ) : ℚ) := by
      rw [hn]
      exact addOne_nat n (by omega)
    refine ⟨n, hn, ?_, ?_⟩
    · rw [getNextPhoneNumber_eq, hseen]
      simp only [Option.map_some', hadd]
      exact formatBarcode_nat (n + 1) (by
        have h53 : (2 : ℕ) ^ 53 < 10 ^ 21 := by norm_num
        omega)
    · rw [getNextPhoneNumber_eq, hseen]
      simp only [Option.map_some', hadd]
      have hcast : ((n + 1 : ℕ) : ℚ) = (n : ℚ) + 1 := by push_cast; rfl
      rw [← hcast]
      exact lastNumberOf_counterDoc (some ((n + 1 : ℕ) : ℚ)) now
  · intro phone hp v hv
    have hle : v ≤ specSeed phones := by
      unfold specSeed
      apply le_foldr_max
      exact List.mem_filterMap.mpr ⟨phone, hp, hv⟩
    linarith
  · intro hnil
    unfold specSeed
    simp only at hnil
    rw [hnil]
    rfl

/-- An inventory with the barcode `"000041"`, the number 7 and the text `"ab-12"`
seeds the counter at 41; the call returns `"000042"`. -/
theorem getNextPhoneNumber_seeds_witness :
    specSeed threePhones = 41
      ∧ (getNextPhoneNumber ⟨none, threePhones⟩ 0).1 = some "000042" := by
  have hwf : ∀ phone ∈ threePhones,
      isIdentifierValue (field phone "phone_number") = true := by
    intro phone hp
    simp only [threePhones, List.mem_cons, List.mem_singleton, List.not_mem_nil,
      or_false] at hp
    rcases hp with h | h | h <;> subst h <;> decide
  have hd41 : digitsValue 10 (stripNonDigits "000041") = 41 := by decide
  have hd12 : digitsValue 10 (stripNonDigits "ab-12") = 12 := by decide
  have hn41 : stripNonDigits "000041" ≠ [] := by decide
  have hn12 : stripNonDigits "ab-12" ≠ [] := by decide
  have hr41 : roundToDouble 41 = 41 := by decide
  have hr12 : roundToDouble 12 = 12 := by decide
  have hscan : scanMax threePhones = 41 := by
    simp [scanMax, threePhones, phoneNumberValue, field, List.lookup, vStr, vNum,
      parseIntDigits, hd41, hd12, hn41, hn12, hr41, hr12]
    norm_num
  have hseed : specSeed threePhones = 41 := by
    rw [← scanMax_eq_specSeed threePhones hwf]
    exact hscan
  obtain ⟨_, ⟨n, hn, hres, _⟩, _⟩ := getNextPhoneNumber_seeds ⟨none, threePhones⟩ 0 rfl hwf
  refine ⟨hseed, ?_⟩
  have hnval : n = 41 := by
    have : (n : ℚ) = 41 := by rw [← hn]; exact hseed
    exact_mod_cast this
  subst hnval
  rw [hres]
  decide

/-- C17, the code at the failing input: with no counter record and the one phone
`"9007199254740993"`, whose integer the specification reads as 9007199254740993,
the counter is seeded with 9007199254740992 and the call returns
`"9007199254740992"`, below the identifier of the phone; with the one phone
`"9007199254740992"` the call returns the identifier of that phone itself; with
the one phone whose `phone_number` is the number `-5`, whose digits make 5, the
counter is seeded with 0. -/
theorem getNextPhoneNumber_seed_collides :
    specSeed largePhones = 9007199254740993
      ∧ scanMax largePhones = 9007199254740992
      ∧ (getNextPhoneNumber ⟨none, largePhones⟩ 0).1 = some "9007199254740992"
      ∧ specSeed [[("phone_number", vStr "9007199254740992")]] = 9007199254740992
      ∧ (getNextPhoneNumber ⟨none, [[("phone_number", vStr "9007199254740992")]]⟩ 0).1
          = some "9007199254740992"
      ∧ specSeed [[("phone_number", vNum (-5))]] = 5
      ∧ scanMax [[("phone_number", vNum (-5))]] = 0 := by
  have hfmt : formatBarcode (some (9007199254740992 : ℚ)) = some "9007199254740992" := by
    have hcast : (9007199254740992 : ℚ) = ((9007199254740992 : ℕ) : ℚ) := by norm_num
    rw [hcast, formatBarcode_nat 9007199254740992 (by norm_num)]
    decide
  have hd1 : digitsValue 10 (stripNonDigits "9007199254740993") = 9007199254740993 := by
    decide
  have hd2 : digitsValue 10 (stripNonDigits "9007199254740992") = 9007199254740992 := by
    decide
  have hn1 : stripNonDigits "9007199254740993" ≠ [] := by decide
  have hn2 : stripNonDigits "9007199254740992" ≠ [] := by decide
  have hr1 : roundToDouble 9007199254740993 = 9007199254740992 := by decide
  have hr2 : roundToDouble 9007199254740992 = 9007199254740992 := by decide
  have hscan1 : scanMax largePhones = 9007199254740992 := by
    simp [scanMax, largePhones, phoneNumberValue, field, List.lookup, vStr, parseIntDigits,
      hn1, hd1, hr1]
  have hscan2 : scanMax [[("phone_number", vStr "9007199254740992")]]
      = 9007199254740992 := by
    simp [scanMax, phoneNumberValue, field, List.lookup, vStr, parseIntDigits, hn2, hd2, hr2]
  have hstr : jsStringOf (vNum (-5)) = some "-5" := by
    simp [jsStringOf, vNum, numberToString]
    rfl
  have hd5 : digitsValue 10 (stripNonDigits "-5") = 5 := by decide
  have hn5 : stripNonDigits "-5" ≠ [] := by decide
  refine ⟨?_, hscan1, ?_, ?_, ?_, ?_, ?_⟩
  · simp [specSeed, largePhones, specPhoneInteger, jsStringOf, field, List.lookup, vStr,
      hn1, hd1]
  · rw [getNextPhoneNumber_eq]
    simp only [seenLast, hscan1, Option.map_some', addOne_stuck, hfmt]
  · simp [specSeed, specPhoneInteger, jsStringOf, field, List.lookup, vStr, hn2, hd2]
  · rw [getNextPhoneNumber_eq]
    simp only [seenLast, hscan2, Option.map_some', addOne_stuck, hfmt]
  · simp [specSeed, specPhoneInteger, field, List.lookup, hstr, hn5, hd5]
  · simp [scanMax, phoneNumberValue, field, List.lookup, vNum]

/-! ## The allocator under concurrent callers -/

/-- C18, the code at the failing schedule: two clients start against an absent
counter; both see it absent, the first seeds it and takes number 1 in its
transaction, then the second seeds it again, which puts the counter back to 0,
and takes number 1 as well: both receive `"000001"`, and the counter ends at 1
after two allocations. -/
theorem getNextPhoneNumber_race_duplicates :
    (runSchedule 0 twoClients racingSchedule).clients
        = [Phase.done (some "000001"), Phase.done (some "000001")]
      ∧ lastNumberOf (runSchedule 0 twoClients racingSchedule).store.counter = some 1 := by
  have h1 : (1 : ℚ) = ((1 : ℕ) : ℚ) := by norm_num
  have hfmt : formatBarcode (some (1 : ℚ)) = some "000001" := by
    rw [h1, formatBarcode_nat 1 (by norm_num)]
    decide
  constructor
  · simp [runSchedule, racingSchedule, twoClients, systemStep, allocStep, scanMax_nil,
      lastNumberOf_counterDoc_vNum, List.set, hfmt, addOne_zero]
  · simp [runSchedule, racingSchedule, twoClients, systemStep, allocStep, scanMax_nil,
      lastNumberOf_counterDoc_vNum, List.set, numberVal, addOne_zero]

/-! ## The filtered read: its three paths -/

theorem getMaintenanceJobs_primary_ok (w : World) (filters : Obj) (docs : List (String × Obj))
    (hpath : hasStatusAndDateRange filters = true)
    (hdocs : w.getDocs (buildQuery filters) = Except.ok docs) :
    getMaintenanceJobs w filters =
      { issued := [buildQuery filters]
        outcome := Except.ok
          (sortByVisitDesc w.dateParse (repFilter filters (snapshotJobs docs))) } := by
  simp [getMaintenanceJobs, hpath, hdocs]

theorem getMaintenanceJobs_plain_ok (w : World) (filters : Obj) (docs : List (String × Obj))
    (hpath : hasStatusAndDateRange filters = false)
    (hdocs : w.getDocs (buildQuery filters) = Except.ok docs) :
    getMaintenanceJobs w filters =
      { issued := [buildQuery filters]
        outcome := Except.ok
          (sortByVisitDesc w.dateParse (repFilter filters (snapshotJobs docs))) } := by
  simp [getMaintenanceJobs, hpath, hdocs]

theorem getMaintenanceJobs_fallback_ok (w : World) (filters : Obj) (e : StoreError)
    (docs : List (String × Obj))
    (hpath : hasStatusAndDateRange filters = true)
    (herr : w.getDocs (buildQuery filters) = Except.error e)
    (hidx : isMissingIndex e = true)
    (hdocs : w.getDocs (fallbackQuery filters) = Except.ok docs) :
    getMaintenanceJobs w filters =
      { issued := [buildQuery filters, fallbackQuery filters]
        outcome := Except.ok
          (sortByVisitDesc w.dateParse
            (fallbackFilter w.dateParse filters (snapshotJobs docs))) } := by
  simp [getMaintenanceJobs, hpath, herr, hidx, hdocs]

theorem getMaintenanceJobs_fallback_error (w : World) (filters : Obj) (e e2 : StoreError)
    (hpath : hasStatusAndDateRange filters = true)
    (herr : w.getDocs (buildQuery filters) = Except.error e)
    (hidx : isMissingIndex e = true)
    (herr2 : w.getDocs (fallbackQuery filters) = Except.error e2) :
    getMaintenanceJobs w filters =
      { issued := [buildQuery filters, fallbackQuery filters], outcome := Except.error e2 } := by
  simp [getMaintenanceJobs, hpath, herr, hidx, herr2]

theorem getMaintenanceJobs_other_error (w : World) (filters : Obj) (e : StoreError)
    (hpath : hasStatusAndDateRange filters = true)
    (herr : w.getDocs (buildQuery filters) = Except.error e)
    (hidx : isMissingIndex e = false) :
    getMaintenanceJobs w filters =
      { issued := [buildQuery filters], outcome := Except.error e } := by
  simp [getMaintenanceJobs, hpath, herr, hidx]

theorem getMaintenanceJobs_plain_error (w : World) (filters : Obj) (e : StoreError)
    (hpath : hasStatusAndDateRange filters = false)
    (herr : w.getDocs (buildQuery filters) = Except.error e) :
    getMaintenanceJobs w filters =
      { issued := [buildQuery filters], outcome := Except.error e } := by
  simp [getMaintenanceJobs, hpath, herr]

theorem isMissingIndex_missingIndexError : isMissingIndex missingIndexError = true := by
  simp [isMissingIndex, missingIndexError]

theorem isMissingIndex_unavailableError : isMissingIndex unavailableError = false := by
  decide

theorem techAndDateFilter_plain : hasStatusAndDateRange techAndDateFilter = false := by
  decide

theorem statusAndDateFilter_indexed : hasStatusAndDateRange statusAndDateFilter = true := by
  decide

/-! ## The filtered read: failures of the store -/

/-- C15, the code at the failing input: with a technician and a date bound but no
status, on a store without the composite index, the missing-index condition of
the store is thrown to the caller after the one query, although the status-free
fallback query would succeed on that store; the same store answers the read with
a status and a date bound from the fallback.  A failure that is a missing-index
condition by its message alone is thrown to the caller in the same way. -/
theorem getMaintenanceJobs_surfaces_missing_index :
    isMissingIndex missingIndexError = true
      ∧ (getMaintenanceJobs (typedWorld [] false) techAndDateFilter).outcome
          = Except.error missingIndexError
      ∧ (getMaintenanceJobs (typedWorld [] false) techAndDateFilter).issued
          = [buildQuery techAndDateFilter]
      ∧ (typedWorld [] false).getDocs (fallbackQuery techAndDateFilter) = Except.ok []
      ∧ (getMaintenanceJobs (typedWorld [] false) statusAndDateFilter).outcome = Except.ok []
      ∧ isMissingIndex buildingIndexError = true
      ∧ (getMaintenanceJobs (failingWorld buildingIndexError) techAndDateFilter).outcome
          = Except.error buildingIndexError := by
  have herr : (typedWorld [] false).getDocs (buildQuery techAndDateFilter)
      = Except.error missingIndexError := by rfl
  rw [getMaintenanceJobs_plain_error _ _ _ techAndDateFilter_plain herr]
  exact ⟨isMissingIndex_missingIndexError, rfl, rfl, rfl, rfl, by decide, rfl⟩

/-- What `getMaintenanceJobs` does when its first query fails with `e`:
with a status and a date bound in the filter and `e` a missing-index condition
(code `failed-precondition`, or a message containing `index`), the fallback
query is run and the call returns the fallback result, or fails with the failure
of the fallback query when that one fails; with a status and a date bound and
any other `e`, and with every `e` when the filter lacks a status or a date
bound, the call fails with `e` itself and no second query is run. -/
theorem getMaintenanceJobs_failures (w : World) (filters : Obj) (e : StoreError)
    (herr : w.getDocs (buildQuery filters) = Except.error e) :
    (hasStatusAndDateRange filters = true → isMissingIndex e = true →
      (getMaintenanceJobs w filters).issued = [buildQuery filters, fallbackQuery filters]
      ∧ (∀ docs, w.getDocs (fallbackQuery filters) = Except.ok docs →
          (getMaintenanceJobs w filters).outcome = Except.ok
            (sortByVisitDesc w.dateParse
              (fallbackFilter w.dateParse filters (snapshotJobs docs))))
      ∧ (∀ e2, w.getDocs (fallbackQuery filters) = Except.error e2 →
          (getMaintenanceJobs w filters).outcome = Except.error e2))
    ∧ (hasStatusAndDateRange filters = true → isMissingIndex e = false →
        (getMaintenanceJobs w filters).issued = [buildQuery filters]
        ∧ (getMaintenanceJobs w filters).outcome = Except.error e)
    ∧ (hasStatusAndDateRange filters = false →
        (getMaintenanceJobs w filters).issued = [buildQuery filters]
        ∧ (getMaintenanceJobs w filters).outcome = Except.error e) := by
  refine ⟨?_, ?_, ?_⟩
  · intro hpath hidx
    refine ⟨?_, ?_, ?_⟩
    · cases hfb : w.getDocs (fallbackQuery filters) with
      | ok docs => rw [getMaintenanceJobs_fallback_ok w filters e docs hpath herr hidx hfb]
      | error e2 => rw [getMaintenanceJobs_fallback_error w filters e e2 hpath herr hidx hfb]
    · intro docs hfb
      rw [getMaintenanceJobs_fallback_ok w filters e docs hpath herr hidx hfb]
    · intro e2 hfb
      rw [getMaintenanceJobs_fallback_error w filters e e2 hpath herr hidx hfb]
  · intro hpath hidx
    rw [getMaintenanceJobs_other_error w filters e hpath herr hidx]
    exact ⟨rfl, rfl⟩
  · intro hpath
    rw [getMaintenanceJobs_plain_error w filters e hpath herr]
    exact ⟨rfl, rfl⟩

/-- Two runs with a failing first query: on a store without composite indexes the
read with a status and a date bound answers from the fallback query; a store
that is unavailable makes it fail with that failure after one query. -/
theorem getMaintenanceJobs_failures_witness :
    (typedWorld [] false).getDocs (buildQuery statusAndDateFilter)
        = Except.error missingIndexError
      ∧ (getMaintenanceJobs (typedWorld [] false) statusAndDateFilter).issued
          = [buildQuery statusAndDateFilter, fallbackQuery statusAndDateFilter]
      ∧ (getMaintenanceJobs (typedWorld [] false) statusAndDateFilter).outcome = Except.ok []
      ∧ (getMaintenanceJobs (failingWorld unavailableError) statusAndDateFilter).issued
          = [buildQuery statusAndDateFilter]
      ∧ (getMaintenanceJobs (failingWorld unavailableError) statusAndDateFilter).outcome
          = Except.error unavailableError := by
  have herr : (typedWorld [] false).getDocs (buildQuery statusAndDateFilter)
      = Except.error missingIndexError := by rfl
  have hfb : (typedWorld [] false).getDocs (fallbackQuery statusAndDateFilter)
      = Except.ok [] := by rfl
  have h1 := (getMaintenanceJobs_failures (typedWorld [] false) statusAndDateFilter
    missingIndexError herr).1 statusAndDateFilter_indexed isMissingIndex_missingIndexError
  have h2 := (getMaintenanceJobs_failures (failingWorld unavailableError) statusAndDateFilter
    unavailableError rfl).2.1 statusAndDateFilter_indexed isMissingIndex_unavailableError
  refine ⟨herr, h1.1, ?_, h2.1, h2.2⟩
  rw [h1.2.1 [] hfb]
  simp [sortByVisitDesc, fallbackFilter, snapshotJobs, repFilter]

/-- The test of the catch block looks at the message too: an error with another
code whose message contains `index` starts the fallback query; an error that
satisfies neither test does not. -/
theorem getMaintenanceJobs_fallback_by_message :
    isMissingIndex buildingIndexError = true
      ∧ (getMaintenanceJobs (failingWorld buildingIndexError) statusAndDateFilter).issued
          = [buildQuery statusAndDateFilter, fallbackQuery statusAndDateFilter]
      ∧ isMissingIndex unavailableError = false
      ∧ (getMaintenanceJobs (failingWorld unavailableError) statusAndDateFilter).issued
          = [buildQuery statusAndDateFilter] :=
  ⟨by decide, rfl, by decide, rfl⟩

/-! ## The filtered read: the representative filter -/

theorem fallbackFilter_eq (dp : String → Option Int) (filters : Obj) (l : List Obj) :
    fallbackFilter dp filters l = repFilter filters (l.filter (passesLocal dp filters)) := by
  have hcongr : ∀ (p q : Obj → Bool), (∀ x, p x = q x) → l.filter p = l.filter q := by
    intro p q h
    exact List.filter_congr (fun x _ => h x)
  have hp : passesLocal dp filters = fun job => passesLocal dp filters job := rfl
  rw [hp]
  cases h1 : (field filters "dateFrom").truthy <;> cases h2 : (field filters "dateTo").truthy <;>
    cases h3 : (field filters "techId").truthy <;> cases h4 : (field filters "repId").truthy <;>
    simp only [fallbackFilter, repFilter, h1, h2, h3, h4, List.filter_filter, if_true,
      if_false, Bool.false_eq_true, passesLocal, Bool.not_true, Bool.not_false, Bool.true_or,
      Bool.false_or, Bool.true_and, Bool.and_true] <;>
    first
      | rfl
      | (apply hcongr; intro x; simp [Bool.and_comm, Bool.and_left_comm, Bool.and_assoc])
      | simp

theorem mem_sortByVisitDesc (dp : String → Option Int) (l : List Obj) (job : Obj) :
    job ∈ sortByVisitDesc dp l ↔ job ∈ l := by
  unfold sortByVisitDesc
  exact (List.perm_insertionSort _ l).mem_iff

theorem mem_repFilter (filters : Obj) (l : List Obj) (job : Obj)
    (hrep : (field filters "repId").truthy = true) :
    job ∈ repFilter filters l ↔ job ∈ l ∧ repMatches (field filters "repId") job = true := by
  simp [repFilter, hrep]

theorem buildQuery_fieldPaths (filters : Obj) (c : Where) (hc : c ∈ buildQuery filters) :
    c.fieldPath = "status" ∨ c.fieldPath = "techId" ∨ c.fieldPath = "visitDate" := by
  simp only [buildQuery, List.mem_append] at hc
  rcases hc with ((hc | hc) | hc) | hc <;> split at hc <;> simp at hc <;> simp [hc]

theorem fallbackQuery_fieldPaths (filters : Obj) (c : Where) (hc : c ∈ fallbackQuery filters) :
    c.fieldPath = "status" := by
  simp only [fallbackQuery] at hc
  split at hc <;> simp at hc
  simp [hc]

theorem issued_cases (w : World) (filters : Obj) (q : Query)
    (hq : q ∈ (getMaintenanceJobs w filters).issued) :
    q = buildQuery filters ∨ q = fallbackQuery filters := by
  unfold getMaintenanceJobs at hq
  split at hq
  · split at hq
    · simp at hq; exact Or.inl hq
    · split at hq
      · split at hq <;> simpa using hq
      · simp at hq; exact Or.inl hq
  · split at hq <;> simp at hq <;> exact Or.inl hq

/-- C12, counterexample: on the fallback path a job that the remote query
delivers and whose legacy `repId` equals the filter is not in the result when
its visit date is before `dateFrom`. -/
theorem getMaintenanceJobs_fallback_drops_matching_job :
    (typedWorld [januaryRepJob] false).getDocs (buildQuery lateFilterWithRep)
        = Except.error missingIndexError
      ∧ (typedWorld [januaryRepJob] false).getDocs (fallbackQuery lateFilterWithRep)
        = Except.ok [januaryRepJob]
      ∧ (getMaintenanceJobs (typedWorld [januaryRepJob] false) lateFilterWithRep).issued
        = [buildQuery lateFilterWithRep, fallbackQuery lateFilterWithRep]
      ∧ (∀ job ∈ snapshotJobs [januaryRepJob],
          specAttributedTo (field lateFilterWithRep "repId") job)
      ∧ (getMaintenanceJobs (typedWorld [januaryRepJob] false) lateFilterWithRep).outcome
        = Except.ok [] := by
  refine ⟨rfl, rfl, rfl, ?_, rfl⟩
  intro job hjob
  simp only [snapshotJobs, List.map_cons, List.map_nil, List.mem_singleton] at hjob
  subst hjob
  exact Or.inl ⟨rfl, rfl⟩

theorem strictEq_iff (a b : Val) : strictEq a b = true ↔ equalsFilter a b := by
  unfold equalsFilter
  cases a with
  | arr ps => cases b with
    | arr qs => simp [strictEq, comparesByValue]
    | prim q => cases q <;> simp [strictEq, comparesByValue]
  | prim p =>
    cases b with
    | arr qs => simp [strictEq, comparesByValue]
    | prim q => cases p <;> cases q <;> simp [strictEq, comparesByValue]

theorem repMatches_iff (repId : Val) (job : Obj) :
    repMatches repId job = true ↔ specAttributedTo repId job := by
  unfold repMatches specAttributedTo
  rw [Bool.or_eq_true, strictEq_iff]
  apply or_congr Iff.rfl
  cases hp : field job "parts" with
  | prim p => simp [partsOf]
  | arr ps =>
    simp only [partsOf, List.any_eq_true, strictEq_iff]

theorem instantGe_iff (a b : Option Int) :
    instantGe a b = true ↔ ∃ x y, a = some x ∧ b = some y ∧ y ≤ x := by
  cases a <;> cases b <;> simp [instantGe]

theorem passesLocal_iff (dp : String → Option Int) (filters job : Obj) :
    passesLocal dp filters job = true ↔ specWithinFilters dp filters job := by
  unfold passesLocal specWithinFilters
  simp only [Bool.and_eq_true, Bool.or_eq_true, Bool.not_eq_true', instantGe_iff, strictEq_iff]
  constructor
  · rintro ⟨⟨h1, h2⟩, h3⟩
    refine ⟨?_, ?_, ?_⟩
    · intro ht
      rcases h1 with h | ⟨x, y, hx, hy, hle⟩
      · rw [ht] at h; exact absurd h (by decide)
      · exact ⟨x, y, hx, hy, hle⟩
    · intro ht
      rcases h2 with h | ⟨x, y, hx, hy, hle⟩
      · rw [ht] at h; exact absurd h (by decide)
      · exact ⟨y, x, hy, hx, hle⟩
    · intro ht
      rcases h3 with h | h
      · rw [ht] at h; exact absurd h (by decide)
      · exact h
  · rintro ⟨h1, h2, h3⟩
    refine ⟨⟨?_, ?_⟩, ?_⟩
    · cases ht : (field filters "dateFrom").truthy with
      | false => exact Or.inl rfl
      | true =>
        obtain ⟨t, b, ht1, hb, hle⟩ := h1 ht
        exact Or.inr ⟨t, b, ht1, hb, hle⟩
    · cases ht : (field filters "dateTo").truthy with
      | false => exact Or.inl rfl
      | true =>
        obtain ⟨t, b, ht1, hb, hle⟩ := h2 ht
        exact Or.inr ⟨b, t, hb, ht1, hle⟩
    · cases ht : (field filters "techId").truthy with
      | false => exact Or.inl rfl
      | true => exact Or.inr (h3 ht)
/-- C12, amended: for a filter with a truthy `repId`, no query sent to the store
has a constraint on `repId`; when the first query succeeds (indexed path and
plain path) the result holds exactly the delivered jobs whose legacy `repId`
equals the filter or one of whose parts has a `repId` equal to the filter; on the
fallback path the result holds exactly the jobs delivered by the status-only
query that lie within the date bounds, are of the technician of the filter, and
are attributed to the representative in that same sense. -/
theorem getMaintenanceJobs_repFilter (w : World) (filters : Obj)
    (hrep : (field filters "repId").truthy = true) :
    (∀ q ∈ (getMaintenanceJobs w filters).issued, ∀ c ∈ q, c.fieldPath ≠ "repId")
    ∧ (∀ docs, w.getDocs (buildQuery filters) = Except.ok docs →
        ∃ res, (getMaintenanceJobs w filters).outcome = Except.ok res
          ∧ ∀ job, job ∈ res ↔
              job ∈ snapshotJobs docs ∧ specAttributedTo (field filters "repId") job)
    ∧ (∀ e docs, hasStatusAndDateRange filters = true →
        w.getDocs (buildQuery filters) = Except.error e → isMissingIndex e = true →
        w.getDocs (fallbackQuery filters) = Except.ok docs →
        ∃ res, (getMaintenanceJobs w filters).outcome = Except.ok res
          ∧ ∀ job, job ∈ res ↔
              job ∈ snapshotJobs docs ∧ specWithinFilters w.dateParse filters job
                ∧ specAttributedTo (field filters "repId") job) := by
  refine ⟨?_, ?_, ?_⟩
  · intro q hq c hc hpath
    rcases issued_cases w filters q hq with h | h
    · subst h
      rcases buildQuery_fieldPaths filters c hc with h1 | h1 | h1 <;>
        rw [hpath] at h1 <;> exact absurd h1 (by decide)
    · subst h
      have h1 := fallbackQuery_fieldPaths filters c hc
      rw [hpath] at h1
      exact absurd h1 (by decide)
  · intro docs hdocs
    refine ⟨sortByVisitDesc w.dateParse (repFilter filters (snapshotJobs docs)), ?_, ?_⟩
    · cases hpath : hasStatusAndDateRange filters with
      | true => rw [getMaintenanceJobs_primary_ok w filters docs hpath hdocs]
      | false => rw [getMaintenanceJobs_plain_ok w filters docs hpath hdocs]
    · intro job
      rw [mem_sortByVisitDesc, mem_repFilter filters _ job hrep, repMatches_iff]
  · intro e docs hpath herr hidx hdocs
    refine ⟨sortByVisitDesc w.dateParse
      (fallbackFilter w.dateParse filters (snapshotJobs docs)), ?_, ?_⟩
    · rw [getMaintenanceJobs_fallback_ok w filters e docs hpath herr hidx hdocs]
    · intro job
      rw [mem_sortByVisitDesc, fallbackFilter_eq, mem_repFilter filters _ job hrep,
        List.mem_filter, and_assoc, repMatches_iff, passesLocal_iff]

/-- C12, witness: on a store without composite indexes, of three completed jobs
the read for representative `R1` from February on returns the one attributed to
`R1` inside `parts`; with the index and the bound at 1 January it returns also
the job whose legacy `repId` is `R1`. -/
theorem getMaintenanceJobs_repFilter_witness :
    (field lateFilterWithRep "repId").truthy = true
      ∧ (getMaintenanceJobs (typedWorld [januaryRepJob, partsOnlyJob, otherRepJob] false)
          lateFilterWithRep).outcome = Except.ok (snapshotJobs [partsOnlyJob])
      ∧ (getMaintenanceJobs (typedWorld [januaryRepJob, partsOnlyJob, otherRepJob] true)
          earlyFilterWithRep).outcome = Except.ok (snapshotJobs [partsOnlyJob, januaryRepJob])
      ∧ (∃ res,
          (getMaintenanceJobs (typedWorld [januaryRepJob, partsOnlyJob, otherRepJob] false)
            lateFilterWithRep).outcome = Except.ok res
          ∧ ∀ job, job ∈ res ↔
              job ∈ snapshotJobs [januaryRepJob, partsOnlyJob, otherRepJob]
                ∧ specWithinFilters isoDateParse lateFilterWithRep job
                ∧ specAttributedTo (field lateFilterWithRep "repId") job) :=
  ⟨by decide, rfl, rfl,
    (getMaintenanceJobs_repFilter (typedWorld [januaryRepJob, partsOnlyJob, otherRepJob] false)
      lateFilterWithRep (by decide)).2.2 missingIndexError
      [januaryRepJob, partsOnlyJob, otherRepJob] (by decide) rfl
      isMissingIndex_missingIndexError rfl⟩
/-! ## The filtered read: the order of the result -/

theorem staysBefore_valid (dp : String → Option Int) (a b : Obj) (x y : Int)
    (ha : visitInstant dp a = some x) (hb : visitInstant dp b = some y) :
    staysBefore dp a b = true ↔ y ≤ x := by
  simp [staysBefore, compareVisit, ha, hb]

theorem orderedInsert_visitNotAfter (dp : String → Option Int) (a : Obj) (x : Int)
    (ha : visitInstant dp a = some x) :
    ∀ l : List Obj, (∀ b ∈ l, ∃ y, visitInstant dp b = some y) →
      l.Pairwise (visitNotAfter dp) →
      (l.orderedInsert (fun a b => staysBefore dp a b = true) a).Pairwise (visitNotAfter dp) := by
  intro l
  induction l with
  | nil => intro _ _; simp
  | cons b l ih =>
    intro hv hs
    obtain ⟨y, hb⟩ := hv b (List.mem_cons_self b l)
    have hvl : ∀ c ∈ l, ∃ z, visitInstant dp c = some z :=
      fun c hc => hv c (List.mem_cons_of_mem b hc)
    rw [List.pairwise_cons] at hs
    rw [List.orderedInsert]
    by_cases hr : staysBefore dp a b = true
    · rw [if_pos hr]
      have hyx : y ≤ x := (staysBefore_valid dp a b x y ha hb).mp hr
      refine List.Pairwise.cons ?_ (List.Pairwise.cons hs.1 hs.2)
      intro c hc
      rcases List.mem_cons.mp hc with h | h
      · subst h
        exact ⟨x, y, ha, hb, hyx⟩
      · obtain ⟨y2, z, hy2, hz, hle⟩ := hs.1 c h
        rw [hb] at hy2
        cases hy2
        exact ⟨x, z, ha, hz, le_trans hle hyx⟩
    · rw [if_neg hr]
      have hxy : x ≤ y := by
        have := (staysBefore_valid dp a b x y ha hb).not.mp hr
        omega
      refine List.Pairwise.cons ?_ (ih hvl hs.2)
      intro c hc
      rcases (List.mem_orderedInsert _).mp hc with h | h
      · subst h
        exact ⟨y, x, hb, ha, hxy⟩
      · exact hs.1 c h

theorem sortByVisitDesc_visitNotAfter (dp : String → Option Int) :
    ∀ l : List Obj, (∀ b ∈ l, ∃ y, visitInstant dp b = some y) →
      (sortByVisitDesc dp l).Pairwise (visitNotAfter dp) := by
  intro l
  induction l with
  | nil => intro _; simp [sortByVisitDesc]
  | cons b l ih =>
    intro hv
    obtain ⟨y, hb⟩ := hv b (List.mem_cons_self b l)
    have hvl : ∀ c ∈ l, ∃ z, visitInstant dp c = some z :=
      fun c hc => hv c (List.mem_cons_of_mem b hc)
    have hmem : ∀ c ∈ sortByVisitDesc dp l, ∃ z, visitInstant dp c = some z :=
      fun c hc => hvl c ((mem_sortByVisitDesc dp l c).mp hc)
    exact orderedInsert_visitNotAfter dp b y hb (sortByVisitDesc dp l) hmem (ih hvl)

theorem outcome_sorted (w : World) (filters : Obj) (res : List Obj)
    (hres : (getMaintenanceJobs w filters).outcome = Except.ok res) :
    ∃ l, res = sortByVisitDesc w.dateParse l := by
  unfold getMaintenanceJobs at hres
  split at hres
  · split at hres
    · simp at hres; exact ⟨_, hres.symm⟩
    · split at hres
      · split at hres
        · simp at hres; exact ⟨_, hres.symm⟩
        · simp at hres
      · simp at hres
  · split at hres
    · simp at hres; exact ⟨_, hres.symm⟩
    · simp at hres

/-- C14, the code at the failing input: with a job lacking a visit date between
them, a job of 1 January stays before a job of 5 January in the result. -/
theorem getMaintenanceJobs_unsorted_counterexample :
    (getMaintenanceJobs (typedWorld [earlyJob, undatedJob, lateJob] true) []).outcome
        = Except.ok (snapshotJobs [earlyJob, undatedJob, lateJob])
      ∧ (∀ job ∈ snapshotJobs [earlyJob], visitInstant isoDateParse job = some 1704067200000)
      ∧ (∀ job ∈ snapshotJobs [undatedJob], visitInstant isoDateParse job = none)
      ∧ (∀ job ∈ snapshotJobs [lateJob], visitInstant isoDateParse job = some 1704412800000)
      ∧ ¬ (snapshotJobs [earlyJob, undatedJob, lateJob]).Pairwise
            (visitNotAfter isoDateParse) := by
  refine ⟨rfl, ?_, ?_, ?_, ?_⟩
  · intro job hjob
    simp only [snapshotJobs, List.map_cons, List.map_nil, List.mem_singleton] at hjob
    subst hjob
    rfl
  · intro job hjob
    simp only [snapshotJobs, List.map_cons, List.map_nil, List.mem_singleton] at hjob
    subst hjob
    rfl
  · intro job hjob
    simp only [snapshotJobs, List.map_cons, List.map_nil, List.mem_singleton] at hjob
    subst hjob
    rfl
  · intro hp
    simp only [snapshotJobs, List.map_cons, List.map_nil, List.pairwise_cons] at hp
    obtain ⟨x, y, hx, hy, hle⟩ := hp.1 _ (List.mem_cons_of_mem _ (List.mem_cons_self _ _))
    have hx2 : visitInstant isoDateParse (earlyJob.2 ++ [("id", vStr earlyJob.1)])
        = some 1704067200000 := rfl
    have hy2 : visitInstant isoDateParse (lateJob.2 ++ [("id", vStr lateJob.1)])
        = some 1704412800000 := rfl
    rw [hx2] at hx
    rw [hy2] at hy
    cases hx
    cases hy
    omega

/-- The order the sort does reach: in every execution path, when every job of the
returned sequence has a valid visit date, the sequence is ordered by non-increasing visit
instant; the instant of a timestamp with non-zero `seconds` is `seconds * 1000`
milliseconds, the same as that of a date or of a date string with that time
value. -/
theorem getMaintenanceJobs_sorted (w : World) (filters : Obj) (res : List Obj)
    (hres : (getMaintenanceJobs w filters).outcome = Except.ok res)
    (hvalid : ∀ job ∈ res, ∃ t, visitInstant w.dateParse job = some t) :
    res.Pairwise (visitNotAfter w.dateParse)
    ∧ (∀ (a b c : Obj) (seconds : Int) (text : String), seconds ≠ 0 →
        |seconds * 1000| ≤ 8640000000000000 →
        field a "visitDate" = Val.prim (Prim.timestamp seconds) →
        field b "visitDate" = Val.prim (Prim.date (seconds * 1000)) →
        field c "visitDate" = vStr text → w.dateParse text = some (seconds * 1000) →
        visitInstant w.dateParse a = some (seconds * 1000)
          ∧ visitInstant w.dateParse b = some (seconds * 1000)
          ∧ visitInstant w.dateParse c = some (seconds * 1000)) := by
  refine ⟨?_, ?_⟩
  · obtain ⟨l, hl⟩ := outcome_sorted w filters res hres
    subst hl
    apply sortByVisitDesc_visitNotAfter
    intro b hb
    exact hvalid b ((mem_sortByVisitDesc w.dateParse l b).mpr hb)
  · intro a b c seconds text h0 hclip ha hb hc hparse
    refine ⟨?_, ?_, ?_⟩
    · simp [visitInstant, ha, h0, timeClip, hclip]
    · simp [visitInstant, hb, newDate]
    · simp [visitInstant, hc, vStr, newDate, hparse]

/-- Three dated jobs, one of them with a timestamp, come back from
the latest to the earliest. -/
theorem getMaintenanceJobs_sorted_witness :
    (getMaintenanceJobs (typedWorld [earlyJob, lateJob, midJob] true) []).outcome
        = Except.ok (snapshotJobs [lateJob, midJob, earlyJob])
      ∧ (∀ job ∈ snapshotJobs [lateJob, midJob, earlyJob],
          ∃ t, visitInstant isoDateParse job = some t)
      ∧ (snapshotJobs [lateJob, midJob, earlyJob]).Pairwise (visitNotAfter isoDateParse) := by
  have hvalid : ∀ job ∈ snapshotJobs [lateJob, midJob, earlyJob],
      ∃ t, visitInstant isoDateParse job = some t := by
    intro job hjob
    simp only [snapshotJobs, List.map_cons, List.map_nil, List.mem_cons, List.mem_singleton,
      List.not_mem_nil, or_false] at hjob
    rcases hjob with h | h | h
    · exact ⟨1704412800000, by rw [h]; rfl⟩
    · exact ⟨1704240000000, by rw [h]; rfl⟩
    · exact ⟨1704067200000, by rw [h]; rfl⟩
  exact ⟨rfl, hvalid,
    (getMaintenanceJobs_sorted (typedWorld [earlyJob, lateJob, midJob] true) []
      (snapshotJobs [lateJob, midJob, earlyJob]) rfl hvalid).1⟩
/-! ## The filtered read: the fallback against the indexed path -/

/-- C13, the code at the failing input: a stored job whose visit date is a
timestamp of 15 January 2024, read with a status and the lower bound `2024-01-01` given as a
string: the indexed query compares the stored value with the string and returns
nothing, the fallback compares the normalised dates and returns the job. -/
theorem getMaintenanceJobs_fallback_differs :
    hasStatusAndDateRange statusAndDateFilter = true
      ∧ (getMaintenanceJobs (typedWorld [timestampJob] true) statusAndDateFilter).issued
          = [buildQuery statusAndDateFilter]
      ∧ (getMaintenanceJobs (typedWorld [timestampJob] true) statusAndDateFilter).outcome
          = Except.ok []
      ∧ (getMaintenanceJobs (typedWorld [timestampJob] false) statusAndDateFilter).issued
          = [buildQuery statusAndDateFilter, fallbackQuery statusAndDateFilter]
      ∧ (getMaintenanceJobs (typedWorld [timestampJob] false) statusAndDateFilter).outcome
          = Except.ok (snapshotJobs [timestampJob]) :=
  ⟨by decide, rfl, rfl, rfl, rfl⟩

/-- With visit dates and bound written as calendar dates, the store with its
index and the store without it give the same sequence: the job of the
representative from February on. -/
theorem getMaintenanceJobs_paths_agree_example :
    hasStatusAndDateRange lateFilterWithRep = true
      ∧ (typedWorld [januaryRepJob, partsOnlyJob, otherRepJob] true).getDocs
          (buildQuery lateFilterWithRep) = Except.ok [partsOnlyJob, otherRepJob]
      ∧ (typedWorld [januaryRepJob, partsOnlyJob, otherRepJob] false).getDocs
          (fallbackQuery lateFilterWithRep)
          = Except.ok [januaryRepJob, partsOnlyJob, otherRepJob]
      ∧ (getMaintenanceJobs (typedWorld [januaryRepJob, partsOnlyJob, otherRepJob] true)
            lateFilterWithRep).outcome = Except.ok (snapshotJobs [partsOnlyJob])
      ∧ (getMaintenanceJobs (typedWorld [januaryRepJob, partsOnlyJob, otherRepJob] false)
            lateFilterWithRep).outcome = Except.ok (snapshotJobs [partsOnlyJob]) :=
  ⟨by decide, rfl, rfl, rfl, rfl⟩

/-! ## The read of settlements: claims -/

theorem getSettlements_unfiltered (getDocs : Query → Except StoreError (List (String × Obj)))
    (filters : Obj) (htype : (field filters "type").truthy = false)
    (hstatus : (field filters "status").truthy = false) (docs : List (String × Obj))
    (hdocs : getDocs [] = Except.ok docs) :
    getSettlements getDocs filters = Except.ok (snapshotJobs docs)
      ∧ specGetSettlements docs filters = snapshotJobs docs := by
  constructor
  · simp [getSettlements, addEqualityFilter, htype, hstatus, readByName, List.lookup, hdocs]
  · simp [specGetSettlements, htype, hstatus]

/-- C21: with `filters.type` or `filters.status` set, `getSettlements` throws
before it reads the store: inside the method the name `query` is the collection
reference declared by `let query`, and the call `query(query, where(...))`
calls that reference, which is not a function. -/
theorem getSettlements_filter_throws
    (getDocs : Query → Except StoreError (List (String × Obj))) (filters : Obj)
    (hset : (field filters "type").truthy = true ∨ (field filters "status").truthy = true) :
    getSettlements getDocs filters = Except.error (ReadError.notAFunction "query") := by
  cases htype : (field filters "type").truthy with
  | true =>
    simp [getSettlements, addEqualityFilter, htype, callByName, List.lookup]
  | false =>
    have hstatus : (field filters "status").truthy = true := by
      rcases hset with h | h
      · rw [htype] at h
        exact absurd h (by decide)
      · exact h
    simp [getSettlements, addEqualityFilter, htype, hstatus, callByName, List.lookup]

/-- C21, witness: with an open and a paid settlement stored, the read of the
open settlements throws, where the specification expects the open one. -/
theorem getSettlements_filter_throws_witness :
    (field openFilter "status").truthy = true
      ∧ getSettlements (typedStore settlementDocs true) openFilter
          = Except.error (ReadError.notAFunction "query")
      ∧ specGetSettlements settlementDocs openFilter
          = snapshotJobs [("s1", [("type", vStr "rep"), ("status", vStr "open"),
              ("repId", vStr "R1")])] :=
  ⟨by decide,
    getSettlements_filter_throws (typedStore settlementDocs true) openFilter
      (Or.inr (by decide)),
    by rfl⟩
/-! ## The aggregators: what every record keeps -/

theorem plusOr0_numeric (a : ℚ) (v : Val) (h : isNumberOrAbsent v = true) :
    plusOr0 (some a) v = some (a + numberOf v) := by
  cases v with
  | arr ps => simp [isNumberOrAbsent] at h
  | prim p =>
    cases p with
    | num q =>
      by_cases hq : q = 0
      · subst hq
        simp [plusOr0, orElse, Val.truthy, Prim.truthy, vNum, numberOf]
      · simp [plusOr0, orElse, Val.truthy, Prim.truthy, numberOf, hq]
    | undefined => simp [plusOr0, orElse, Val.truthy, Prim.truthy, vNum, numberOf]
    | null => simp [plusOr0, orElse, Val.truthy, Prim.truthy, vNum, numberOf]
    | bool b => simp [isNumberOrAbsent] at h
    | nan => simp [isNumberOrAbsent] at h
    | str s => simp [isNumberOrAbsent] at h
    | date d => simp [isNumberOrAbsent] at h
    | timestamp t => simp [isNumberOrAbsent] at h

theorem forall_ensureBucket {β : Type} (key : β → Val) (P : β → Prop) (totals : List β)
    (id : Val) (fresh : β) (h : ∀ x ∈ totals, P x) (hf : P fresh) :
    ∀ x ∈ ensureBucket key totals id fresh, P x := by
  unfold ensureBucket
  split
  · exact h
  · intro x hx
    rcases List.mem_append.mp hx with hm | hm
    · exact h x hm
    · rw [List.mem_singleton] at hm
      rw [hm]
      exact hf

theorem forall_modifyBucket {β : Type} (key : β → Val) (P : β → Prop) (totals : List β)
    (id : Val) (f : β → β) (h : ∀ x ∈ totals, P x) (hf : ∀ x, P x → P (f x)) :
    ∀ x ∈ modifyBucket key totals id f, P x := by
  unfold modifyBucket
  intro x hx
  obtain ⟨y, hy, hxy⟩ := List.mem_map.mp hx
  rw [← hxy]
  split
  · exact hf y (h y hy)
  · exact h y hy

/-- What holds before a `forEach` and is kept by every run of its body that does
not throw, holds after it. -/
theorem forEachThrowing_invariant {σ α ε : Type} (body : σ → α → Except ε σ) (Q : σ → Prop)
    (l : List α) (hbody : ∀ s a s2, a ∈ l → Q s → body s a = Except.ok s2 → Q s2) :
    ∀ s s2, Q s → forEachThrowing body s l = Except.ok s2 → Q s2 := by
  induction l with
  | nil =>
    intro s s2 hs h
    simp only [forEachThrowing] at h
    cases h
    exact hs
  | cons a rest ih =>
    intro s s2 hs h
    simp only [forEachThrowing] at h
    cases hb : body s a with
    | error e =>
      rw [hb] at h
      cases h
    | ok s1 =>
      rw [hb] at h
      exact ih (fun s a s2 ha => hbody s a s2 (List.mem_cons_of_mem _ ha)) s1 s2
        (hbody s a s1 (List.mem_cons_self _ _) hs hb) h

theorem foldl_invariant {σ α : Type} (f : σ → α → σ) (Q : σ → Prop) (l : List α)
    (hf : ∀ s a, a ∈ l → Q s → Q (f s a)) : ∀ s, Q s → Q (l.foldl f s) := by
  induction l with
  | nil => intro s hs; exact hs
  | cons a rest ih =>
    intro s hs
    rw [List.foldl_cons]
    exact ih (fun s a ha => hf s a (List.mem_cons_of_mem _ ha)) _
      (hf s a (List.mem_cons_self _ _) hs)

/-- Adding the derived fields of a consistent job keeps three sums balanced. -/
theorem sumsBalanced_plusOr0 (a b c : Option ℚ) (job : Obj) (h : SumsBalanced a b c)
    (hp : isNumberOrAbsent (field job "profit") = true)
    (ht : isNumberOrAbsent (field job "techCommission") = true)
    (hs : isNumberOrAbsent (field job "shopProfit") = true)
    (heq : numberOf (field job "shopProfit")
      = numberOf (field job "profit") - numberOf (field job "techCommission")) :
    SumsBalanced (plusOr0 a (field job "profit")) (plusOr0 b (field job "techCommission"))
      (plusOr0 c (field job "shopProfit")) := by
  obtain ⟨p, t, s, hpa, htb, hsc, hbal⟩ := h
  rw [hpa, htb, hsc, plusOr0_numeric p _ hp, plusOr0_numeric t _ ht, plusOr0_numeric s _ hs]
  exact ⟨_, _, _, rfl, rfl, rfl, by rw [hbal, heq]; ring⟩

theorem sumsBalanced_zero : SumsBalanced (some 0) (some 0) (some 0) :=
  ⟨0, 0, 0, rfl, rfl, rfl, by norm_num⟩

/-- Every record of the technicians' dictionary keeps its sums balanced through
a consistent job. -/
theorem techStep_balanced (totals : List TechTotals) (job : Obj)
    (hjob : DerivedConsistent [job])
    (h : ∀ x ∈ totals, SumsBalanced x.profitSum x.techCommissionSum x.shopProfitSum) :
    ∀ x ∈ techStep totals job,
      SumsBalanced x.profitSum x.techCommissionSum x.shopProfitSum := by
  obtain ⟨hp, ht, hs, heq⟩ := hjob job (List.mem_singleton.mpr rfl)
  unfold techStep
  split
  · exact h
  · split
    · exact h
    · apply forall_modifyBucket
      · apply forall_ensureBucket _ _ _ _ _ h
        exact sumsBalanced_zero
      · intro x hx
        exact sumsBalanced_plusOr0 _ _ _ job hx hp ht hs heq

/-- Every record of the representatives' dictionary keeps its detail list as
long as its `partsCount` and its sums balanced through a consistent job that does
not throw. -/
theorem repStep_balanced (totals totals2 : List RepTotals) (job : Obj)
    (hjob : DerivedConsistent [job])
    (h : ∀ x ∈ totals, x.jobs.length = x.partsCount
      ∧ SumsBalanced x.profitSum x.techCommissionSum x.shopProfitSum)
    (hstep : repStep totals job = Except.ok totals2) :
    ∀ x ∈ totals2, x.jobs.length = x.partsCount
      ∧ SumsBalanced x.profitSum x.techCommissionSum x.shopProfitSum := by
  obtain ⟨hp, ht, hs, heq⟩ := hjob job (List.mem_singleton.mpr rfl)
  unfold repStep at hstep
  split at hstep
  · cases hparts : forEachThrowing (accruePart job) totals (partsOf (field job "parts")) with
    | error e =>
      rw [hparts] at hstep
      cases hstep
    | ok t1 =>
      rw [hparts] at hstep
      simp only [Except.ok.injEq] at hstep
      rw [← hstep]
      have h1 := forEachThrowing_invariant (accruePart job)
        (fun ts : List RepTotals => ∀ x ∈ ts, x.jobs.length = x.partsCount
          ∧ SumsBalanced x.profitSum x.techCommissionSum x.shopProfitSum)
        (partsOf (field job "parts"))
        (by
          intro ts part ts2 _ hts hbody
          unfold accruePart at hbody
          split at hbody
          · cases hbody
            exact hts
          · split at hbody
            · cases hbody
            · cases hbody
              apply forall_modifyBucket
              · apply forall_ensureBucket _ _ _ _ _ hts
                exact ⟨rfl, sumsBalanced_zero⟩
              · intro x hx
                refine ⟨?_, hx.2⟩
                simp [partBump, hx.1])
        totals t1 h hparts
      apply foldl_invariant countJobFor
        (fun ts : List RepTotals => ∀ x ∈ ts, x.jobs.length = x.partsCount
          ∧ SumsBalanced x.profitSum x.techCommissionSum x.shopProfitSum)
      · intro ts p _ hts
        unfold countJobFor
        apply forall_modifyBucket _ _ _ _ _ hts
        intro x hx
        exact hx
      · exact h1
  · split at hstep
    · unfold accrueLegacy at hstep
      split at hstep
      · cases hstep
      · cases hstep
        apply forall_modifyBucket
        · apply forall_ensureBucket _ _ _ _ _ h
          exact ⟨rfl, sumsBalanced_zero⟩
        · intro x hx
          refine ⟨?_, ?_⟩
          · simp [legacyBump, hx.1]
          · exact sumsBalanced_plusOr0 _ _ _ job hx.2 hp ht hs heq
    · cases hstep
      exact h

theorem balancedJobs_consistent : DerivedConsistent balancedJobs := by
  intro job hjob
  simp only [balancedJobs, List.mem_cons, List.mem_singleton, List.not_mem_nil, or_false] at hjob
  rcases hjob with h | h <;> subst h <;>
    simp [field, List.lookup, isNumberOrAbsent, numberOf, vNum, vStr] <;> norm_num

/-- C22: when the derived fields of every job are numbers (or absent) with
`shopProfit = profit - techCommission`, every record of `getTechSettlements` and
every record that `getRepSettlements` returns has numeric sums with
`shopProfitSum = profitSum - techCommissionSum` in exact arithmetic, and the
detail list of every record that `getRepSettlements` returns has as many entries
as its `partsCount`. -/
theorem settlements_balanced (jobs : List Obj) (hcons : DerivedConsistent jobs) :
    (∀ x ∈ getTechSettlements jobs, ∃ p t s : ℚ, x.profitSum = some p
        ∧ x.techCommissionSum = some t ∧ x.shopProfitSum = some s ∧ s = p - t)
    ∧ (∀ recs, getRepSettlements jobs = Except.ok recs →
        ∀ x ∈ recs, ∃ p t s : ℚ, x.profitSum = some p
          ∧ x.techCommissionSum = some t ∧ x.shopProfitSum = some s ∧ s = p - t)
    ∧ (∀ recs, getRepSettlements jobs = Except.ok recs →
        ∀ x ∈ recs, x.jobs.length = x.partsCount) := by
  have hone : ∀ job ∈ jobs, DerivedConsistent [job] := by
    intro job hj j hjmem
    rw [List.mem_singleton] at hjmem
    rw [hjmem]
    exact hcons job hj
  have hrep : ∀ recs, getRepSettlements jobs = Except.ok recs →
      ∀ x ∈ recs, x.jobs.length = x.partsCount
        ∧ SumsBalanced x.profitSum x.techCommissionSum x.shopProfitSum := by
    intro recs hrecs
    exact forEachThrowing_invariant repStep
      (fun ts : List RepTotals => ∀ x ∈ ts, x.jobs.length = x.partsCount
        ∧ SumsBalanced x.profitSum x.techCommissionSum x.shopProfitSum)
      jobs
      (fun ts job ts2 hj hts hstep => repStep_balanced ts ts2 job (hone job hj) hts hstep)
      [] recs (fun x hx => absurd hx (List.not_mem_nil x)) hrecs
  refine ⟨?_, ?_, ?_⟩
  · exact foldl_invariant techStep
      (fun ts : List TechTotals => ∀ x ∈ ts,
        SumsBalanced x.profitSum x.techCommissionSum x.shopProfitSum)
      jobs (fun ts job hj hts => techStep_balanced ts job (hone job hj) hts)
      [] (fun x hx => absurd hx (List.not_mem_nil x))
  · intro recs hrecs x hx
    exact (hrep recs hrecs x hx).2
  · intro recs hrecs x hx
    exact (hrep recs hrecs x hx).1

/-- C22, witness: two consistent jobs of one technician and one
representative. -/
theorem settlements_balanced_witness :
    DerivedConsistent balancedJobs
      ∧ (getTechSettlements balancedJobs).length = 1
      ∧ (∀ x ∈ getTechSettlements balancedJobs, ∃ p t s : ℚ, x.profitSum = some p
          ∧ x.techCommissionSum = some t ∧ x.shopProfitSum = some s ∧ s = p - t)
      ∧ (∃ recs, getRepSettlements balancedJobs = Except.ok recs ∧ recs.length = 1
          ∧ ∀ x ∈ recs, x.jobs.length = x.partsCount) :=
  ⟨balancedJobs_consistent, by rfl,
    (settlements_balanced balancedJobs balancedJobs_consistent).1,
    ⟨_, rfl, rfl,
      (settlements_balanced balancedJobs balancedJobs_consistent).2.2 _ rfl⟩⟩

/-! ## The aggregators at single jobs -/

/-- The technicians' records for one job with a technician whose id names no
inherited property. -/
theorem getTechSettlements_single (job : Obj) (htr : (field job "techId").truthy = true)
    (hni : isInheritedName (field job "techId") = false) :
    getTechSettlements [job]
      = [techBump job (newTechTotals (field job "techId")
          (orElse (field job "techName") placeholderName))] := by
  simp [getTechSettlements, techStep, htr, hni, ensureBucket, modifyBucket, techKey,
    newTechTotals, techBump]

/-- The representatives' records for one legacy job with a representative whose
id names no inherited property. -/
theorem getRepSettlements_single_legacy (job : Obj)
    (hparts : isNonEmptyArray (field job "parts") = false)
    (htr : (field job "repId").truthy = true)
    (hni : isInheritedName (field job "repId") = false) :
    getRepSettlements [job]
      = Except.ok [legacyBump job (newRepTotals (field job "repId")
          (orElse (field job "repName") placeholderName))] := by
  simp [getRepSettlements, forEachThrowing, repStep, hparts, htr, accrueLegacy, hni,
    ensureBucket, modifyBucket, repKey, newRepTotals, legacyBump]

theorem stringCharge_field (k : String) (h1 : k ≠ "profit") (h2 : k ≠ "techCommission")
    (h3 : k ≠ "shopProfit") (h4 : k ≠ "status") (h5 : k ≠ "createdAt") (h6 : k ≠ "updatedAt")
    (h7 : k ≠ "totalPartCost") :
    field (newJobRecord stringChargeData 0) k = field stringChargeData k := by
  rw [newJobRecord_field _ _ k h1 h2 h3 h4 h5 h6, field_fillTotalPartCost _ _ k h7]

theorem stringCharge_derived :
    HasDerived (newJobRecord stringChargeData 0) (Derived.mk 150 75 75) := by
  have h := newJobRecord_hasDerived stringChargeData 0
  have hc : computeDerived (vNum (createTotalPartCost stringChargeData))
      (field stringChargeData "amountCharged") (field stringChargeData "techPercent")
      = Derived.mk 150 75 75 := by
    simp [computeDerived, createTotalPartCost, stringChargeData, field, List.lookup,
      isNonEmptyArray, vUndef, vNum, vStr, numOr0, Val.toNumber, Prim.toNumber,
      stringToNumber_two_hundred, techRate]
    norm_num
  rw [hc] at h
  exact h

/-- C4, the code at the failing input: the job that `addMaintenanceJob` persists
for a legacy job data charged `"200"` (the string of an input field) keeps that
string beside the derived fields 150, 75, 75 computed from the number 200; in the
record of its representative `profitSum` is 150 and `revenueSum` is no number any
more (`0 + "200"` is the string `"0200"`), where the sum of the amounts charged
is 200. -/
theorem getRepSettlements_revenueSum_not_a_number :
    field (newJobRecord stringChargeData 0) "amountCharged" = vStr "200"
    ∧ numOr0 (field (newJobRecord stringChargeData 0) "amountCharged") = 200
    ∧ field (newJobRecord stringChargeData 0) "profit" = vNum 150
    ∧ ∃ x, getRepSettlements [newJobRecord stringChargeData 0] = Except.ok [x]
        ∧ x.repId = vStr "R1" ∧ x.jobsCount = 1 ∧ x.profitSum = some 150
        ∧ x.revenueSum = none := by
  have hac : field (newJobRecord stringChargeData 0) "amountCharged" = vStr "200" := by
    rw [stringCharge_field "amountCharged" (by decide) (by decide) (by decide) (by decide)
      (by decide) (by decide) (by decide)]
    rfl
  have hrep : field (newJobRecord stringChargeData 0) "repId" = vStr "R1" := by
    rw [stringCharge_field "repId" (by decide) (by decide) (by decide) (by decide)
      (by decide) (by decide) (by decide)]
    rfl
  have hparts : field (newJobRecord stringChargeData 0) "parts" = vUndef := by
    rw [stringCharge_field "parts" (by decide) (by decide) (by decide) (by decide)
      (by decide) (by decide) (by decide)]
    rfl
  refine ⟨hac, ?_, stringCharge_derived.1, _, getRepSettlements_single_legacy _ ?_ ?_ ?_,
    ?_, ?_, ?_, ?_⟩
  · rw [hac]
    simp [numOr0, Val.toNumber, Prim.toNumber, vStr, stringToNumber_two_hundred]
  · rw [hparts]
    rfl
  · rw [hrep]
    rfl
  · rw [hrep]
    decide
  · simp only [legacyBump, newRepTotals]
    exact hrep
  · simp [legacyBump, newRepTotals]
  · simp only [legacyBump, newRepTotals, stringCharge_derived.1]
    simp [plusOr0, orElse, vNum, Val.truthy, Prim.truthy]
  · simp only [legacyBump, newRepTotals, hac]
    simp [plusOr0, orElse, vStr, Val.truthy, Prim.truthy]

/-- C5, the code at the failing input: for the same persisted job, charged
`"200"`, the record of its technician has `jobsCount` 1 and `profitSum` 150, and
its `revenueSum` is no number any more (`0 + "200"` is the string `"0200"`),
where the sum of the amounts charged is 200. -/
theorem getTechSettlements_revenueSum_not_a_number :
    field (newJobRecord stringChargeData 0) "amountCharged" = vStr "200"
    ∧ numOr0 (field (newJobRecord stringChargeData 0) "amountCharged") = 200
    ∧ ∃ x, getTechSettlements [newJobRecord stringChargeData 0] = [x]
        ∧ x.techId = vStr "T1" ∧ x.jobsCount = 1 ∧ x.profitSum = some 150
        ∧ x.revenueSum = none := by
  have hac : field (newJobRecord stringChargeData 0) "amountCharged" = vStr "200" := by
    rw [stringCharge_field "amountCharged" (by decide) (by decide) (by decide) (by decide)
      (by decide) (by decide) (by decide)]
    rfl
  have htech : field (newJobRecord stringChargeData 0) "techId" = vStr "T1" := by
    rw [stringCharge_field "techId" (by decide) (by decide) (by decide) (by decide)
      (by decide) (by decide) (by decide)]
    rfl
  refine ⟨hac, ?_, _, getTechSettlements_single _ ?_ ?_, ?_, ?_, ?_, ?_⟩
  · rw [hac]
    simp [numOr0, Val.toNumber, Prim.toNumber, vStr, stringToNumber_two_hundred]
  · rw [htech]
    rfl
  · rw [htech]
    decide
  · simp only [techBump, newTechTotals]
    exact htech
  · simp [techBump, newTechTotals]
  · simp only [techBump, newTechTotals, stringCharge_derived.1]
    simp [plusOr0, orElse, vNum, Val.truthy, Prim.truthy]
  · simp only [techBump, newTechTotals, hac]
    simp [plusOr0, orElse, vStr, Val.truthy, Prim.truthy]

/-- C6, the code at the failing input: the job that `addMaintenanceJob` persists
for a job data with one part of cost 30 has total part cost 30 (stored as
`totalPartCost`), and the record of its technician has `partCostSum` 0, because
`getTechSettlements` adds the legacy field `partCost` only. -/
theorem getTechSettlements_partCostSum_ignores_parts :
    field (newJobRecord partsJobData 0) "totalPartCost" = vNum 30
    ∧ numOr0 (specTotalPartCost (newJobRecord partsJobData 0)) = 30
    ∧ ∃ x ∈ getTechSettlements [newJobRecord partsJobData 0],
        x.techId = vStr "T1" ∧ x.partCostSum = some 0 := by
  have hparts : field (newJobRecord partsJobData 0) "parts"
      = Val.arr [Part.mk (Prim.str "screen") (Prim.num 30) (Prim.str "R1") Prim.undefined] := by
    rw [newJobRecord_field _ _ "parts" (by decide) (by decide) (by decide) (by decide)
      (by decide) (by decide), field_fillTotalPartCost _ _ "parts" (by decide)]
    simp [partsJobData, field, List.lookup]
  have htech : field (newJobRecord partsJobData 0) "techId" = vStr "T1" := by
    rw [newJobRecord_field _ _ "techId" (by decide) (by decide) (by decide) (by decide)
      (by decide) (by decide), field_fillTotalPartCost _ _ "techId" (by decide)]
    simp [partsJobData, field, List.lookup]
  have hpc : field (newJobRecord partsJobData 0) "partCost" = vUndef := by
    rw [newJobRecord_field _ _ "partCost" (by decide) (by decide) (by decide) (by decide)
      (by decide) (by decide), field_fillTotalPartCost _ _ "partCost" (by decide)]
    simp [partsJobData, field, List.lookup]
  have hcreate : createTotalPartCost partsJobData = 30 := by
    simp [createTotalPartCost, partsJobData, field, List.lookup, isNonEmptyArray, partsOf,
      sumPartCosts, primNumOr0, Prim.toNumber]
  refine ⟨?_, ?_, ?_⟩
  · rw [newJobRecord_field _ _ "totalPartCost" (by decide) (by decide) (by decide)
      (by decide) (by decide) (by decide), hcreate]
    simp [fillTotalPartCost, partsJobData, field, List.lookup, setField, Val.truthy,
      Prim.truthy, vUndef]
  · rw [numOr0_specTotalPartCost]
    unfold createTotalPartCost
    rw [hparts]
    simp [isNonEmptyArray, partsOf, sumPartCosts, primNumOr0, Prim.toNumber]
  · rw [getTechSettlements_single _ (by rw [htech]; rfl) (by rw [htech]; decide)]
    refine ⟨_, List.mem_singleton.mpr rfl, ?_, ?_⟩
    · simp only [techBump, newTechTotals]
      exact htech
    · simp only [techBump, newTechTotals, hpc]
      simp [plusOr0, orElse, vUndef, vNum, Val.truthy, Prim.truthy]

theorem propertyName_one : propertyName (Val.prim (Prim.num 1)) = some "1" := by
  simp [propertyName, numberToString]
  rfl

/-- C3, the code at the failing input: for a job with one part whose
representative id is the string `constructor`, `getRepSettlements` throws
instead of returning a record of that representative; for a job with a part of
the representative `1` (a number) and a part of the representative `"1"` (a
string) it returns one record, of the id `1`, that counts both parts and counts
the job twice, and no record of the id `"1"`. -/
theorem getRepSettlements_inherited_name_throws :
    getRepSettlements [inheritedNameJob]
        = Except.error (AggregationError.pushOnUndefined (vStr "constructor"))
    ∧ getRepSettlements [mergedIdsJob]
        = Except.ok [RepTotals.mk (vNum 1) (vStr "Rep One") 2 2 50 (some 0) (some 0) (some 0)
            (some 0)
            [JobDetail.mk (vStr "j2") vUndef vUndef vUndef (vStr "screen") 30,
             JobDetail.mk (vStr "j2") vUndef vUndef vUndef (vStr "battery") 20]] := by
  have hk1 : idKey (Val.prim (Prim.num 1)) = vStr "1" := by
    simp [idKey, propertyName_one]
  have hk2 : idKey (Val.prim (Prim.str "1")) = vStr "1" := rfl
  have hi1 : isInheritedName (Val.prim (Prim.num 1)) = false := by
    simp [isInheritedName, propertyName_one, objectPrototypeNames]
  have hi2 : isInheritedName (Val.prim (Prim.str "1")) = false := by decide
  refine ⟨rfl, ?_⟩
  simp [getRepSettlements, forEachThrowing, repStep, mergedIdsJob, field, List.lookup,
    isNonEmptyArray, partsOf, accruePart, Prim.truthy, hk1, hk2, hi1, hi2, ensureBucket,
    modifyBucket, repKey, newRepTotals, partBump, uniqueReps, isObjectId, countJobFor,
    jobBump, List.dedup, vStr, vNum, vUndef, orElse, Val.truthy, placeholderName, primNumOr0,
    Prim.toNumber]
  norm_num

/-- The example of the specification and a legacy job: the job with parts of
cost 30 and 20 of `R1` and one of cost 10 of `R2`, followed by a legacy job of
`R1` with part cost 40, gives `R1` two jobs, three parts and the cost 90, with
the money sums of the legacy job alone, and `R2` one job, one part and the cost
10. -/
theorem getRepSettlements_example :
    getRepSettlements [threePartsJob, legacyRepJob]
      = Except.ok
        [RepTotals.mk (vStr "R1") placeholderName 2 3 90 (some 60) (some 30) (some 30)
            (some 100)
            [JobDetail.mk vUndef vUndef vUndef vUndef vUndef 30,
             JobDetail.mk vUndef vUndef vUndef vUndef vUndef 20,
             JobDetail.mk vUndef vUndef vUndef vUndef (vStr "قطعة") 40],
         RepTotals.mk (vStr "R2") placeholderName 1 1 10 (some 0) (some 0) (some 0) (some 0)
            [JobDetail.mk vUndef vUndef vUndef vUndef vUndef 10]] := by
  have hk1 : idKey (Val.prim (Prim.str "R1")) = vStr "R1" := rfl
  have hk2 : idKey (Val.prim (Prim.str "R2")) = vStr "R2" := rfl
  have hi1 : isInheritedName (Val.prim (Prim.str "R1")) = false := by decide
  have hi2 : isInheritedName (Val.prim (Prim.str "R2")) = false := by decide
  have hu : uniqueReps
      [Part.mk Prim.undefined (Prim.num 30) (Prim.str "R1") Prim.undefined,
       Part.mk Prim.undefined (Prim.num 20) (Prim.str "R1") Prim.undefined,
       Part.mk Prim.undefined (Prim.num 10) (Prim.str "R2") Prim.undefined]
      = [Prim.str "R1", Prim.str "R2"] := by rfl
  simp [getRepSettlements, forEachThrowing, repStep, threePartsJob, legacyRepJob, field,
    List.lookup, isNonEmptyArray, partsOf, accruePart, accrueLegacy, Prim.truthy, hk1, hk2,
    hi1, hi2, ensureBucket, modifyBucket, repKey, newRepTotals, partBump, legacyBump,
    hu, countJobFor, jobBump, vStr, vNum, vUndef, orElse,
    Val.truthy, placeholderName, primNumOr0, Prim.toNumber, legacyPartCost, numOr0,
    Val.toNumber, plusOr0]
  norm_num
end Ostora
